import Mathlib

/-!
Verification development for the scene-graph core (`src/scene/graph.rs`).

The graph code is shallowly embedded below.  Machine floats that are only
ever moved (velocities, masses, damping, times of impact, …) are modelled as
integers; the 4x4 transform matrices are modelled as elements of an
arbitrary monoid `M` (matrix multiplication is the monoid operation and the
identity matrix is `1`); quaternions and physics shapes are modelled as
opaque integer / natural-number tokens since the code only copies them
around.  The generation-checked node arena (`Pool`) and the external
rigid-body engine live outside the sources, so those parts are modelled
from the specification (see the individual doc comments).
-/

set_option autoImplicit false

namespace Fyrox

/-- Handle into the node arena: a slot index paired with a generation.
`Handle::NONE` is `⟨0, 0⟩`; occupied slots always carry generation ≥ 1, so
`NONE` never addresses a live node. -/
structure Handle where
  index : Nat
  generation : Nat
deriving DecidableEq, Repr

def Handle.NONE : Handle := ⟨0, 0⟩

/-- State of one arena slot.  Modelled from the spec: the reservation /
forget-ticket idiom is an explicit three-state slot (Empty / Reserved /
Occupied). -/
inductive SlotState (α : Type) where
  | vacant
  | reserved
  | occupied (value : α)
deriving DecidableEq

def SlotState.isOccupied {α : Type} : SlotState α → Bool
  | .occupied _ => true
  | _ => false

def SlotState.isVacant {α : Type} : SlotState α → Bool
  | .vacant => true
  | _ => false

/-- One arena slot: its current generation together with its state. -/
structure Slot (α : Type) where
  generation : Nat
  state : SlotState α
deriving DecidableEq

/-- Modelled from the spec: the generation-checked slot arena (`Pool<T>` of
the engine core, which is not part of the given sources).  Slots are kept in
a list indexed by `Handle.index`. -/
structure Pool (α : Type) where
  slots : List (Slot α)
deriving DecidableEq

namespace Pool

variable {α : Type}

def empty : Pool α := ⟨[]⟩

/-- Number of slots (`get_capacity`). -/
def len (p : Pool α) : Nat := p.slots.length

/-- Modelled from the spec: `try_borrow` returns the value iff the slot at
`h.index` is occupied and its stored generation equals `h.generation`;
stale or out-of-range handles yield `none`, never a fault. -/
def tryBorrow (p : Pool α) (h : Handle) : Option α :=
  match p.slots[h.index]? with
  | some s =>
    if s.generation = h.generation then
      match s.state with
      | .occupied v => some v
      | _ => none
    else none
  | none => none

/-- Index of the first vacant slot, if any. -/
def findVacant (p : Pool α) : Option Nat :=
  (List.range p.slots.length).find? fun i =>
    (p.slots[i]?.map fun s => s.state.isVacant).getD false

/-- Modelled from the spec: `spawn` reuses a vacant slot (bumping its
generation, so the new generation is strictly greater than any generation a
stale handle to this slot can carry) or appends a fresh slot with
generation 1. -/
def spawn (p : Pool α) (v : α) : Handle × Pool α :=
  match p.findVacant with
  | some i =>
    let g := (p.slots[i]?.map Slot.generation).getD 0
    (⟨i, g + 1⟩, ⟨p.slots.set i ⟨g + 1, .occupied v⟩⟩)
  | none => (⟨p.slots.length, 1⟩, ⟨p.slots ++ [⟨1, .occupied v⟩]⟩)

/-- Modelled from the spec: `free` removes and returns the value; an
invalid handle is a fatal fault, rendered as `none`.  The slot keeps its
generation and becomes vacant, so the next `spawn` into it uses a strictly
greater generation. -/
def free (p : Pool α) (h : Handle) : Option (α × Pool α) :=
  (p.tryBorrow h).map fun v => (v, ⟨p.slots.set h.index ⟨h.generation, .vacant⟩⟩)

/-- Overwrite the value of an occupied slot (`pool[h] = …` mutation through
`IndexMut`); a fault (`none`) on an invalid handle. -/
def setAt (p : Pool α) (h : Handle) (v : α) : Option (Pool α) :=
  (p.tryBorrow h).map fun _ => ⟨p.slots.set h.index ⟨h.generation, .occupied v⟩⟩

/-- Modelled from the spec: `take_reserve` removes the value but keeps the
slot reserved (not reusable) under the same generation; the ticket is the
original handle acting as the capability for the slot. -/
def takeReserve (p : Pool α) (h : Handle) : Option (Handle × α × Pool α) :=
  (p.tryBorrow h).map fun v => (h, v, ⟨p.slots.set h.index ⟨h.generation, .reserved⟩⟩)

/-- Modelled from the spec: `put_back` restores a value into the reserved
slot named by the ticket, at the same index and generation. -/
def putBack (p : Pool α) (t : Handle) (v : α) : Option (Handle × Pool α) :=
  match p.slots[t.index]? with
  | some s =>
    if s.generation = t.generation then
      match s.state with
      | .reserved => some (t, ⟨p.slots.set t.index ⟨t.generation, .occupied v⟩⟩)
      | _ => none
    else none
  | none => none

/-- Modelled from the call-site types in the sources: `borrow_two_mut`
yields two distinct mutable references and must fault on aliased or invalid
handles (a returned tuple of `&mut` cannot alias). -/
def borrowTwoMut (p : Pool α) (hs : Handle × Handle) : Option (α × α) :=
  if hs.1 = hs.2 then none
  else do
    let a ← p.tryBorrow hs.1
    let b ← p.tryBorrow hs.2
    pure (a, b)

/-- Modelled from the call-site types in the sources: `borrow_three_mut` is
called by `Graph::get_three_mut`, whose return type is a bare triple of
mutable references with no error channel; on aliased handles the only
possible behaviour is a fault, rendered as `none`. -/
def borrowThreeMut (p : Pool α) (hs : Handle × Handle × Handle) : Option (α × α × α) :=
  if hs.1 = hs.2.1 ∨ hs.1 = hs.2.2 ∨ hs.2.1 = hs.2.2 then none
  else do
    let a ← p.tryBorrow hs.1
    let b ← p.tryBorrow hs.2.1
    let c ← p.tryBorrow hs.2.2
    pure (a, b, c)

/-- Modelled from the call-site types in the sources: four-way simultaneous
mutable borrow, faulting on any aliased pair. -/
def borrowFourMut (p : Pool α) (hs : Handle × Handle × Handle × Handle) :
    Option (α × α × α × α) :=
  if hs.1 = hs.2.1 ∨ hs.1 = hs.2.2.1 ∨ hs.1 = hs.2.2.2 ∨ hs.2.1 = hs.2.2.1 ∨
      hs.2.1 = hs.2.2.2 ∨ hs.2.2.1 = hs.2.2.2 then none
  else do
    let a ← p.tryBorrow hs.1
    let b ← p.tryBorrow hs.2.1
    let c ← p.tryBorrow hs.2.2.1
    let d ← p.tryBorrow hs.2.2.2
    pure (a, b, c, d)

/-- Handles of all currently occupied slots, in index order (the iteration
order of `pair_iter`). -/
def aliveList (p : Pool α) : List Handle :=
  (List.range p.slots.length).filterMap fun i =>
    match p.slots[i]? with
    | some s =>
      match s.state with
      | .occupied _ => some ⟨i, s.generation⟩
      | _ => none
    | none => none

def aliveCount (p : Pool α) : Nat := p.aliveList.length

end Pool

/-- Simple association list keyed by opaque natural-number identifiers,
used for the external physics containers and `collider_map`. -/
abbrev AList (β : Type) : Type := List (Nat × β)

namespace AList

variable {β : Type}

def get : AList β → Nat → Option β
  | [], _ => none
  | e :: rest, k => if e.1 = k then some e.2 else get rest k

def erase : AList β → Nat → AList β
  | [], _ => []
  | e :: rest, k => if e.1 = k then erase rest k else e :: erase rest k

def set : AList β → Nat → β → AList β
  | [], _, _ => []
  | e :: rest, k, v => if e.1 = k then (k, v) :: set rest k v else e :: set rest k v

end AList

/-- Three machine scalars; the concrete float arithmetic is irrelevant to
the claims, so coordinates are integers. -/
abbrev Vec3 : Type := Int × Int × Int

/-- Body type of a rigid body (`RigidBodyType` ↦ rapier body status). -/
inductive RigidBodyType where
  | dynamic
  | staticBody
  | kinematic
deriving DecidableEq, Repr

/-- Dirty bitmask of a rigid-body node (`RigidBodyChanges`), one flag per
field drained by `sync_native_physics`. -/
structure RigidBodyChanges where
  bodyType : Bool
  linVel : Bool
  angVel : Bool
  mass : Bool
  linDamping : Bool
  angDamping : Bool
  rotationLocked : Bool
deriving DecidableEq, Repr

/-- Variant payload of a `Node::RigidBody`.  `native` is the optional
opaque identifier of the backing body in the external simulation (`none`
models `RigidBodyHandle::invalid()`). -/
structure RigidBodyData where
  bodyType : RigidBodyType
  linVel : Vec3
  angVel : Vec3
  mass : Int
  linDamping : Int
  angDamping : Int
  xRotationLocked : Bool
  yRotationLocked : Bool
  zRotationLocked : Bool
  translationLocked : Bool
  native : Option Nat
  changes : RigidBodyChanges
  transformModified : Bool
deriving DecidableEq, Repr

/-- Membership/filter pair of an `InteractionGroups`. -/
structure GroupsData where
  memberships : Nat
  filter : Nat
deriving DecidableEq, Repr

/-- Dirty bitmask of a collider node (`ColliderChanges`). -/
structure ColliderChanges where
  shape : Bool
  restitution : Bool
  collisionGroups : Bool
  solverGroups : Bool
  friction : Bool
  isSensor : Bool
deriving DecidableEq, Repr

/-- Variant payload of a `Node::Collider`; the shape is an opaque token
(the claims never inspect shape geometry). -/
structure ColliderData where
  shape : Nat
  friction : Int
  restitution : Int
  collisionGroups : GroupsData
  solverGroups : GroupsData
  isSensor : Bool
  density : Option Int
  native : Option Nat
  changes : ColliderChanges
  transformModified : Bool
deriving DecidableEq, Repr

/-- Dirty bitmask of a joint node (`JointChanges`). -/
structure JointChanges where
  params : Bool
  body1 : Bool
  body2 : Bool
deriving DecidableEq, Repr

/-- Variant payload of a `Node::Joint`: the two referenced rigid-body node
handles, opaque joint parameters, and the optional backing native joint. -/
structure JointData where
  body1 : Handle
  body2 : Handle
  params : Nat
  native : Option Nat
  changes : JointChanges
deriving DecidableEq, Repr

/-- Node variant tag.  The claims under verification only distinguish the
physics-backed variants; every other variant (Mesh, Camera, Light, …)
behaves exactly like `Base` in the modelled operations (`_ => ()` arms of
the sources), so they are collapsed into `base`. -/
inductive NodeKind where
  | base
  | rigidBody (rb : RigidBodyData)
  | collider (c : ColliderData)
  | joint (j : JointData)
deriving DecidableEq, Repr

/-- One graph node, parametrised by the transform-matrix monoid `M`.
`localMatrix` is the value of `local_transform().matrix()`;
`localPosition`/`localRotation` are `position()`/`rotation()` of the local
transform; `globalTransform`/`globalVisibility` are the mutable-on-read
caches. -/
structure Node (M : Type) where
  name : String
  parent : Handle
  children : List Handle
  localPosition : Vec3
  localRotation : Int
  localMatrix : M
  visibility : Bool
  globalTransform : M
  globalVisibility : Bool
  kind : NodeKind
deriving DecidableEq

/-- Default `Node::Base(Default::default())`: identity transform at the
origin, visible, no parent, no children. -/
def Node.baseDefault {M : Type} [Monoid M] : Node M :=
  { name := ""
    parent := Handle.NONE
    children := []
    localPosition := (0, 0, 0)
    localRotation := 0
    localMatrix := 1
    visibility := true
    globalTransform := 1
    globalVisibility := true
    kind := .base }

/-- Modelled from the spec: the state of one body owned by the external
rigid-body engine, restricted to the fields the graph reads or writes
through the engine's boundary contract. -/
structure NativeBody where
  bodyType : RigidBodyType
  position : Vec3
  rotation : Int
  linvel : Vec3
  angvel : Vec3
  mass : Int
  linearDamping : Int
  angularDamping : Int
  xLocked : Bool
  yLocked : Bool
  zLocked : Bool
  translationLocked : Bool
deriving DecidableEq, Repr

/-- Modelled from the spec: one collider owned by the external engine. -/
structure NativeCollider where
  shape : Nat
  position : Vec3
  rotation : Int
  friction : Int
  restitution : Int
  collisionGroups : GroupsData
  solverGroups : GroupsData
  sensor : Bool
  density : Option Int
  parentBody : Nat
deriving DecidableEq, Repr

/-- Modelled from the spec: one joint owned by the external engine; the
body fields hold the native body identifiers it was inserted with. -/
structure NativeJoint where
  body1 : Option Nat
  body2 : Option Nat
  params : Nat
deriving DecidableEq, Repr

/-- Modelled from the spec: the external simulation's containers of
bodies / colliders / joints, keyed by opaque identifiers; `nextId` is the
source of fresh identifiers on insertion.  Solver internals (broad phase,
islands, …) are outside the boundary contract and not represented. -/
structure PhysicsWorld where
  bodies : AList NativeBody
  colliders : AList NativeCollider
  joints : AList NativeJoint
  nextId : Nat
deriving DecidableEq

namespace PhysicsWorld

def new : PhysicsWorld := { bodies := [], colliders := [], joints := [], nextId := 0 }

def insertBody (ph : PhysicsWorld) (nb : NativeBody) : Nat × PhysicsWorld :=
  (ph.nextId, { ph with bodies := ph.bodies ++ [(ph.nextId, nb)], nextId := ph.nextId + 1 })

def insertCollider (ph : PhysicsWorld) (nc : NativeCollider) : Nat × PhysicsWorld :=
  (ph.nextId, { ph with colliders := ph.colliders ++ [(ph.nextId, nc)], nextId := ph.nextId + 1 })

def insertJoint (ph : PhysicsWorld) (nj : NativeJoint) : Nat × PhysicsWorld :=
  (ph.nextId, { ph with joints := ph.joints ++ [(ph.nextId, nj)], nextId := ph.nextId + 1 })

end PhysicsWorld

/-- The scene graph (`Graph`): physics world, the map from native collider
identifiers back to node handles, the root handle and the node arena. -/
structure Graph (M : Type) where
  physics : PhysicsWorld
  colliderMap : AList Handle
  root : Handle
  pool : Pool (Node M)
deriving DecidableEq

namespace Graph

variable {M : Type}

/-- `Graph::new`: spawn a single root `Base` node named `__ROOT__`. -/
def new [Monoid M] : Graph M :=
  let rootNode : Node M := { Node.baseDefault with name := "__ROOT__" }
  let sp := (Pool.empty : Pool (Node M)).spawn rootNode
  { physics := PhysicsWorld.new
    colliderMap := []
    root := sp.1
    pool := sp.2 }

/-- `Graph::try_get`. -/
def tryGet (g : Graph M) (h : Handle) : Option (Node M) := g.pool.tryBorrow h

/-- A handle is alive iff `try_get` succeeds. -/
def alive (g : Graph M) (h : Handle) : Prop := (g.tryGet h).isSome = true

def parentOf (g : Graph M) (h : Handle) : Option Handle := (g.tryGet h).map (·.parent)

def childrenOf (g : Graph M) (h : Handle) : Option (List Handle) := (g.tryGet h).map (·.children)

/-- Children list with `[]` for dead handles (only used on live ones). -/
def childrenOfD (g : Graph M) (h : Handle) : List Handle := (g.childrenOf h).getD []

/-- Overwrite the node stored at `h` (a `pool[h] = …` style mutation). -/
def setNode (g : Graph M) (h : Handle) (n : Node M) : Option (Graph M) :=
  (g.pool.setAt h n).map fun p => { g with pool := p }

def modifyNode (g : Graph M) (h : Handle) (f : Node M → Node M) : Option (Graph M) :=
  (g.tryGet h).bind fun n => g.setNode h (f n)

/-- Remove the first occurrence of `h` (the `position` + `remove(i)` idiom
on a children list; a no-op when `h` is absent). -/
def removeFirst : List Handle → Handle → List Handle
  | [], _ => []
  | x :: rest, h => if x = h then rest else x :: removeFirst rest h

/-- Final step of `unlink_internal`: when the node is a collider with a
live backing native collider, destroy that native collider (erasing it from
the engine and from `collider_map` and resetting the node's `native`
field). -/
def unlinkColliderCheck (g : Graph M) (h : Handle) : Option (Graph M) := do
  let n2 ← g.tryGet h
  match n2.kind with
  | .collider c =>
    match c.native with
    | some nid =>
      match AList.get g.physics.colliders nid with
      | some _ =>
        let g := { g with
          colliderMap := AList.erase g.colliderMap nid
          physics := { g.physics with colliders := AList.erase g.physics.colliders nid } }
        g.setNode h { n2 with kind := .collider { c with native := none } }
      | none => pure g
    | none => pure g
  | _ => pure g

/-- `Graph::unlink_internal`: replace the node's parent with `NONE`, remove
the node from the old parent's children list, and run the collider
destruction check. -/
def unlinkInternal (g : Graph M) (h : Handle) : Option (Graph M) := do
  let n ← g.tryGet h
  let parentHandle := n.parent
  let g ← g.setNode h { n with parent := Handle.NONE }
  let g ←
    if parentHandle = Handle.NONE then pure g
    else do
      let pn ← g.tryGet parentHandle
      g.setNode parentHandle { pn with children := removeFirst pn.children h }
  g.unlinkColliderCheck h

/-- `Graph::link_nodes`: unconditionally detach the child first, then set
its parent and append it to the new parent's children list. -/
def linkNodes (g : Graph M) (child parent : Handle) : Option (Graph M) := do
  let g ← g.unlinkInternal child
  let cn ← g.tryGet child
  let g ← g.setNode child { cn with parent := parent }
  let pn ← g.tryGet parent
  g.setNode parent { pn with children := pn.children ++ [child] }

/-- `Graph::add_node`: detach the children the incoming node carries,
spawn it, link it under root (when the root handle is set), then re-link
each carried child under the new node. -/
def addNode [Monoid M] (g : Graph M) (node : Node M) : Option (Handle × Graph M) := do
  let children := node.children
  let node := { node with children := [] }
  let sp := g.pool.spawn node
  let handle := sp.1
  let g := { g with pool := sp.2 }
  let g ← if g.root = Handle.NONE then pure g else g.linkNodes handle g.root
  let g ← children.foldlM (fun acc child => acc.linkNodes child handle) g
  pure (handle, g)

/-- `Graph::unlink_node`: detach, re-attach under root, reset the local
position to the origin. -/
def unlinkNode (g : Graph M) (h : Handle) : Option (Graph M) := do
  let g ← g.unlinkInternal h
  let g ← g.linkNodes h g.root
  g.modifyNode h fun n => { n with localPosition := (0, 0, 0) }

/-- Physics-entity removal performed by `remove_node` for one freed node:
remove any backing body / collider / joint from the engine, and for
colliders also drop the `collider_map` entry.  (The engine treats removal
of the invalid sentinel as a no-op.) -/
def physicsOnFree (g : Graph M) (n : Node M) : Graph M :=
  match n.kind with
  | .rigidBody rb =>
    match rb.native with
    | some nid =>
      { g with physics := { g.physics with bodies := AList.erase g.physics.bodies nid } }
    | none => g
  | .collider c =>
    match c.native with
    | some nid =>
      { g with
        colliderMap := AList.erase g.colliderMap nid
        physics := { g.physics with colliders := AList.erase g.physics.colliders nid } }
    | none => g
  | .joint j =>
    match j.native with
    | some nid =>
      { g with physics := { g.physics with joints := AList.erase g.physics.joints nid } }
    | none => g
  | .base => g

/-- Stack loop of `Graph::remove_node`: pop a handle, push its children,
free the node and remove its physics entities.  The `Vec` stack pops from
the back, which for a head-based list means freshly pushed children come
first in reversed order.  Fuel renders the unbounded `while let` loop; one
unit is consumed per iteration. -/
def removeLoop : Nat → Graph M → List Handle → Option (Graph M)
  | 0, _, _ => none
  | _ + 1, g, [] => some g
  | fuel + 1, g, h :: rest => do
    let fr ← g.pool.free h
    let g := physicsOnFree { g with pool := fr.2 } fr.1
    removeLoop fuel g (fr.1.children.reverse ++ rest)

/-- `Graph::remove_node`: unlink, then depth-first free the handle and all
its descendants.  The fuel `len + 1` suffices for any graph satisfying the
tree invariant (at most one iteration per live node plus the final empty
check). -/
def removeNode (g : Graph M) (h : Handle) : Option (Graph M) := do
  let g ← g.unlinkInternal h
  removeLoop (g.pool.len + 1) g [h]

/-- `Graph::get_two_mut` (panics on aliased handles ↦ `none`). -/
def getTwoMut (g : Graph M) (nodes : Handle × Handle) : Option (Node M × Node M) :=
  g.pool.borrowTwoMut nodes

/-- `Graph::get_three_mut`.  Its return type in the sources is a bare
triple of mutable references — there is no error channel — so aliased
handles can only fault. -/
def getThreeMut (g : Graph M) (nodes : Handle × Handle × Handle) :
    Option (Node M × Node M × Node M) :=
  g.pool.borrowThreeMut nodes

/-- `Graph::get_four_mut` (panics on aliased handles ↦ `none`). -/
def getFourMut (g : Graph M) (nodes : Handle × Handle × Handle × Handle) :
    Option (Node M × Node M × Node M × Node M) :=
  g.pool.borrowFourMut nodes

/-- Recursive worker of `update_hierarchical_data` on a work list: update
the caches of the head node from its parent's caches, recurse into its
children (one fuel unit per depth level), then process the remaining
nodes of the current level. -/
def updateRecList [Monoid M] : Nat → Graph M → List Handle → Option (Graph M)
  | _, g, [] => some g
  | 0, _, _ :: _ => none
  | fuel + 1, g, h :: rest => do
    let n ← g.tryGet h
    let pg :=
      match g.tryGet n.parent with
      | some p => (p.globalTransform, p.globalVisibility)
      | none => ((1 : M), true)
    let g ← g.setNode h
      { n with globalTransform := pg.1 * n.localMatrix
               globalVisibility := pg.2 && n.visibility }
    let g ← updateRecList fuel g n.children
    updateRecList (fuel + 1) g rest

/-- `Graph::update_hierarchical_data`: a root-to-leaf traversal computing
each node's cached global transform as parent's cached global transform
times the node's local transform matrix (identity when there is no live
parent) and cached global visibility as parent's global visibility AND the
node's own visibility flag.  Fuel `len + 1` covers any tree depth. -/
def updateHierarchicalData [Monoid M] (g : Graph M) : Option (Graph M) :=
  updateRecList (g.pool.len + 1) g [g.root]

/-- `Graph::take_reserve`: unlink, then reserve the slot, handing out the
ticket and the node value. -/
def takeReserve (g : Graph M) (h : Handle) : Option (Handle × Node M × Graph M) := do
  let g ← g.unlinkInternal h
  (g.pool.takeReserve h).map fun tr => (tr.1, tr.2.1, { g with pool := tr.2.2 })

/-- `Graph::put_back`: restore the node into its reserved slot and link it
under root. -/
def putBack (g : Graph M) (t : Handle) (n : Node M) : Option (Handle × Graph M) := do
  let hp ← g.pool.putBack t n
  let g ← linkNodes { g with pool := hp.2 } hp.1 g.root
  pure (hp.1, g)

/-- `Graph::forget_ticket`. -/
def forgetTicket (g : Graph M) (t : Handle) : Option (Graph M) :=
  match g.pool.slots[t.index]? with
  | some s =>
    if s.generation = t.generation then
      match s.state with
      | .reserved => some { g with pool := ⟨g.pool.slots.set t.index ⟨t.generation, .vacant⟩⟩ }
      | _ => none
    else none
  | none => none

end Graph

/-- `SubGraph`: the reserved root (ticket + node) and the reserved
descendants in traversal order. -/
structure SubGraph (M : Type) where
  root : Handle × Node M
  descendants : List (Handle × Node M)
deriving DecidableEq

namespace Graph

variable {M : Type}

/-- Stack loop of `take_reserve_sub_graph`: pop a handle, push its
children, take-reserve the node and record (ticket, node). -/
def takeSubLoop : Nat → Graph M → List Handle → List (Handle × Node M) →
    Option (Graph M × List (Handle × Node M))
  | 0, _, _, _ => none
  | _ + 1, g, [], acc => some (g, acc)
  | fuel + 1, g, h :: rest, acc => do
    let n ← g.tryGet h
    let tr ← g.pool.takeReserve h
    takeSubLoop fuel { g with pool := tr.2.2 } (n.children.reverse ++ rest)
      (acc ++ [(tr.1, tr.2.1)])

/-- `Graph::take_reserve_sub_graph`: take out all descendants first, then
the root itself (the root is additionally detached from its parent). -/
def takeReserveSubGraph (g : Graph M) (root : Handle) : Option (SubGraph M × Graph M) := do
  let cs ← g.childrenOf root
  let r ← takeSubLoop (g.pool.len + 1) g cs.reverse []
  let tr ← r.1.takeReserve root
  pure ({ root := (tr.1, tr.2.1), descendants := r.2 }, tr.2.2)

/-- `Graph::put_sub_graph_back`: put every descendant back into its
reserved slot, put the root back (which links it under the graph root) and
link it under the graph root once more. -/
def putSubGraphBack (g : Graph M) (sg : SubGraph M) : Option (Handle × Graph M) := do
  let g ← sg.descendants.foldlM
    (fun acc tv => (acc.pool.putBack tv.1 tv.2).map fun hp => { acc with pool := hp.2 }) g
  let hg ← g.putBack sg.root.1 sg.root.2
  let g ← hg.2.linkNodes hg.1 hg.2.root
  pure (hg.1, g)

end Graph

/-- A ray intersection as stored into the query buffer; the world-space
hit position is float-computed from the time of impact and omitted. -/
structure Intersection where
  collider : Handle
  normal : Vec3
  feature : Nat
  toi : Int
deriving DecidableEq, Repr

/-- One raw hit streamed by the external query pipeline: the native
collider identifier plus the intersection data. -/
structure RawHit where
  collider : Nat
  normal : Vec3
  feature : Nat
  toi : Int
deriving DecidableEq, Repr

/-- `RayCastOptions` (origin/direction/`max_len`/groups only feed the
external query; `sortResults` drives the post-pass). -/
structure RayCastOptions where
  sortResults : Bool
deriving DecidableEq, Repr

/-- `QueryResultsStorage`: `capacity = none` models the unbounded `Vec`
storage, `capacity = some cap` the fixed-capacity `ArrayVec` whose
`try_push` rejects insertions past capacity. -/
structure QueryBuffer where
  capacity : Option Nat
  items : List Intersection
deriving DecidableEq, Repr

namespace QueryBuffer

/-- `push`: returns the new buffer and whether the intersection was
accepted. -/
def push (b : QueryBuffer) (i : Intersection) : QueryBuffer × Bool :=
  match b.capacity with
  | none => ({ b with items := b.items ++ [i] }, true)
  | some cap =>
    if b.items.length < cap then ({ b with items := b.items ++ [i] }, true) else (b, false)

/-- `clear`. -/
def clear (b : QueryBuffer) : QueryBuffer := { b with items := [] }

end QueryBuffer

/-- Insertion step of the ascending-by-`toi` sort performed when
`sort_results` is set (the comparator returns Greater / Less / Equal by
comparing `toi`). -/
def insertToi (i : Intersection) : List Intersection → List Intersection
  | [] => [i]
  | x :: rest => if x.toi < i.toi then x :: insertToi i rest else i :: x :: rest

def sortByToi : List Intersection → List Intersection
  | [] => []
  | x :: rest => insertToi x (sortByToi rest)

/-- Streaming loop of `cast_ray`: each raw hit is mapped through
`handle_map` (the `unwrap` faults when the native id is unknown) and pushed
into the buffer; a rejected push stops the query (the sink's return value
is the callback's continue flag). -/
def castRayLoop : List RawHit → AList Handle → QueryBuffer → Option QueryBuffer
  | [], _, b => some b
  | hit :: rest, m, b =>
    match AList.get m hit.collider with
    | none => none
    | some ch =>
      let pr := b.push { collider := ch, normal := hit.normal, feature := hit.feature,
                         toi := hit.toi }
      if pr.2 then castRayLoop rest m pr.1 else some pr.1

/-- `PhysicsWorld::cast_ray`: refresh of the query structure and the
intersection enumeration are the external engine's job, so the raw hits it
would stream are a parameter; the buffer is cleared first, hits are pushed
through the sink, and an optional post-pass sorts ascending by time of
impact. -/
def PhysicsWorld.castRay (hits : List RawHit) (handleMap : AList Handle)
    (opts : RayCastOptions) (queryBuffer : QueryBuffer) : Option QueryBuffer := do
  let b ← castRayLoop hits handleMap queryBuffer.clear
  pure (if opts.sortResults then { b with items := sortByToi b.items } else b)

/-- `Graph::cast_ray`: delegates to the physics world with
`collider_map` as the handle map. -/
def Graph.castRay {M : Type} (g : Graph M) (hits : List RawHit) (opts : RayCastOptions)
    (queryBuffer : QueryBuffer) : Option QueryBuffer :=
  PhysicsWorld.castRay hits g.colliderMap opts queryBuffer

/-- Existing-body branch of `sync_native_physics` for a rigid-body node
with a live backing native body: push the node transform if
`transform_modified`, then drain the `changes` bitmask field by field,
clearing each applied bit and leaving non-dirty fields untouched. -/
def syncRigidBodyExisting (rb : RigidBodyData) (pos : Vec3) (rot : Int) (nb : NativeBody) :
    RigidBodyData × NativeBody :=
  let st :=
    if rb.transformModified then
      ({ rb with transformModified := false }, { nb with position := pos, rotation := rot })
    else (rb, nb)
  let rb := st.1
  let nb := st.2
  let ch := rb.changes
  let s1 :=
    if ch.bodyType then ({ nb with bodyType := rb.bodyType }, { ch with bodyType := false })
    else (nb, ch)
  let s2 :=
    if s1.2.linVel then ({ s1.1 with linvel := rb.linVel }, { s1.2 with linVel := false })
    else s1
  let s3 :=
    if s2.2.angVel then ({ s2.1 with angvel := rb.angVel }, { s2.2 with angVel := false })
    else s2
  let s4 :=
    if s3.2.mass then ({ s3.1 with mass := rb.mass }, { s3.2 with mass := false })
    else s3
  let s5 :=
    if s4.2.linDamping then
      ({ s4.1 with linearDamping := rb.linDamping }, { s4.2 with linDamping := false })
    else s4
  let s6 :=
    if s5.2.angDamping then
      ({ s5.1 with angularDamping := rb.angDamping }, { s5.2 with angDamping := false })
    else s5
  let s7 :=
    if s6.2.rotationLocked then
      ({ s6.1 with xLocked := rb.xRotationLocked, yLocked := rb.yRotationLocked,
                   zLocked := rb.zRotationLocked },
       { s6.2 with rotationLocked := false })
    else s6
  ({ rb with changes := s7.2 }, s7.1)

/-- Missing-body branch: `RigidBodyBuilder` chain constructing a fresh
native body from the node state. -/
def buildRigidBody (rb : RigidBodyData) (pos : Vec3) (rot : Int) : NativeBody :=
  { bodyType := rb.bodyType
    position := pos
    rotation := rot
    linvel := rb.linVel
    angvel := rb.angVel
    mass := rb.mass
    linearDamping := rb.linDamping
    angularDamping := rb.angDamping
    xLocked := rb.xRotationLocked
    yLocked := rb.yRotationLocked
    zLocked := rb.zRotationLocked
    translationLocked := rb.translationLocked }

/-- Type of the modelled `ColliderShape::into_native_shape`: the function
lives outside the given sources; at its call sites it receives the inverse
isometric global transform (recomputable from the handle and the pool,
which are also passed) and returns an optional native shape.  It is kept
abstract as a parameter. -/
abbrev ShapeConv (M : Type) : Type := Handle → Pool (Node M) → Nat → Option Nat

/-- Existing-collider branch of `sync_native_physics`: transform-on-demand
sync, then drain the collider bitmask.  The SHAPE bit is applied and
cleared only when the shape conversion succeeds. -/
def syncColliderExisting {M : Type} (conv : ShapeConv M) (pool : Pool (Node M)) (h : Handle)
    (cd : ColliderData) (pos : Vec3) (rot : Int) (nc : NativeCollider) :
    ColliderData × NativeCollider :=
  let st :=
    if cd.transformModified then
      ({ cd with transformModified := false }, { nc with position := pos, rotation := rot })
    else (cd, nc)
  let cd := st.1
  let nc := st.2
  let ch := cd.changes
  let s1 :=
    if ch.shape then
      match conv h pool cd.shape with
      | some s => ({ nc with shape := s }, { ch with shape := false })
      | none => (nc, ch)
    else (nc, ch)
  let s2 :=
    if s1.2.restitution then
      ({ s1.1 with restitution := cd.restitution }, { s1.2 with restitution := false })
    else s1
  let s3 :=
    if s2.2.collisionGroups then
      ({ s2.1 with collisionGroups := cd.collisionGroups }, { s2.2 with collisionGroups := false })
    else s2
  let s4 :=
    if s3.2.solverGroups then
      ({ s3.1 with solverGroups := cd.solverGroups }, { s3.2 with solverGroups := false })
    else s3
  let s5 :=
    if s4.2.friction then
      ({ s4.1 with friction := cd.friction }, { s4.2 with friction := false })
    else s4
  let s6 :=
    if s5.2.isSensor then
      ({ s5.1 with sensor := cd.isSensor }, { s5.2 with isSensor := false })
    else s5
  ({ cd with changes := s6.2 }, s6.1)

/-- `ColliderBuilder` chain constructing a fresh native collider attached
to the parent body's native handle. -/
def buildCollider (cd : ColliderData) (shape : Nat) (pos : Vec3) (rot : Int)
    (parentBody : Nat) : NativeCollider :=
  { shape := shape
    position := pos
    rotation := rot
    friction := cd.friction
    restitution := cd.restitution
    collisionGroups := cd.collisionGroups
    solverGroups := cd.solverGroups
    sensor := cd.isSensor
    density := cd.density
    parentBody := parentBody }

/-- Joint branch of `sync_native_physics`: drain the parameter bit of a
backed joint (the BODY1/BODY2 bits are cleared without effect — a `TODO`
in the sources); an unbacked joint is inserted as soon as both referenced
handles borrow as `RigidBody` nodes, using whatever native body handles
those nodes currently carry. -/
def syncJointStep {M : Type} (pool : Pool (Node M)) (ph : PhysicsWorld) (jd : JointData) :
    JointData × PhysicsWorld :=
  let existing :=
    match jd.native with
    | some nid => (AList.get ph.joints nid).map fun nj => (nid, nj)
    | none => none
  match existing with
  | some (nid, nj) =>
    let ch := jd.changes
    let s1 :=
      if ch.params then ({ nj with params := jd.params }, { ch with params := false })
      else (nj, ch)
    let ch := if s1.2.body1 then { s1.2 with body1 := false } else s1.2
    let ch := if ch.body2 then { ch with body2 := false } else ch
    ({ jd with changes := ch }, { ph with joints := AList.set ph.joints nid s1.1 })
  | none =>
    match pool.tryBorrow jd.body1, pool.tryBorrow jd.body2 with
    | some n1, some n2 =>
      match n1.kind, n2.kind with
      | .rigidBody rb1, .rigidBody rb2 =>
        let ins := ph.insertJoint { body1 := rb1.native, body2 := rb2.native, params := jd.params }
        ({ jd with native := some ins.1 }, ins.2)
      | _, _ => (jd, ph)
    | _, _ => (jd, ph)

namespace Graph

variable {M : Type}

/-- Per-node dispatch of `sync_native_physics` (one arm of the `match` in
the `pair_iter` loop).  Cell writes to the node become `setNode` updates;
the handle comes from the occupancy snapshot, so the defaulting `getD g`
arms are unreachable. -/
def syncNodeStep (conv : ShapeConv M) (g : Graph M) (h : Handle) : Graph M :=
  match g.tryGet h with
  | none => g
  | some n =>
    match n.kind with
    | .base => g
    | .rigidBody rb =>
      let existing :=
        match rb.native with
        | some nid => (AList.get g.physics.bodies nid).map fun nb => (nid, nb)
        | none => none
      match existing with
      | some (nid, nb) =>
        let r := syncRigidBodyExisting rb n.localPosition n.localRotation nb
        let g := { g with
          physics := { g.physics with bodies := AList.set g.physics.bodies nid r.2 } }
        (g.setNode h { n with kind := .rigidBody r.1 }).getD g
      | none =>
        let ins := g.physics.insertBody (buildRigidBody rb n.localPosition n.localRotation)
        let g := { g with physics := ins.2 }
        (g.setNode h { n with kind := .rigidBody { rb with native := some ins.1 } }).getD g
    | .collider cd =>
      let existing :=
        match cd.native with
        | some nid => (AList.get g.physics.colliders nid).map fun nc => (nid, nc)
        | none => none
      match existing with
      | some (nid, nc) =>
        let r := syncColliderExisting conv g.pool h cd n.localPosition n.localRotation nc
        let g := { g with
          physics := { g.physics with colliders := AList.set g.physics.colliders nid r.2 } }
        (g.setNode h { n with kind := .collider r.1 }).getD g
      | none =>
        match g.tryGet n.parent with
        | some pn =>
          match pn.kind with
          | .rigidBody pb =>
            match pb.native with
            | some bodyNid =>
              match conv h g.pool cd.shape with
              | some shape =>
                let nc := buildCollider cd shape n.localPosition n.localRotation bodyNid
                let ins := g.physics.insertCollider nc
                let g := { g with physics := ins.2, colliderMap := (ins.1, h) :: g.colliderMap }
                (g.setNode h { n with kind := .collider { cd with native := some ins.1 } }).getD g
              | none => g
            | none => g
          | _ => g
        | none => g
    | .joint jd =>
      let r := syncJointStep g.pool g.physics jd
      let g := { g with physics := r.2 }
      (g.setNode h { n with kind := .joint r.1 }).getD g

/-- `Graph::sync_native_physics`: fold the per-node dispatch over the
occupancy snapshot in index order (the `pair_iter` iteration; occupancy
never changes during the pass, only cells and the physics containers). -/
def syncNativePhysics (conv : ShapeConv M) (g : Graph M) : Graph M :=
  g.pool.aliveList.foldl (fun acc h => syncNodeStep conv acc h) g

end Graph

/-- One public structural-editing call, for stating the closure claim over
arbitrary call sequences. -/
inductive GraphOp (M : Type) where
  | addNode (node : Node M)
  | linkNodes (child parent : Handle)
  | unlinkNode (h : Handle)
  | removeNode (h : Handle)

namespace Graph

variable {M : Type}

def applyOp [Monoid M] (g : Graph M) : GraphOp M → Option (Graph M)
  | .addNode n => (g.addNode n).map (·.2)
  | .linkNodes c p => g.linkNodes c p
  | .unlinkNode h => g.unlinkNode h
  | .removeNode h => g.removeNode h

/-- Iterated parent chain: `parentIter k h` follows the `parent` field `k`
times (faulting when it steps from a dead handle). -/
def parentIter (g : Graph M) : Nat → Handle → Option Handle
  | 0, h => some h
  | k + 1, h =>
    match g.tryGet h with
    | some n => g.parentIter k n.parent
    | none => none

/-- A node is reachable from the root iff its parent chain hits the root
handle. -/
def Reaches (g : Graph M) (h : Handle) : Prop := ∃ k, g.parentIter k h = some g.root

/-- Decidable, bounded form of "`anc` is `h` itself or an ancestor of
`h`" (within chains of length at most the pool size, which covers every
chain in a well-formed graph). -/
def isAncestorWithin (g : Graph M) (anc h : Handle) : Prop :=
  ∃ k ∈ List.range (g.pool.len + 1), g.parentIter k h = some anc

instance (g : Graph M) (anc h : Handle) : Decidable (g.isAncestorWithin anc h) := by
  unfold isAncestorWithin; exact inferInstance

/-- Documented preconditions of the structural-editing calls: linking must
not put a node below itself (the "callers must not link an ancestor under
its own descendant" contract, which `add_node` inherits for the carried
children it re-links, where it amounts to the carried children being valid
existing handles other than the root), and the root node is never unlinked
or removed. -/
def GraphOp.admissible (g : Graph M) : GraphOp M → Prop
  | .addNode n => ∀ c ∈ n.children, c ≠ g.root ∧ (g.tryGet c).isSome = true
  | .linkNodes c p => ¬ g.isAncestorWithin c p
  | .unlinkNode h => h ≠ g.root
  | .removeNode h => h ≠ g.root

instance (g : Graph M) (op : GraphOp M) : Decidable (Graph.GraphOp.admissible g op) := by
  cases op <;> (unfold Graph.GraphOp.admissible; exact inferInstance)

/-- A run of successful, contract-respecting structural-editing calls. -/
inductive Steps [Monoid M] : Graph M → List (GraphOp M) → Graph M → Prop where
  | nil (g : Graph M) : Steps g [] g
  | cons {g g₁ g₂ : Graph M} {op : GraphOp M} {ops : List (GraphOp M)} :
      GraphOp.admissible g op → g.applyOp op = some g₁ → Steps g₁ ops g₂ →
      Steps g (op :: ops) g₂

/-- Count of `h` in its parent's children list (`none` if `h` or its
parent is dead). -/
def parentChildCount (g : Graph M) (h : Handle) : Option Nat := do
  let n ← g.tryGet h
  let pn ← g.tryGet n.parent
  pure (pn.children.count h)

/-- The single-tree invariant of the claim: occupied slots carry positive
generations (so `NONE` is never live), the root is live with no parent,
every other live node has a live parent and occurs exactly once in that
parent's children list, children lists point back to their owner, and
every live node's parent chain reaches the root. -/
def Invariant (g : Graph M) : Prop :=
  (∀ s ∈ g.pool.slots, s.state.isOccupied = true → 1 ≤ s.generation) ∧
  (g.tryGet g.root).isSome = true ∧
  g.parentOf g.root = some Handle.NONE ∧
  (∀ h ∈ g.pool.aliveList, h ≠ g.root → g.parentChildCount h = some 1) ∧
  (∀ h ∈ g.pool.aliveList, ∀ c ∈ g.childrenOfD h, g.parentOf c = some h) ∧
  (∀ h ∈ g.pool.aliveList, ∃ k ∈ List.range (g.pool.len + 1), g.parentIter k h = some g.root)

instance (g : Graph M) : Decidable (Graph.Invariant g) := by
  unfold Graph.Invariant; exact inferInstance

/-- Value a node takes under the collider destruction check of
`unlink_internal`: a collider with a live backing native collider loses its
`native` field; all other nodes are unchanged. -/
def clearColliderNative (g : Graph M) (n : Node M) : Node M :=
  match n.kind with
  | .collider c =>
    match c.native with
    | some nid =>
      match AList.get g.physics.colliders nid with
      | some _ => { n with kind := .collider { c with native := none } }
      | none => n
    | none => n
  | _ => n

/-- Effect of the collider destruction check of `unlink_internal` on
`collider_map` and the engine's collider container. -/
def unlinkColliderEffect (g : Graph M) (n : Node M) : AList Handle × AList NativeCollider :=
  match n.kind with
  | .collider c =>
    match c.native with
    | some nid =>
      match AList.get g.physics.colliders nid with
      | some _ => (AList.erase g.colliderMap nid, AList.erase g.physics.colliders nid)
      | none => (g.colliderMap, g.physics.colliders)
    | none => (g.colliderMap, g.physics.colliders)
  | _ => (g.colliderMap, g.physics.colliders)

/-- Descendant relation through the children lists: `Desc g a b` means `b`
lies in the subtree rooted at `a` (including `a` itself). -/
inductive Desc (g : Graph M) : Handle → Handle → Prop where
  | refl (h : Handle) : Desc g h h
  | child {a b c : Handle} : Desc g a b → c ∈ g.childrenOfD b → Desc g a c

/-- Every live node's parent field is `NONE` or a live handle (needed for
the structural-editing calls to run without faulting). -/
def ParentsOk (g : Graph M) : Prop :=
  ∀ h n, g.tryGet h = some n →
    n.parent = Handle.NONE ∨ (g.tryGet n.parent).isSome = true

/-- Agreement of two graphs on everything `update_hierarchical_data` reads
except the caches it writes: root handle, slot occupancy, and each live
node's parent, children, local matrix and visibility flag. -/
def StructAgrees (g g₀ : Graph M) : Prop :=
  g.root = g₀.root ∧
  (∀ x, (g.tryGet x).isSome = (g₀.tryGet x).isSome) ∧
  (∀ x n, g.tryGet x = some n → ∃ n₀, g₀.tryGet x = some n₀ ∧
    n.parent = n₀.parent ∧ n.children = n₀.children ∧
    n.localMatrix = n₀.localMatrix ∧ n.visibility = n₀.visibility)

/-- Decidable bounded form of the descendant relation: `x` is alive and its
parent chain passes through `a` within the pool size (which bounds every
chain of a well-formed graph). -/
def descWithin (g : Graph M) (a x : Handle) : Prop :=
  (g.tryGet x).isSome = true ∧
  ∃ m ∈ List.range (g.pool.len + 1), g.parentIter m x = some a

instance (g : Graph M) (a x : Handle) : Decidable (Graph.descWithin g a x) := by
  unfold Graph.descWithin
  exact inferInstance

/-- All backing physics entities recorded by a node value are gone from the
graph's physics containers (and, for colliders, from `collider_map`). -/
def nodePhysicsRemoved (g : Graph M) (n : Node M) : Prop :=
  match n.kind with
  | .rigidBody rb => ∀ nid, rb.native = some nid → AList.get g.physics.bodies nid = none
  | .collider c => ∀ nid, c.native = some nid →
      AList.get g.physics.colliders nid = none ∧ AList.get g.colliderMap nid = none
  | .joint j => ∀ nid, j.native = some nid → AList.get g.physics.joints nid = none
  | .base => True

/-- Cache correctness of one node: its cached global transform is its
parent's cached global transform times its local matrix and its cached
global visibility is the AND of the parent's cached global visibility with
its own flag; a node with no live parent uses the identity transform and
`true` (so the root's caches equal its own local data). -/
def CacheOK [Monoid M] (g : Graph M) (x : Handle) : Prop :=
  ∀ n, g.tryGet x = some n →
    match g.tryGet n.parent with
    | some pn => n.globalTransform = pn.globalTransform * n.localMatrix ∧
        n.globalVisibility = (pn.globalVisibility && n.visibility)
    | none => n.globalTransform = n.localMatrix ∧
        n.globalVisibility = n.visibility

end Graph

/-! ## Pool lemmas -/

theorem pool_tryBorrow_eq_some {α : Type} (p : Pool α) (h : Handle) (v : α) :
    p.tryBorrow h = some v ↔ p.slots[h.index]? = some ⟨h.generation, .occupied v⟩ := by
  unfold Pool.tryBorrow
  cases hs : p.slots[h.index]? with
  | none => simp
  | some s =>
    rcases s with ⟨g, st⟩
    by_cases hg : g = h.generation
    · subst hg
      cases st <;> simp [Slot.mk.injEq]
    · simp [hg, Slot.mk.injEq]

theorem pool_tryBorrow_index_lt {α : Type} {p : Pool α} {h : Handle} {v : α}
    (hv : p.tryBorrow h = some v) : h.index < p.len := by
  rw [pool_tryBorrow_eq_some] at hv
  have := List.getElem?_eq_some.mp hv
  exact this.1

theorem pool_len_setAt {α : Type} {p p' : Pool α} {h : Handle} {v : α}
    (hs : p.setAt h v = some p') : p'.len = p.len := by
  unfold Pool.setAt at hs
  cases hb : p.tryBorrow h with
  | none => rw [hb] at hs; simp at hs
  | some w =>
    rw [hb] at hs
    simp only [Option.map_some'] at hs
    cases hs
    simp [Pool.len]

theorem pool_setAt_isSome {α : Type} (p : Pool α) (h : Handle) (v : α) :
    (p.setAt h v).isSome = (p.tryBorrow h).isSome := by
  unfold Pool.setAt
  cases p.tryBorrow h <;> simp

theorem pool_tryBorrow_setAt {α : Type} {p p' : Pool α} {h : Handle} {v : α}
    (hs : p.setAt h v = some p') (h' : Handle) :
    p'.tryBorrow h' = if h' = h then some v else p.tryBorrow h' := by
  unfold Pool.setAt at hs
  cases hb : p.tryBorrow h with
  | none => rw [hb] at hs; simp at hs
  | some w =>
    rw [hb] at hs
    simp only [Option.map_some'] at hs
    cases hs
    have hidx : h.index < p.slots.length := pool_tryBorrow_index_lt hb
    have hslot : p.slots[h.index]? = some ⟨h.generation, .occupied w⟩ :=
      (pool_tryBorrow_eq_some p h w).mp hb
    by_cases he : h' = h
    · subst he
      rw [if_pos rfl, pool_tryBorrow_eq_some]
      simp [List.getElem?_set_self hidx]
    · rw [if_neg he]
      by_cases hi : h'.index = h.index
      · have hgen : h'.generation ≠ h.generation := by
          intro hg
          exact he (by cases h'; cases h; simp_all)
        have hgen' : h.generation ≠ h'.generation := fun e => hgen e.symm
        show Pool.tryBorrow _ h' = _
        unfold Pool.tryBorrow
        rw [hi, List.getElem?_set_self hidx, hslot]
        simp [hgen']
      · show Pool.tryBorrow _ h' = _
        unfold Pool.tryBorrow
        rw [List.getElem?_set_ne (fun e => hi (Eq.symm e))]

theorem pool_len_free {α : Type} {p p' : Pool α} {h : Handle} {v : α}
    (hs : p.free h = some (v, p')) : p'.len = p.len := by
  unfold Pool.free at hs
  cases hb : p.tryBorrow h with
  | none => rw [hb] at hs; simp at hs
  | some w =>
    rw [hb] at hs
    simp only [Option.map_some'] at hs
    cases hs
    simp [Pool.len]

theorem pool_free_eq_some {α : Type} {p p' : Pool α} {h : Handle} {v : α}
    (hs : p.free h = some (v, p')) :
    p.tryBorrow h = some v ∧
      p' = ⟨p.slots.set h.index ⟨h.generation, .vacant⟩⟩ := by
  unfold Pool.free at hs
  cases hb : p.tryBorrow h with
  | none => rw [hb] at hs; simp at hs
  | some w =>
    rw [hb] at hs
    simp only [Option.map_some'] at hs
    cases hs
    exact ⟨rfl, rfl⟩

theorem pool_free_isSome {α : Type} (p : Pool α) (h : Handle) :
    (p.free h).isSome = (p.tryBorrow h).isSome := by
  unfold Pool.free
  cases p.tryBorrow h <;> simp

theorem pool_tryBorrow_free {α : Type} {p p' : Pool α} {h : Handle} {v : α}
    (hs : p.free h = some (v, p')) (h' : Handle) :
    p'.tryBorrow h' = if h'.index = h.index then none else p.tryBorrow h' := by
  obtain ⟨hb, hp⟩ := pool_free_eq_some hs
  have hidx : h.index < p.slots.length := pool_tryBorrow_index_lt hb
  subst hp
  by_cases hi : h'.index = h.index
  · show Pool.tryBorrow _ h' = _
    unfold Pool.tryBorrow
    rw [hi, List.getElem?_set_self hidx]
    by_cases hg : h.generation = h'.generation <;> simp [hi, hg]
  · show Pool.tryBorrow _ h' = _
    unfold Pool.tryBorrow
    rw [List.getElem?_set_ne (fun e => hi (Eq.symm e))]
    simp [hi]

theorem pool_takeReserve_eq_some {α : Type} {p p' : Pool α} {h t : Handle} {v : α}
    (hs : p.takeReserve h = some (t, v, p')) :
    t = h ∧ p.tryBorrow h = some v ∧
      p' = ⟨p.slots.set h.index ⟨h.generation, .reserved⟩⟩ := by
  unfold Pool.takeReserve at hs
  cases hb : p.tryBorrow h with
  | none => rw [hb] at hs; simp at hs
  | some w =>
    rw [hb] at hs
    simp only [Option.map_some'] at hs
    cases hs
    exact ⟨rfl, rfl, rfl⟩

theorem pool_takeReserve_isSome {α : Type} (p : Pool α) (h : Handle) :
    (p.takeReserve h).isSome = (p.tryBorrow h).isSome := by
  unfold Pool.takeReserve
  cases p.tryBorrow h <;> simp

theorem pool_len_takeReserve {α : Type} {p p' : Pool α} {h t : Handle} {v : α}
    (hs : p.takeReserve h = some (t, v, p')) : p'.len = p.len := by
  obtain ⟨-, -, hp⟩ := pool_takeReserve_eq_some hs
  subst hp
  simp [Pool.len]

theorem pool_tryBorrow_takeReserve {α : Type} {p p' : Pool α} {h t : Handle} {v : α}
    (hs : p.takeReserve h = some (t, v, p')) (h' : Handle) :
    p'.tryBorrow h' = if h'.index = h.index then none else p.tryBorrow h' := by
  obtain ⟨-, hb, hp⟩ := pool_takeReserve_eq_some hs
  have hidx : h.index < p.slots.length := pool_tryBorrow_index_lt hb
  subst hp
  by_cases hi : h'.index = h.index
  · show Pool.tryBorrow _ h' = _
    unfold Pool.tryBorrow
    rw [hi, List.getElem?_set_self hidx]
    by_cases hg : h.generation = h'.generation <;> simp [hi, hg]
  · show Pool.tryBorrow _ h' = _
    unfold Pool.tryBorrow
    rw [List.getElem?_set_ne (fun e => hi (Eq.symm e))]
    simp [hi]

theorem pool_takeReserve_slot {α : Type} {p p' : Pool α} {h t : Handle} {v : α}
    (hs : p.takeReserve h = some (t, v, p')) :
    p'.slots[h.index]? = some ⟨h.generation, .reserved⟩ := by
  obtain ⟨-, hb, hp⟩ := pool_takeReserve_eq_some hs
  have hidx : h.index < p.slots.length := pool_tryBorrow_index_lt hb
  subst hp
  exact List.getElem?_set_self hidx

theorem pool_putBack_eq_some {α : Type} {p p' : Pool α} {t hh : Handle} {v : α}
    (hs : p.putBack t v = some (hh, p')) :
    hh = t ∧ p.slots[t.index]? = some ⟨t.generation, .reserved⟩ ∧
      p' = ⟨p.slots.set t.index ⟨t.generation, .occupied v⟩⟩ := by
  unfold Pool.putBack at hs
  cases hb : p.slots[t.index]? with
  | none => rw [hb] at hs; simp at hs
  | some s =>
    rw [hb] at hs
    rcases s with ⟨g, st⟩
    by_cases hg : g = t.generation
    · subst hg
      cases st with
      | reserved =>
        replace hs :
            (if t.generation = t.generation then
              some (t, (⟨p.slots.set t.index ⟨t.generation, SlotState.occupied v⟩⟩ : Pool α))
            else none) = some (hh, p') := hs
        rw [if_pos rfl] at hs
        cases hs
        exact ⟨rfl, rfl, rfl⟩
      | vacant => simp at hs
      | occupied w => simp at hs
    · simp [hg] at hs

theorem pool_putBack_of_reserved {α : Type} {p : Pool α} {t : Handle}
    (hr : p.slots[t.index]? = some ⟨t.generation, .reserved⟩) (v : α) :
    p.putBack t v = some (t, ⟨p.slots.set t.index ⟨t.generation, .occupied v⟩⟩) := by
  unfold Pool.putBack
  rw [hr]
  simp

theorem pool_len_putBack {α : Type} {p p' : Pool α} {t hh : Handle} {v : α}
    (hs : p.putBack t v = some (hh, p')) : p'.len = p.len := by
  obtain ⟨-, -, hp⟩ := pool_putBack_eq_some hs
  subst hp
  simp [Pool.len]

theorem pool_tryBorrow_putBack {α : Type} {p p' : Pool α} {t hh : Handle} {v : α}
    (hs : p.putBack t v = some (hh, p')) (h' : Handle) :
    p'.tryBorrow h' = if h' = t then some v else p.tryBorrow h' := by
  obtain ⟨-, hslot, hp⟩ := pool_putBack_eq_some hs
  have hidx : t.index < p.slots.length := (List.getElem?_eq_some.mp hslot).1
  subst hp
  by_cases he : h' = t
  · subst he
    rw [if_pos rfl, pool_tryBorrow_eq_some]
    simp [List.getElem?_set_self hidx]
  · rw [if_neg he]
    by_cases hi : h'.index = t.index
    · have hgen : h'.generation ≠ t.generation := by
        intro hg
        exact he (by cases h'; cases t; simp_all)
      have hgen' : t.generation ≠ h'.generation := fun e => hgen e.symm
      show Pool.tryBorrow _ h' = _
      unfold Pool.tryBorrow
      rw [hi, List.getElem?_set_self hidx, hslot]
      simp [hgen']
    · show Pool.tryBorrow _ h' = _
      unfold Pool.tryBorrow
      rw [List.getElem?_set_ne (fun e => hi (Eq.symm e))]

theorem pool_findVacant_some {α : Type} {p : Pool α} {i : Nat}
    (hf : p.findVacant = some i) :
    i < p.len ∧ ∃ g, p.slots[i]? = some ⟨g, .vacant⟩ := by
  unfold Pool.findVacant at hf
  have hmem := List.mem_of_find?_eq_some hf
  have hpred := List.find?_some hf
  refine ⟨List.mem_range.mp hmem, ?_⟩
  cases hs : p.slots[i]? with
  | none => rw [hs] at hpred; simp at hpred
  | some s =>
    rw [hs] at hpred
    rcases s with ⟨g, st⟩
    cases st with
    | vacant => exact ⟨g, rfl⟩
    | reserved => simp [SlotState.isVacant] at hpred
    | occupied w => simp [SlotState.isVacant] at hpred

theorem pool_spawn_cases {α : Type} (p : Pool α) (v : α) :
    (∃ i g, p.slots[i]? = some ⟨g, .vacant⟩ ∧ i < p.len ∧
      p.spawn v = (⟨i, g + 1⟩, ⟨p.slots.set i ⟨g + 1, .occupied v⟩⟩)) ∨
    p.spawn v = (⟨p.slots.length, 1⟩, ⟨p.slots ++ [⟨1, .occupied v⟩]⟩) := by
  cases hf : p.findVacant with
  | some i =>
    obtain ⟨hil, g, hslot⟩ := pool_findVacant_some hf
    left
    refine ⟨i, g, hslot, hil, ?_⟩
    unfold Pool.spawn
    rw [hf]
    simp [hslot]
  | none =>
    right
    unfold Pool.spawn
    rw [hf]

theorem pool_spawn_tryBorrow_self {α : Type} (p : Pool α) (v : α) :
    (p.spawn v).2.tryBorrow (p.spawn v).1 = some v := by
  rcases pool_spawn_cases p v with ⟨i, g, hslot, hil, hsp⟩ | hsp <;> rw [hsp]
  · rw [pool_tryBorrow_eq_some]
    simpa using List.getElem?_set_self hil
  · rw [pool_tryBorrow_eq_some]
    show (p.slots ++ [⟨1, .occupied v⟩])[p.slots.length]? = _
    rw [List.getElem?_append_right (Nat.le_refl _)]
    simp

theorem pool_spawn_fresh {α : Type} (p : Pool α) (v : α) :
    p.tryBorrow (p.spawn v).1 = none := by
  rcases pool_spawn_cases p v with ⟨i, g, hslot, hil, hsp⟩ | hsp <;> rw [hsp]
  · show Pool.tryBorrow _ _ = none
    unfold Pool.tryBorrow
    simp [hslot]
  · show Pool.tryBorrow _ _ = none
    unfold Pool.tryBorrow
    simp

theorem pool_spawn_tryBorrow_other {α : Type} (p : Pool α) (v : α) (h' : Handle)
    (hne : h' ≠ (p.spawn v).1) :
    (p.spawn v).2.tryBorrow h' = p.tryBorrow h' := by
  rcases pool_spawn_cases p v with ⟨i, g, hslot, hil, hsp⟩ | hsp <;> rw [hsp] at hne ⊢
  · simp only at hne ⊢
    by_cases hi : h'.index = i
    · have hgen : h'.generation ≠ g + 1 := by
        intro hg
        apply hne
        cases h'
        simp_all
      have hgen' : ¬ g + 1 = h'.generation := fun e => hgen e.symm
      show Pool.tryBorrow _ h' = _
      unfold Pool.tryBorrow
      rw [hi, List.getElem?_set_self hil, hslot]
      simp [hgen']
    · show Pool.tryBorrow _ h' = _
      unfold Pool.tryBorrow
      rw [List.getElem?_set_ne (fun e => hi (Eq.symm e))]
  · simp only at hne ⊢
    show Pool.tryBorrow _ h' = _
    unfold Pool.tryBorrow
    by_cases hi : h'.index < p.slots.length
    · rw [List.getElem?_append_left hi]
    · have hnone : p.slots[h'.index]? = none := by
        rw [List.getElem?_eq_none]
        omega
      rw [hnone]
      by_cases hieq : h'.index = p.slots.length
      · have hgen : ¬ (1 : Nat) = h'.generation := by
          intro hg
          apply hne
          cases h'
          simp_all
        rw [hieq, List.getElem?_append_right (Nat.le_refl _)]
        simp [hgen]
      · rw [List.getElem?_eq_none (by simp; omega)]

theorem pool_len_le_spawn {α : Type} (p : Pool α) (v : α) :
    p.len ≤ (p.spawn v).2.len := by
  rcases pool_spawn_cases p v with ⟨i, g, hslot, hil, hsp⟩ | hsp <;> rw [hsp] <;>
    simp [Pool.len]

theorem pool_mem_aliveList {α : Type} (p : Pool α) (h : Handle) :
    h ∈ p.aliveList ↔ (p.tryBorrow h).isSome = true := by
  unfold Pool.aliveList
  rw [List.mem_filterMap]
  constructor
  · rintro ⟨i, hir, hf⟩
    cases hs : p.slots[i]? with
    | none => rw [hs] at hf; simp at hf
    | some s =>
      rw [hs] at hf
      rcases s with ⟨g, st⟩
      cases st with
      | occupied w =>
        simp only at hf
        cases hf
        rw [Option.isSome_iff_exists]
        exact ⟨w, (pool_tryBorrow_eq_some p _ w).mpr hs⟩
      | vacant => simp at hf
      | reserved => simp at hf
  · intro hb
    rw [Option.isSome_iff_exists] at hb
    obtain ⟨v, hv⟩ := hb
    have hslot := (pool_tryBorrow_eq_some p h v).mp hv
    refine ⟨h.index, List.mem_range.mpr ((List.getElem?_eq_some.mp hslot).1), ?_⟩
    rw [hslot]

theorem pool_aliveList_length_le {α : Type} (p : Pool α) :
    p.aliveList.length ≤ p.len := by
  unfold Pool.aliveList
  calc _ ≤ (List.range p.slots.length).length := List.length_filterMap_le _ _
    _ = p.len := by simp [Pool.len]

/-! ## Graph basics -/

theorem graph_setNode_eq_some {M : Type} {g g' : Graph M} {h : Handle} {n : Node M}
    (hs : g.setNode h n = some g') :
    (∀ x, g'.tryGet x = if x = h then some n else g.tryGet x) ∧
      g'.root = g.root ∧ g'.pool.len = g.pool.len ∧ g'.physics = g.physics ∧
      g'.colliderMap = g.colliderMap := by
  unfold Graph.setNode at hs
  cases hp : g.pool.setAt h n with
  | none => rw [hp] at hs; simp at hs
  | some p' =>
    rw [hp] at hs
    simp only [Option.map_some'] at hs
    cases hs
    exact ⟨fun x => pool_tryBorrow_setAt hp x, rfl, pool_len_setAt hp, rfl, rfl⟩

theorem graph_setNode_isSome {M : Type} (g : Graph M) (h : Handle) (n : Node M) :
    (g.setNode h n).isSome = (g.tryGet h).isSome := by
  unfold Graph.setNode Graph.tryGet
  rw [← pool_setAt_isSome g.pool h n]
  cases g.pool.setAt h n <;> simp

theorem graph_mem_aliveList {M : Type} (g : Graph M) (h : Handle) :
    h ∈ g.pool.aliveList ↔ (g.tryGet h).isSome = true :=
  pool_mem_aliveList g.pool h

theorem graph_tryGet_eq_some_iff_slot {M : Type} (g : Graph M) (h : Handle) (n : Node M) :
    g.tryGet h = some n ↔ g.pool.slots[h.index]? = some ⟨h.generation, .occupied n⟩ :=
  pool_tryBorrow_eq_some g.pool h n

theorem inv_none_dead {M : Type} {g : Graph M} (hinv : g.Invariant) :
    g.tryGet Handle.NONE = none := by
  cases hn : g.tryGet Handle.NONE with
  | none => rfl
  | some n =>
    exfalso
    have hslot := (graph_tryGet_eq_some_iff_slot g _ n).mp hn
    have hmem : (⟨(Handle.NONE).generation, .occupied n⟩ : Slot (Node M)) ∈ g.pool.slots :=
      List.getElem?_mem hslot
    have := hinv.1 _ hmem (by simp [SlotState.isOccupied])
    simp [Handle.NONE] at this

theorem inv_root_alive {M : Type} {g : Graph M} (hinv : g.Invariant) :
    (g.tryGet g.root).isSome = true := hinv.2.1

theorem inv_root_parent {M : Type} {g : Graph M} (hinv : g.Invariant) :
    g.parentOf g.root = some Handle.NONE := hinv.2.2.1

theorem inv_root_ne_none {M : Type} {g : Graph M} (hinv : g.Invariant) :
    g.root ≠ Handle.NONE := by
  intro he
  have := inv_root_alive hinv
  rw [he, inv_none_dead hinv] at this
  simp at this

theorem inv_parent_spec {M : Type} {g : Graph M} (hinv : g.Invariant) {h : Handle}
    {n : Node M} (hn : g.tryGet h = some n) (hne : h ≠ g.root) :
    ∃ pn, g.tryGet n.parent = some pn ∧ pn.children.count h = 1 := by
  have hmem : h ∈ g.pool.aliveList := (graph_mem_aliveList g h).mpr (by simp [hn])
  have hc := hinv.2.2.2.1 h hmem hne
  unfold Graph.parentChildCount at hc
  rw [hn] at hc
  simp only [Option.bind_eq_bind, Option.some_bind] at hc
  cases hpn : g.tryGet n.parent with
  | none => rw [hpn] at hc; simp at hc
  | some pn =>
    rw [hpn] at hc
    simp only [Option.some_bind] at hc
    exact ⟨pn, rfl, by simpa using hc⟩

theorem inv_child_parent {M : Type} {g : Graph M} (hinv : g.Invariant) {h : Handle}
    {n : Node M} (hn : g.tryGet h = some n) {c : Handle} (hc : c ∈ n.children) :
    g.parentOf c = some h := by
  have hmem : h ∈ g.pool.aliveList := (graph_mem_aliveList g h).mpr (by simp [hn])
  have hcd : c ∈ g.childrenOfD h := by
    unfold Graph.childrenOfD Graph.childrenOf
    rw [hn]
    simpa using hc
  exact hinv.2.2.2.2.1 h hmem c hcd

theorem inv_reach {M : Type} {g : Graph M} (hinv : g.Invariant) {h : Handle}
    (hh : (g.tryGet h).isSome = true) :
    ∃ k ≤ g.pool.len, g.parentIter k h = some g.root := by
  have hmem : h ∈ g.pool.aliveList := (graph_mem_aliveList g h).mpr hh
  obtain ⟨k, hk, hr⟩ := hinv.2.2.2.2.2 h hmem
  exact ⟨k, by simpa using Nat.lt_succ_iff.mp (List.mem_range.mp hk), hr⟩

/-! ## Characterisation of `unlink_internal` and `link_nodes` -/

theorem graph_clearColliderNative_parent {M : Type} (g : Graph M) (n : Node M) :
    (g.clearColliderNative n).parent = n.parent := by
  unfold Graph.clearColliderNative
  split <;> first | rfl | (split <;> first | rfl | (split <;> rfl))

theorem graph_clearColliderNative_children {M : Type} (g : Graph M) (n : Node M) :
    (g.clearColliderNative n).children = n.children := by
  unfold Graph.clearColliderNative
  split <;> first | rfl | (split <;> first | rfl | (split <;> rfl))

theorem graph_clearColliderNative_congr {M : Type} {g₁ g₂ : Graph M}
    (hc : g₁.physics.colliders = g₂.physics.colliders) (n : Node M) :
    g₁.clearColliderNative n = g₂.clearColliderNative n := by
  unfold Graph.clearColliderNative
  simp only [hc]

theorem graph_unlinkColliderEffect_congr {M : Type} {g₁ g₂ : Graph M} {n₁ n₂ : Node M}
    (hm : g₁.colliderMap = g₂.colliderMap)
    (hc : g₁.physics.colliders = g₂.physics.colliders)
    (hk : n₁.kind = n₂.kind) :
    g₁.unlinkColliderEffect n₁ = g₂.unlinkColliderEffect n₂ := by
  unfold Graph.unlinkColliderEffect
  simp only [hm, hc, hk]

theorem graph_unlinkColliderCheck_spec {M : Type} {g g' : Graph M} {h : Handle} {n : Node M}
    (hn : g.tryGet h = some n) (hc : g.unlinkColliderCheck h = some g') :
    g'.root = g.root ∧ g'.pool.len = g.pool.len ∧
      g'.physics.bodies = g.physics.bodies ∧ g'.physics.joints = g.physics.joints ∧
      (g'.colliderMap, g'.physics.colliders) = g.unlinkColliderEffect n ∧
      (∀ x, x ≠ h → g'.tryGet x = g.tryGet x) ∧
      g'.tryGet h = some (g.clearColliderNative n) := by
  unfold Graph.unlinkColliderCheck at hc
  rw [hn] at hc
  simp only [Option.bind_eq_bind, Option.some_bind] at hc
  unfold Graph.unlinkColliderEffect Graph.clearColliderNative
  cases hk : n.kind with
  | base =>
    rw [hk] at hc
    cases hc
    exact ⟨rfl, rfl, rfl, rfl, rfl, fun x _ => rfl, hn⟩
  | rigidBody rb =>
    rw [hk] at hc
    cases hc
    exact ⟨rfl, rfl, rfl, rfl, rfl, fun x _ => rfl, hn⟩
  | joint j =>
    rw [hk] at hc
    cases hc
    exact ⟨rfl, rfl, rfl, rfl, rfl, fun x _ => rfl, hn⟩
  | collider c =>
    rw [hk] at hc
    simp only [] at hc ⊢
    cases hnat : c.native with
    | none =>
      rw [hnat] at hc
      cases hc
      exact ⟨rfl, rfl, rfl, rfl, rfl, fun x _ => rfl, hn⟩
    | some nid =>
      rw [hnat] at hc
      simp only [] at hc ⊢
      cases hlive : AList.get g.physics.colliders nid with
      | none =>
        rw [hlive] at hc
        cases hc
        exact ⟨rfl, rfl, rfl, rfl, rfl, fun x _ => rfl, hn⟩
      | some nc =>
        rw [hlive] at hc
        simp only [] at hc
        have hspec := graph_setNode_eq_some hc
        obtain ⟨htry, hroot, hlen, hphys, hmap⟩ := hspec
        refine ⟨hroot, hlen, by rw [hphys], by rw [hphys], ?_, ?_, ?_⟩
        · rw [hmap, hphys]
        · intro x hx
          rw [htry x, if_neg hx]
          exact rfl
        · rw [htry h, if_pos rfl]

theorem graph_unlinkInternal_spec {M : Type} {g g' : Graph M} {h : Handle} {n : Node M}
    (hNone : g.tryGet Handle.NONE = none)
    (hn : g.tryGet h = some n)
    (hul : g.unlinkInternal h = some g') :
    g'.root = g.root ∧ g'.pool.len = g.pool.len ∧
      g'.physics.bodies = g.physics.bodies ∧ g'.physics.joints = g.physics.joints ∧
      (g'.colliderMap, g'.physics.colliders) = g.unlinkColliderEffect n ∧
      (∀ x, (g'.tryGet x).isSome = (g.tryGet x).isSome) ∧
      (∀ x, x ≠ h → x ≠ n.parent → g'.tryGet x = g.tryGet x) ∧
      g'.tryGet h = some (g.clearColliderNative
        (if n.parent = h then
          { n with parent := Handle.NONE, children := Graph.removeFirst n.children h }
         else { n with parent := Handle.NONE })) ∧
      (n.parent ≠ h → ∀ pn, g.tryGet n.parent = some pn →
        g'.tryGet n.parent = some { pn with children := Graph.removeFirst pn.children h }) := by
  have hhne : h ≠ Handle.NONE := by
    intro he
    rw [he, hNone] at hn
    exact Option.noConfusion hn
  unfold Graph.unlinkInternal at hul
  rw [hn] at hul
  simp only [Option.bind_eq_bind, Option.some_bind] at hul
  rw [Option.bind_eq_some] at hul
  obtain ⟨g₁, hs1, hul⟩ := hul
  obtain ⟨htry1, hroot1, hlen1, hphys1, hmap1⟩ := graph_setNode_eq_some hs1
  by_cases hp : n.parent = Handle.NONE
  · rw [if_pos hp] at hul
    simp only [Option.pure_def, Option.some_bind] at hul
    have hn1 : g₁.tryGet h = some { n with parent := Handle.NONE } := by
      rw [htry1 h, if_pos rfl]
    have hself : n.parent ≠ h := by
      rw [hp]
      exact fun he => hhne he.symm
    obtain ⟨croot, clen, cbody, cjoint, ceff, cframe, cself⟩ :=
      graph_unlinkColliderCheck_spec hn1 hul
    refine ⟨croot.trans hroot1, clen.trans hlen1, ?_, ?_, ?_, ?_, ?_, ?_, ?_⟩
    · rw [cbody, hphys1]
    · rw [cjoint, hphys1]
    · rw [ceff]
      exact graph_unlinkColliderEffect_congr hmap1 (by rw [hphys1]) rfl
    · intro x
      by_cases hx : x = h
      · subst hx
        rw [cself, hn]
        simp
      · rw [cframe x hx, htry1 x, if_neg hx]
    · intro x hx _
      rw [cframe x hx, htry1 x, if_neg hx]
    · rw [if_neg hself, cself]
      exact congrArg _ (graph_clearColliderNative_congr (by rw [hphys1]) _)
    · intro _ pn hpn
      rw [hp, hNone] at hpn
      exact Option.noConfusion hpn
  · rw [if_neg hp] at hul
    rw [Option.bind_eq_some] at hul
    obtain ⟨pn, hpn1, hul⟩ := hul
    rw [Option.bind_eq_some] at hul
    obtain ⟨g₂, hs2, hul⟩ := hul
    obtain ⟨htry2, hroot2, hlen2, hphys2, hmap2⟩ := graph_setNode_eq_some hs2
    by_cases hph : n.parent = h
    · have hpn1' : pn = { n with parent := Handle.NONE } := by
        rw [hph, htry1 h, if_pos rfl] at hpn1
        exact (Option.some_inj.mp hpn1).symm
      have hn2 : g₂.tryGet h = some
          { n with parent := Handle.NONE, children := Graph.removeFirst n.children h } := by
        have : g₂.tryGet h = some { pn with children := Graph.removeFirst pn.children h } := by
          rw [htry2 h, ← hph, if_pos rfl]
        rw [this, hpn1']
      obtain ⟨croot, clen, cbody, cjoint, ceff, cframe, cself⟩ :=
        graph_unlinkColliderCheck_spec hn2 hul
      refine ⟨croot.trans (hroot2.trans hroot1), clen.trans (hlen2.trans hlen1),
        ?_, ?_, ?_, ?_, ?_, ?_, ?_⟩
      · rw [cbody, hphys2, hphys1]
      · rw [cjoint, hphys2, hphys1]
      · rw [ceff]
        exact graph_unlinkColliderEffect_congr (hmap2.trans hmap1)
          (by rw [hphys2, hphys1]) rfl
      · intro x
        by_cases hx : x = h
        · subst hx
          rw [cself, hn]
          simp
        · rw [cframe x hx, htry2 x, if_neg (by rw [hph]; exact hx), htry1 x, if_neg hx]
      · intro x hx hxp
        rw [cframe x hx, htry2 x, if_neg (by rw [hph]; exact hx), htry1 x, if_neg hx]
      · rw [if_pos hph, cself]
        exact congrArg _ (graph_clearColliderNative_congr (by rw [hphys2, hphys1]) _)
      · intro hne
        exact absurd hph hne
    · have hpn1' : g.tryGet n.parent = some pn := by
        rw [htry1 n.parent, if_neg hph] at hpn1
        exact hpn1
      have hn2 : g₂.tryGet h = some { n with parent := Handle.NONE } := by
        rw [htry2 h, if_neg (fun e => hph (Eq.symm e)), htry1 h, if_pos rfl]
      obtain ⟨croot, clen, cbody, cjoint, ceff, cframe, cself⟩ :=
        graph_unlinkColliderCheck_spec hn2 hul
      refine ⟨croot.trans (hroot2.trans hroot1), clen.trans (hlen2.trans hlen1),
        ?_, ?_, ?_, ?_, ?_, ?_, ?_⟩
      · rw [cbody, hphys2, hphys1]
      · rw [cjoint, hphys2, hphys1]
      · rw [ceff]
        exact graph_unlinkColliderEffect_congr (hmap2.trans hmap1)
          (by rw [hphys2, hphys1]) rfl
      · intro x
        by_cases hx : x = h
        · subst hx
          rw [cself, hn]
          simp
        · by_cases hxp : x = n.parent
          · subst hxp
            rw [cframe _ hx, htry2 _, if_pos rfl, hpn1']
            simp
          · rw [cframe x hx, htry2 x, if_neg hxp, htry1 x, if_neg hx]
      · intro x hx hxp
        rw [cframe x hx, htry2 x, if_neg hxp, htry1 x, if_neg hx]
      · rw [if_neg hph, cself]
        exact congrArg _ (graph_clearColliderNative_congr (by rw [hphys2, hphys1]) _)
      · intro _ pn' hpn'
        have hpe : pn' = pn := by
          rw [hpn1'] at hpn'
          exact Option.some_inj.mp hpn'.symm
        subst hpe
        rw [cframe n.parent hph, htry2 n.parent, if_pos rfl]

theorem graph_childrenOfD_eq {M : Type} {g : Graph M} {h : Handle} {n : Node M}
    (hn : g.tryGet h = some n) : g.childrenOfD h = n.children := by
  unfold Graph.childrenOfD Graph.childrenOf
  rw [hn]
  rfl

theorem graph_childrenOfD_dead {M : Type} {g : Graph M} {h : Handle}
    (hn : g.tryGet h = none) : g.childrenOfD h = [] := by
  unfold Graph.childrenOfD Graph.childrenOf
  rw [hn]
  rfl

theorem graph_parentOf_eq {M : Type} {g : Graph M} {h : Handle} {n : Node M}
    (hn : g.tryGet h = some n) : g.parentOf h = some n.parent := by
  unfold Graph.parentOf
  rw [hn]
  rfl

theorem graph_parentOf_dead {M : Type} {g : Graph M} {h : Handle}
    (hn : g.tryGet h = none) : g.parentOf h = none := by
  unfold Graph.parentOf
  rw [hn]
  rfl

theorem graph_linkNodes_spec {M : Type} {g g' : Graph M} {c p : Handle} {cn : Node M}
    (hNone : g.tryGet Handle.NONE = none)
    (hc : g.tryGet c = some cn)
    (hl : g.linkNodes c p = some g') :
    g'.root = g.root ∧ g'.pool.len = g.pool.len ∧
      g'.physics.bodies = g.physics.bodies ∧ g'.physics.joints = g.physics.joints ∧
      (g'.colliderMap, g'.physics.colliders) = g.unlinkColliderEffect cn ∧
      (g.tryGet p).isSome = true ∧
      (∀ x, (g'.tryGet x).isSome = (g.tryGet x).isSome) ∧
      (∀ x, g'.parentOf x = if x = c then some p else g.parentOf x) ∧
      (∀ x, g'.childrenOfD x =
        (if x = p then
          (if p = cn.parent then Graph.removeFirst (g.childrenOfD p) c else g.childrenOfD p) ++ [c]
         else if x = cn.parent then Graph.removeFirst (g.childrenOfD x) c
         else g.childrenOfD x)) ∧
      (∀ x, x ≠ c → x ≠ p → x ≠ cn.parent → g'.tryGet x = g.tryGet x) ∧
      (c ≠ p → cn.parent ≠ c →
        g'.tryGet c =
          some { g.clearColliderNative { cn with parent := Handle.NONE } with parent := p }) ∧
      (p ≠ c → ∀ pn0, g.tryGet p = some pn0 →
        g'.tryGet p = some { pn0 with children :=
          (if p = cn.parent then Graph.removeFirst pn0.children c else pn0.children) ++ [c] }) := by
  unfold Graph.linkNodes at hl
  simp only [Option.bind_eq_bind] at hl
  rw [Option.bind_eq_some] at hl
  obtain ⟨g₁, hul, hl⟩ := hl
  obtain ⟨uroot, ulen, ubody, ujoint, ueff, ualive, uframe, uself, upar⟩ :=
    graph_unlinkInternal_spec hNone hc hul
  rw [Option.bind_eq_some] at hl
  obtain ⟨cn1, hcn1, hl⟩ := hl
  have hcn1' : cn1 = g.clearColliderNative
      (if cn.parent = c then
        { cn with parent := Handle.NONE, children := Graph.removeFirst cn.children c }
       else { cn with parent := Handle.NONE }) := by
    rw [uself] at hcn1
    exact (Option.some_inj.mp hcn1).symm
  rw [Option.bind_eq_some] at hl
  obtain ⟨g₂, hset2, hl⟩ := hl
  obtain ⟨htry2, hroot2, hlen2, hphys2, hmap2⟩ := graph_setNode_eq_some hset2
  rw [Option.bind_eq_some] at hl
  obtain ⟨pn2, hpn2, hl⟩ := hl
  obtain ⟨htry3, hroot3, hlen3, hphys3, hmap3⟩ := graph_setNode_eq_some hl
  -- the children of the re-linked child node are those left by the unlink
  have hA_children : cn1.children =
      (if c = cn.parent then Graph.removeFirst (g.childrenOfD c) c else g.childrenOfD c) := by
    rw [hcn1', graph_clearColliderNative_children]
    rw [graph_childrenOfD_eq hc]
    by_cases hcc : cn.parent = c
    · rw [if_pos hcc, if_pos hcc.symm]
    · rw [if_neg hcc, if_neg (fun e => hcc (Eq.symm e))]
  have hA_parent_none : cn1.parent = Handle.NONE := by
    rw [hcn1', graph_clearColliderNative_parent]
    by_cases hcc : cn.parent = c
    · rw [if_pos hcc]
    · rw [if_neg hcc]
  -- p must be alive in g (the final setNode succeeded, and its value was read in g₂)
  have hpalive : (g.tryGet p).isSome = true := by
    by_cases hpc : p = c
    · rw [hpc, hc]
      rfl
    · rw [← ualive p]
      have h2 := htry2 p
      rw [if_neg hpc] at h2
      rw [← h2, hpn2]
      rfl
  -- complete description of the node read at p in g₂
  have hval_p : g'.tryGet p = some { pn2 with children := pn2.children ++ [c] } := by
    rw [htry3 p, if_pos rfl]
  have hval_c : ∀ x, x ≠ p → x = c → g'.tryGet x = some { cn1 with parent := p } := by
    intro x hxp hxc
    rw [htry3 x, if_neg hxp, htry2 x, if_pos hxc]
  have hval_other : ∀ x, x ≠ p → x ≠ c → g'.tryGet x = g₁.tryGet x := by
    intro x hxp hxc
    rw [htry3 x, if_neg hxp, htry2 x, if_neg hxc]
  have hdesc_pc : p = c → pn2 = { cn1 with parent := p } := by
    intro hpc
    have h2 := htry2 p
    rw [if_pos hpc, hpn2] at h2
    exact Option.some_inj.mp h2
  have hdesc_par : p ≠ c → p = cn.parent → ∃ pn0, g.tryGet p = some pn0 ∧
      pn2 = { pn0 with children := Graph.removeFirst pn0.children c } := by
    intro hpc hppar
    obtain ⟨pn0, hpn0⟩ := Option.isSome_iff_exists.mp hpalive
    have hup := upar (fun e => hpc (hppar.trans e)) pn0 (by rw [← hppar]; exact hpn0)
    have h2 := htry2 p
    rw [if_neg hpc, hpn2, hppar, hup] at h2
    exact ⟨pn0, hpn0, Option.some_inj.mp h2⟩
  have hdesc_other : p ≠ c → p ≠ cn.parent → g.tryGet p = some pn2 := by
    intro hpc hppar
    have h2 := htry2 p
    rw [if_neg hpc, hpn2, uframe p hpc hppar] at h2
    exact h2.symm
  refine ⟨hroot3.trans (hroot2.trans uroot), hlen3.trans (hlen2.trans ulen),
    by rw [hphys3, hphys2, ubody], by rw [hphys3, hphys2, ujoint],
    by rw [hmap3, hphys3, hmap2, hphys2, ueff], hpalive, ?_, ?_, ?_, ?_, ?_, ?_⟩
  · intro x
    rw [htry3 x]
    by_cases hx3 : x = p
    · rw [if_pos hx3, hx3, hpalive]
      rfl
    · rw [if_neg hx3, htry2 x]
      by_cases hx2 : x = c
      · rw [if_pos hx2, hx2, hc]
        rfl
      · rw [if_neg hx2]
        exact ualive x
  · intro x
    by_cases hxp : x = p
    · rw [graph_parentOf_eq (hxp ▸ hval_p)]
      show some pn2.parent = _
      by_cases hxc : x = c
      · rw [if_pos hxc, hdesc_pc (hxp.symm.trans hxc)]
      · rw [if_neg hxc]
        have hpc : p ≠ c := fun e => hxc (hxp.trans e)
        by_cases hppar : p = cn.parent
        · obtain ⟨pn0, hpn0, hpe⟩ := hdesc_par hpc hppar
          rw [hpe, hxp]
          show some pn0.parent = _
          rw [graph_parentOf_eq hpn0]
        · have := hdesc_other hpc hppar
          rw [hxp, graph_parentOf_eq this]
    · by_cases hxc : x = c
      · rw [graph_parentOf_eq (hval_c x hxp hxc), if_pos hxc]
      · rw [if_neg hxc]
        have hx1 := hval_other x hxp hxc
        by_cases hxpar : x = cn.parent
        · cases hx0 : g.tryGet x with
          | none =>
            have halive : (g₁.tryGet x).isSome = (g.tryGet x).isSome := ualive x
            rw [hx0] at halive
            cases hval : g₁.tryGet x with
            | none =>
              have hdead : g'.tryGet x = none := by rw [hx1, hval]
              rw [graph_parentOf_dead hdead, graph_parentOf_dead hx0]
            | some q => rw [hval] at halive; exact Bool.noConfusion halive
          | some pn0 =>
            have hup := upar (fun e => hxc (hxpar.trans e)) pn0
              (by rw [← hxpar]; exact hx0)
            have hvx : g'.tryGet x =
                some { pn0 with children := Graph.removeFirst pn0.children c } := by
              rw [hx1, hxpar, hup]
            rw [graph_parentOf_eq hvx, graph_parentOf_eq hx0]
        · unfold Graph.parentOf
          rw [hx1, uframe x hxc hxpar]
  · intro x
    by_cases hxp : x = p
    · rw [graph_childrenOfD_eq (hxp ▸ hval_p), if_pos hxp]
      show pn2.children ++ [c] = _
      congr 1
      by_cases hxc : p = c
      · rw [hdesc_pc hxc]
        show cn1.children = _
        rw [hA_children, hxc]
      · by_cases hppar : p = cn.parent
        · obtain ⟨pn0, hpn0, hpe⟩ := hdesc_par hxc hppar
          rw [hpe, if_pos hppar]
          show Graph.removeFirst pn0.children c = _
          rw [graph_childrenOfD_eq hpn0]
        · rw [if_neg hppar]
          show pn2.children = g.childrenOfD p
          rw [graph_childrenOfD_eq (hdesc_other hxc hppar)]
    · rw [if_neg hxp]
      by_cases hxc : x = c
      · rw [graph_childrenOfD_eq (hval_c x hxp hxc)]
        show cn1.children = _
        rw [hA_children, hxc]
      · have hx1 := hval_other x hxp hxc
        by_cases hxpar : x = cn.parent
        · cases hx0 : g.tryGet x with
          | none =>
            have halive : (g₁.tryGet x).isSome = (g.tryGet x).isSome := ualive x
            rw [hx0] at halive
            cases hval : g₁.tryGet x with
            | none =>
              rw [if_pos hxpar]
              unfold Graph.childrenOfD Graph.childrenOf
              rw [hx1, hval, hx0]
              rfl
            | some q => rw [hval] at halive; exact Bool.noConfusion halive
          | some pn0 =>
            have hup := upar (fun e => hxc (hxpar.trans e)) pn0
              (by rw [← hxpar]; exact hx0)
            rw [hxpar] at hx1
            rw [if_pos hxpar]
            have hvx : g'.tryGet x = some { pn0 with children := Graph.removeFirst pn0.children c } := by
              rw [hxpar, hx1, hup]
            rw [graph_childrenOfD_eq hvx, graph_childrenOfD_eq hx0]
        · rw [if_neg hxpar]
          unfold Graph.childrenOfD Graph.childrenOf
          rw [hx1, uframe x hxc hxpar]
  · intro x hxc hxp hxpar
    rw [hval_other x hxp hxc, uframe x hxc hxpar]
  · intro hcp hparc
    rw [hval_c c (fun e => hcp e) rfl, hcn1', if_neg hparc]
  · intro hpc pn0 hpn0
    rw [hval_p]
    by_cases hppar : p = cn.parent
    · obtain ⟨pn0b, hpn0b, hpe⟩ := hdesc_par hpc hppar
      have : pn0b = pn0 := by
        rw [hpn0] at hpn0b
        exact (Option.some_inj.mp hpn0b).symm
      subst this
      rw [hpe, if_pos hppar]
    · have := hdesc_other hpc hppar
      rw [hpn0] at this
      have hpe : pn2 = pn0 := Option.some_inj.mp this.symm
      rw [hpe, if_neg hppar]

theorem graph_modifyNode_spec {M : Type} {g g' : Graph M} {h : Handle} {f : Node M → Node M}
    (hm : g.modifyNode h f = some g') :
    ∃ n, g.tryGet h = some n ∧
      (∀ x, g'.tryGet x = if x = h then some (f n) else g.tryGet x) ∧
      g'.root = g.root ∧ g'.pool.len = g.pool.len ∧ g'.physics = g.physics ∧
      g'.colliderMap = g.colliderMap := by
  unfold Graph.modifyNode at hm
  rw [Option.bind_eq_some] at hm
  obtain ⟨n, hn, hm⟩ := hm
  obtain ⟨htry, hroot, hlen, hphys, hmap⟩ := graph_setNode_eq_some hm
  exact ⟨n, hn, htry, hroot, hlen, hphys, hmap⟩

/-! ## Totality of the structural editing calls on well-formed graphs -/

theorem graph_unlinkColliderCheck_isSome {M : Type} {g : Graph M} {h : Handle}
    (hh : (g.tryGet h).isSome = true) : (g.unlinkColliderCheck h).isSome = true := by
  obtain ⟨n, hn⟩ := Option.isSome_iff_exists.mp hh
  unfold Graph.unlinkColliderCheck
  rw [hn]
  simp only [Option.bind_eq_bind, Option.some_bind]
  cases hk : n.kind with
  | base => rfl
  | rigidBody rb => rfl
  | joint j => rfl
  | collider c =>
    simp only []
    cases hnat : c.native with
    | none => rfl
    | some nid =>
      simp only []
      cases hlive : AList.get g.physics.colliders nid with
      | none => rfl
      | some nc =>
        simp only []
        rw [graph_setNode_isSome]
        exact hh

theorem graph_unlinkInternal_isSome {M : Type} {g : Graph M} {h : Handle} {n : Node M}
    (hn : g.tryGet h = some n)
    (hpar : n.parent = Handle.NONE ∨ (g.tryGet n.parent).isSome = true) :
    (g.unlinkInternal h).isSome = true := by
  unfold Graph.unlinkInternal
  rw [hn]
  simp only [Option.bind_eq_bind, Option.some_bind]
  have hs1 : (g.setNode h { n with parent := Handle.NONE }).isSome = true := by
    rw [graph_setNode_isSome, hn]
    rfl
  obtain ⟨g₁, hg1⟩ := Option.isSome_iff_exists.mp hs1
  rw [hg1]
  simp only [Option.some_bind]
  obtain ⟨htry1, -, -, -, -⟩ := graph_setNode_eq_some hg1
  by_cases hp : n.parent = Handle.NONE
  · rw [if_pos hp]
    simp only [Option.pure_def, Option.some_bind]
    exact graph_unlinkColliderCheck_isSome (by rw [htry1 h, if_pos rfl]; rfl)
  · rw [if_neg hp]
    rcases hpar with hpar | hpar
    · exact absurd hpar hp
    have hpal : (g₁.tryGet n.parent).isSome = true := by
      rw [htry1 n.parent]
      by_cases hph : n.parent = h
      · rw [if_pos hph]
        rfl
      · rw [if_neg hph]
        exact hpar
    obtain ⟨pn, hpn⟩ := Option.isSome_iff_exists.mp hpal
    rw [hpn]
    simp only [Option.some_bind]
    have hs2 : (g₁.setNode n.parent
        { pn with children := Graph.removeFirst pn.children h }).isSome = true := by
      rw [graph_setNode_isSome, hpn]
      rfl
    obtain ⟨g₂, hg2⟩ := Option.isSome_iff_exists.mp hs2
    rw [hg2]
    simp only [Option.some_bind]
    obtain ⟨htry2, -, -, -, -⟩ := graph_setNode_eq_some hg2
    apply graph_unlinkColliderCheck_isSome
    rw [htry2 h]
    by_cases hhp : h = n.parent
    · rw [if_pos hhp]
      rfl
    · rw [if_neg hhp, htry1 h, if_pos rfl]
      rfl

theorem graph_linkNodes_isSome {M : Type} {g : Graph M} {c p : Handle} {cn : Node M}
    (hNone : g.tryGet Handle.NONE = none)
    (hc : g.tryGet c = some cn)
    (hpar : cn.parent = Handle.NONE ∨ (g.tryGet cn.parent).isSome = true)
    (hp : (g.tryGet p).isSome = true) :
    (g.linkNodes c p).isSome = true := by
  unfold Graph.linkNodes
  have hul : (g.unlinkInternal c).isSome = true := graph_unlinkInternal_isSome hc hpar
  obtain ⟨g₁, hg1⟩ := Option.isSome_iff_exists.mp hul
  rw [hg1]
  simp only [Option.bind_eq_bind, Option.some_bind]
  obtain ⟨-, -, -, -, -, ualive, -, uself, -⟩ := graph_unlinkInternal_spec hNone hc hg1
  rw [uself]
  simp only [Option.some_bind]
  have hs2 : (g₁.setNode c
      { (g.clearColliderNative
          (if cn.parent = c then
            { cn with parent := Handle.NONE, children := Graph.removeFirst cn.children c }
           else { cn with parent := Handle.NONE })) with parent := p }).isSome = true := by
    rw [graph_setNode_isSome, uself]
    rfl
  obtain ⟨g₂, hg2⟩ := Option.isSome_iff_exists.mp hs2
  rw [hg2]
  simp only [Option.some_bind]
  obtain ⟨htry2, -, -, -, -⟩ := graph_setNode_eq_some hg2
  have hp2 : (g₂.tryGet p).isSome = true := by
    rw [htry2 p]
    by_cases hpc : p = c
    · rw [if_pos hpc]
      rfl
    · rw [if_neg hpc, ualive p]
      exact hp
  obtain ⟨pn2, hpn2⟩ := Option.isSome_iff_exists.mp hp2
  rw [hpn2]
  simp only [Option.some_bind]
  rw [graph_setNode_isSome, hpn2]
  rfl

theorem inv_parents_ok {M : Type} {g : Graph M} (hinv : g.Invariant) : g.ParentsOk := by
  intro h n hn
  by_cases hr : h = g.root
  · left
    have := inv_root_parent hinv
    rw [hr] at hn
    rw [graph_parentOf_eq hn] at this
    exact Option.some_inj.mp this
  · right
    obtain ⟨pn, hpn, -⟩ := inv_parent_spec hinv hn hr
    rw [hpn]
    rfl

theorem graph_unlinkNode_spec {M : Type} {g : Graph M} {h : Handle}
    (hinv : g.Invariant) (hh : (g.tryGet h).isSome = true) :
    ∃ g', g.unlinkNode h = some g' ∧
      g'.parentOf h = some g.root ∧
      h ∈ g'.childrenOfD g.root ∧
      (∃ n', g'.tryGet h = some n' ∧ n'.localPosition = (0, 0, 0)) ∧
      g'.root = g.root := by
  obtain ⟨n, hn⟩ := Option.isSome_iff_exists.mp hh
  have hNone := inv_none_dead hinv
  have hpar := inv_parents_ok hinv h n hn
  -- the unlink step
  have hul : (g.unlinkInternal h).isSome = true := graph_unlinkInternal_isSome hn hpar
  obtain ⟨g₁, hg1⟩ := Option.isSome_iff_exists.mp hul
  obtain ⟨uroot, -, -, -, -, ualive, -, uself, -⟩ := graph_unlinkInternal_spec hNone hn hg1
  have hNone1 : g₁.tryGet Handle.NONE = none := by
    have := ualive Handle.NONE
    rw [hNone] at this
    cases hx : g₁.tryGet Handle.NONE with
    | none => rfl
    | some q => rw [hx] at this; exact Bool.noConfusion this
  -- the link step
  have hroot1 : (g₁.tryGet g.root).isSome = true := by
    rw [ualive g.root]
    exact inv_root_alive hinv
  have hlk : (g₁.linkNodes h g.root).isSome = true := by
    refine graph_linkNodes_isSome hNone1 uself ?_ hroot1
    left
    rw [graph_clearColliderNative_parent]
    by_cases hph : n.parent = h
    · rw [if_pos hph]
    · rw [if_neg hph]
  obtain ⟨g₂, hg2⟩ := Option.isSome_iff_exists.mp hlk
  obtain ⟨lroot, -, -, -, -, -, lalive, lparent, lchildren, -, -, -⟩ :=
    graph_linkNodes_spec hNone1 uself hg2
  -- the position reset
  have hh2 : (g₂.tryGet h).isSome = true := by
    rw [lalive h, ualive h]
    exact hh
  have hmod : (g₂.modifyNode h fun nd => { nd with localPosition := (0, 0, 0) }).isSome
      = true := by
    obtain ⟨n₂, hn2⟩ := Option.isSome_iff_exists.mp hh2
    unfold Graph.modifyNode
    rw [hn2]
    simp only [Option.bind_eq_bind, Option.some_bind]
    rw [graph_setNode_isSome, hn2]
    rfl
  obtain ⟨g₃, hg3⟩ := Option.isSome_iff_exists.mp hmod
  obtain ⟨n₂, hn2, mtry, mroot, -, -, -⟩ := graph_modifyNode_spec hg3
  refine ⟨g₃, ?_, ?_, ?_, ?_, ?_⟩
  · unfold Graph.unlinkNode
    rw [hg1]
    simp only [Option.bind_eq_bind, Option.some_bind]
    rw [uroot, hg2]
    simp only [Option.some_bind]
    exact hg3
  · have hval : g₃.tryGet h = some { n₂ with localPosition := (0, 0, 0) } := by
      rw [mtry h, if_pos rfl]
    rw [graph_parentOf_eq hval]
    show some n₂.parent = _
    have := lparent h
    rw [if_pos rfl, graph_parentOf_eq hn2] at this
    rw [Option.some_inj.mp this]
  · have hch' : g₃.childrenOfD g.root = g₂.childrenOfD g.root := by
      by_cases hhr : g.root = h
      · have hval : g₃.tryGet g.root = some { n₂ with localPosition := (0, 0, 0) } := by
          rw [mtry g.root, if_pos hhr]
        rw [graph_childrenOfD_eq hval]
        show n₂.children = _
        rw [hhr, graph_childrenOfD_eq hn2]
      · have hval : g₃.tryGet g.root = g₂.tryGet g.root := by
          rw [mtry g.root, if_neg hhr]
        unfold Graph.childrenOfD Graph.childrenOf
        rw [hval]
    rw [hch']
    have hlc := lchildren g.root
    rw [if_pos rfl] at hlc
    rw [hlc]
    simp
  · exact ⟨{ n₂ with localPosition := (0, 0, 0) }, by rw [mtry h, if_pos rfl], rfl⟩
  · rw [mroot, lroot, uroot]

/-- C7: for every valid node handle `h` of a graph satisfying the tree
invariant, `unlink_node(h)` succeeds, afterwards `h`'s parent is the graph's
root handle, `h` appears in the root's children list, and `h`'s local
position has been reset to the origin. -/
theorem c7_unlink_node_reattaches_under_root {M : Type} {g : Graph M} {h : Handle}
    (hinv : g.Invariant) (hh : (g.tryGet h).isSome = true) :
    ∃ g', g.unlinkNode h = some g' ∧
      g'.parentOf h = some g.root ∧
      h ∈ g'.childrenOfD g.root ∧
      (∃ n', g'.tryGet h = some n' ∧ n'.localPosition = (0, 0, 0)) := by
  obtain ⟨g', e1, e2, e3, e4, -⟩ := graph_unlinkNode_spec hinv hh
  exact ⟨g', e1, e2, e3, e4⟩

/-- Witness for C7 at the fresh graph and its root handle. -/
theorem c7_unlink_node_reattaches_under_root_witness :
    (Graph.new : Graph ℕ).Invariant ∧
      ((Graph.new : Graph ℕ).tryGet (Graph.new : Graph ℕ).root).isSome = true ∧
      ∃ g', (Graph.new : Graph ℕ).unlinkNode (Graph.new : Graph ℕ).root = some g' ∧
        g'.parentOf (Graph.new : Graph ℕ).root = some (Graph.new : Graph ℕ).root ∧
        (Graph.new : Graph ℕ).root ∈ g'.childrenOfD (Graph.new : Graph ℕ).root ∧
        (∃ n', g'.tryGet (Graph.new : Graph ℕ).root = some n' ∧
          n'.localPosition = (0, 0, 0)) :=
  ⟨by decide, by decide, c7_unlink_node_reattaches_under_root (by decide) (by decide)⟩

/-- C9: aliased handles fault in ALL of the simultaneous mutable borrows.
In particular the three-way variant `get_three_mut` faults exactly like the
two- and four-way variants — its return type in the sources is a bare
triple of mutable references, so it has no error channel through which the
aliasing could be reported as a returned error. -/
theorem c9_get_three_mut_has_no_error_channel {M : Type} (g : Graph M) (a b c : Handle) :
    g.getTwoMut (a, a) = none ∧
    g.getThreeMut (a, a, b) = none ∧
    g.getThreeMut (a, b, a) = none ∧
    g.getThreeMut (b, a, a) = none ∧
    g.getFourMut (a, a, b, c) = none := by
  refine ⟨?_, ?_, ?_, ?_, ?_⟩ <;>
    simp [Graph.getTwoMut, Graph.getThreeMut, Graph.getFourMut,
      Pool.borrowTwoMut, Pool.borrowThreeMut, Pool.borrowFourMut]

/-- C10: `cast_ray` clears the supplied result storage before collecting
intersections, so its outcome is independent of whatever intersections a
previous call left in the buffer. -/
theorem c10_cast_ray_ignores_previous_buffer_contents (hits : List RawHit)
    (m : AList Handle) (opts : RayCastOptions) (cap : Option Nat)
    (stale fresh : List Intersection) :
    PhysicsWorld.castRay hits m opts { capacity := cap, items := stale } =
      PhysicsWorld.castRay hits m opts { capacity := cap, items := fresh } := rfl

theorem bool_ite_false_self (c : Bool) : (if c = true then false else c) = false := by
  cases c <;> simp

/-- C4 (amended): field-by-field characterisation of the dirty-bitmask
drain on a backed rigid body and a backed collider.  Every rigid-body field
whose bit is set is written into the native body and every rigid-body bit
ends cleared, with non-dirty native fields untouched and the rest of the
node payload preserved; the collider drain behaves the same for every field
EXCEPT the shape: the SHAPE bit is applied and cleared only when the shape
conversion succeeds, and survives the drain (with the native shape
untouched) when the conversion returns nothing. -/
theorem c4_sync_drain_per_field {M : Type} (conv : ShapeConv M)
    (pool : Pool (Node M)) (h : Handle) (rb : RigidBodyData) (cd : ColliderData)
    (pos : Vec3) (rot : Int) (nb : NativeBody) (nc : NativeCollider) :
    ((syncRigidBodyExisting rb pos rot nb).2.bodyType
        = (if rb.changes.bodyType then rb.bodyType else nb.bodyType) ∧
     (syncRigidBodyExisting rb pos rot nb).2.linvel
        = (if rb.changes.linVel then rb.linVel else nb.linvel) ∧
     (syncRigidBodyExisting rb pos rot nb).2.angvel
        = (if rb.changes.angVel then rb.angVel else nb.angvel) ∧
     (syncRigidBodyExisting rb pos rot nb).2.mass
        = (if rb.changes.mass then rb.mass else nb.mass) ∧
     (syncRigidBodyExisting rb pos rot nb).2.linearDamping
        = (if rb.changes.linDamping then rb.linDamping else nb.linearDamping) ∧
     (syncRigidBodyExisting rb pos rot nb).2.angularDamping
        = (if rb.changes.angDamping then rb.angDamping else nb.angularDamping) ∧
     (syncRigidBodyExisting rb pos rot nb).2.xLocked
        = (if rb.changes.rotationLocked then rb.xRotationLocked else nb.xLocked) ∧
     (syncRigidBodyExisting rb pos rot nb).2.yLocked
        = (if rb.changes.rotationLocked then rb.yRotationLocked else nb.yLocked) ∧
     (syncRigidBodyExisting rb pos rot nb).2.zLocked
        = (if rb.changes.rotationLocked then rb.zRotationLocked else nb.zLocked) ∧
     (syncRigidBodyExisting rb pos rot nb).2.position
        = (if rb.transformModified then pos else nb.position) ∧
     (syncRigidBodyExisting rb pos rot nb).2.rotation
        = (if rb.transformModified then rot else nb.rotation) ∧
     (syncRigidBodyExisting rb pos rot nb).2.translationLocked = nb.translationLocked ∧
     (syncRigidBodyExisting rb pos rot nb).1.bodyType = rb.bodyType ∧
     (syncRigidBodyExisting rb pos rot nb).1.linVel = rb.linVel ∧
     (syncRigidBodyExisting rb pos rot nb).1.angVel = rb.angVel ∧
     (syncRigidBodyExisting rb pos rot nb).1.mass = rb.mass ∧
     (syncRigidBodyExisting rb pos rot nb).1.linDamping = rb.linDamping ∧
     (syncRigidBodyExisting rb pos rot nb).1.angDamping = rb.angDamping ∧
     (syncRigidBodyExisting rb pos rot nb).1.xRotationLocked = rb.xRotationLocked ∧
     (syncRigidBodyExisting rb pos rot nb).1.yRotationLocked = rb.yRotationLocked ∧
     (syncRigidBodyExisting rb pos rot nb).1.zRotationLocked = rb.zRotationLocked ∧
     (syncRigidBodyExisting rb pos rot nb).1.translationLocked = rb.translationLocked ∧
     (syncRigidBodyExisting rb pos rot nb).1.native = rb.native ∧
     (syncRigidBodyExisting rb pos rot nb).1.changes.bodyType = false ∧
     (syncRigidBodyExisting rb pos rot nb).1.changes.linVel = false ∧
     (syncRigidBodyExisting rb pos rot nb).1.changes.angVel = false ∧
     (syncRigidBodyExisting rb pos rot nb).1.changes.mass = false ∧
     (syncRigidBodyExisting rb pos rot nb).1.changes.linDamping = false ∧
     (syncRigidBodyExisting rb pos rot nb).1.changes.angDamping = false ∧
     (syncRigidBodyExisting rb pos rot nb).1.changes.rotationLocked = false ∧
     (syncRigidBodyExisting rb pos rot nb).1.transformModified = false) ∧
    ((syncColliderExisting conv pool h cd pos rot nc).2.shape
        = (if cd.changes.shape then (conv h pool cd.shape).getD nc.shape else nc.shape) ∧
     (syncColliderExisting conv pool h cd pos rot nc).2.restitution
        = (if cd.changes.restitution then cd.restitution else nc.restitution) ∧
     (syncColliderExisting conv pool h cd pos rot nc).2.collisionGroups
        = (if cd.changes.collisionGroups then cd.collisionGroups else nc.collisionGroups) ∧
     (syncColliderExisting conv pool h cd pos rot nc).2.solverGroups
        = (if cd.changes.solverGroups then cd.solverGroups else nc.solverGroups) ∧
     (syncColliderExisting conv pool h cd pos rot nc).2.friction
        = (if cd.changes.friction then cd.friction else nc.friction) ∧
     (syncColliderExisting conv pool h cd pos rot nc).2.sensor
        = (if cd.changes.isSensor then cd.isSensor else nc.sensor) ∧
     (syncColliderExisting conv pool h cd pos rot nc).2.position
        = (if cd.transformModified then pos else nc.position) ∧
     (syncColliderExisting conv pool h cd pos rot nc).2.rotation
        = (if cd.transformModified then rot else nc.rotation) ∧
     (syncColliderExisting conv pool h cd pos rot nc).2.density = nc.density ∧
     (syncColliderExisting conv pool h cd pos rot nc).2.parentBody = nc.parentBody ∧
     (syncColliderExisting conv pool h cd pos rot nc).1.shape = cd.shape ∧
     (syncColliderExisting conv pool h cd pos rot nc).1.friction = cd.friction ∧
     (syncColliderExisting conv pool h cd pos rot nc).1.restitution = cd.restitution ∧
     (syncColliderExisting conv pool h cd pos rot nc).1.collisionGroups = cd.collisionGroups ∧
     (syncColliderExisting conv pool h cd pos rot nc).1.solverGroups = cd.solverGroups ∧
     (syncColliderExisting conv pool h cd pos rot nc).1.isSensor = cd.isSensor ∧
     (syncColliderExisting conv pool h cd pos rot nc).1.density = cd.density ∧
     (syncColliderExisting conv pool h cd pos rot nc).1.native = cd.native ∧
     (syncColliderExisting conv pool h cd pos rot nc).1.changes.shape
        = (cd.changes.shape && (conv h pool cd.shape).isNone) ∧
     (syncColliderExisting conv pool h cd pos rot nc).1.changes.restitution = false ∧
     (syncColliderExisting conv pool h cd pos rot nc).1.changes.collisionGroups = false ∧
     (syncColliderExisting conv pool h cd pos rot nc).1.changes.solverGroups = false ∧
     (syncColliderExisting conv pool h cd pos rot nc).1.changes.friction = false ∧
     (syncColliderExisting conv pool h cd pos rot nc).1.changes.isSensor = false ∧
     (syncColliderExisting conv pool h cd pos rot nc).1.transformModified = false) := by
  constructor
  · simp [syncRigidBodyExisting, apply_ite Prod.fst, apply_ite Prod.snd,
      apply_ite NativeBody.bodyType, apply_ite NativeBody.linvel, apply_ite NativeBody.angvel,
      apply_ite NativeBody.mass, apply_ite NativeBody.linearDamping,
      apply_ite NativeBody.angularDamping, apply_ite NativeBody.xLocked,
      apply_ite NativeBody.yLocked, apply_ite NativeBody.zLocked,
      apply_ite NativeBody.position, apply_ite NativeBody.rotation,
      apply_ite NativeBody.translationLocked,
      apply_ite RigidBodyData.bodyType, apply_ite RigidBodyData.linVel,
      apply_ite RigidBodyData.angVel, apply_ite RigidBodyData.mass,
      apply_ite RigidBodyData.linDamping, apply_ite RigidBodyData.angDamping,
      apply_ite RigidBodyData.xRotationLocked, apply_ite RigidBodyData.yRotationLocked,
      apply_ite RigidBodyData.zRotationLocked, apply_ite RigidBodyData.translationLocked,
      apply_ite RigidBodyData.native, apply_ite RigidBodyData.changes,
      apply_ite RigidBodyData.transformModified,
      apply_ite RigidBodyChanges.bodyType, apply_ite RigidBodyChanges.linVel,
      apply_ite RigidBodyChanges.angVel, apply_ite RigidBodyChanges.mass,
      apply_ite RigidBodyChanges.linDamping, apply_ite RigidBodyChanges.angDamping,
      apply_ite RigidBodyChanges.rotationLocked,
      ite_self, bool_ite_false_self]
  · rcases hc : conv h pool cd.shape with _ | s <;>
    simp [syncColliderExisting, hc, apply_ite Prod.fst, apply_ite Prod.snd,
      apply_ite NativeCollider.shape, apply_ite NativeCollider.restitution,
      apply_ite NativeCollider.collisionGroups, apply_ite NativeCollider.solverGroups,
      apply_ite NativeCollider.friction, apply_ite NativeCollider.sensor,
      apply_ite NativeCollider.position, apply_ite NativeCollider.rotation,
      apply_ite NativeCollider.density, apply_ite NativeCollider.parentBody,
      apply_ite ColliderData.shape, apply_ite ColliderData.friction,
      apply_ite ColliderData.restitution, apply_ite ColliderData.collisionGroups,
      apply_ite ColliderData.solverGroups, apply_ite ColliderData.isSensor,
      apply_ite ColliderData.density, apply_ite ColliderData.native,
      apply_ite ColliderData.changes, apply_ite ColliderData.transformModified,
      apply_ite ColliderChanges.shape, apply_ite ColliderChanges.restitution,
      apply_ite ColliderChanges.collisionGroups, apply_ite ColliderChanges.solverGroups,
      apply_ite ColliderChanges.friction, apply_ite ColliderChanges.isSensor,
      ite_self, bool_ite_false_self]

/-- C4 counterexample: a backed collider whose SHAPE bit is set but whose
shape conversion fails keeps the SHAPE bit set after the drain (and the
native shape is not written), contradicting the unconditional
drain-and-clear reading. -/
theorem c4_shape_bit_survives_failed_conversion :
    (syncColliderExisting (M := ℕ) (fun _ _ _ => none) Pool.empty Handle.NONE
        { shape := 0, friction := 0, restitution := 0, collisionGroups := ⟨0, 0⟩,
          solverGroups := ⟨0, 0⟩, isSensor := false, density := none,
          native := some 0, changes := ⟨true, false, false, false, false, false⟩,
          transformModified := false }
        (0, 0, 0) 0
        { shape := 5, position := (0, 0, 0), rotation := 0, friction := 0,
          restitution := 0, collisionGroups := ⟨0, 0⟩, solverGroups := ⟨0, 0⟩,
          sensor := false, density := none, parentBody := 0 }).1.changes.shape = true ∧
    (syncColliderExisting (M := ℕ) (fun _ _ _ => none) Pool.empty Handle.NONE
        { shape := 0, friction := 0, restitution := 0, collisionGroups := ⟨0, 0⟩,
          solverGroups := ⟨0, 0⟩, isSensor := false, density := none,
          native := some 0, changes := ⟨true, false, false, false, false, false⟩,
          transformModified := false }
        (0, 0, 0) 0
        { shape := 5, position := (0, 0, 0), rotation := 0, friction := 0,
          restitution := 0, collisionGroups := ⟨0, 0⟩, solverGroups := ⟨0, 0⟩,
          sensor := false, density := none, parentBody := 0 }).2.shape = 5 :=
  ⟨rfl, rfl⟩

/-- C5 (amended): for a joint node with no backing physics entity, the
sync pass creates a native joint as soon as BOTH referenced handles borrow
as `RigidBody` nodes — regardless of whether those nodes carry live backing
native bodies; the inserted joint records whatever (possibly absent) native
body identifiers the nodes currently hold.  When either referenced handle
is dead or not a rigid body, nothing is created. -/
theorem c5_joint_created_when_nodes_borrow_as_rigid_bodies {M : Type}
    (pool : Pool (Node M)) (ph : PhysicsWorld) (jd : JointData)
    (hn : jd.native = none) :
    (∀ n1 n2 rb1 rb2, pool.tryBorrow jd.body1 = some n1 →
      pool.tryBorrow jd.body2 = some n2 →
      n1.kind = NodeKind.rigidBody rb1 → n2.kind = NodeKind.rigidBody rb2 →
      (syncJointStep pool ph jd).1.native = some ph.nextId ∧
      (syncJointStep pool ph jd).2.joints
        = ph.joints ++ [(ph.nextId, ⟨rb1.native, rb2.native, jd.params⟩)]) ∧
    (¬ (∃ n1 n2 rb1 rb2, pool.tryBorrow jd.body1 = some n1 ∧
        pool.tryBorrow jd.body2 = some n2 ∧
        n1.kind = NodeKind.rigidBody rb1 ∧ n2.kind = NodeKind.rigidBody rb2) →
      syncJointStep pool ph jd = (jd, ph)) := by
  constructor
  · intro n1 n2 rb1 rb2 h1 h2 k1 k2
    unfold syncJointStep
    rw [hn]
    simp only []
    rw [h1, h2]
    simp only []
    rw [k1, k2]
    exact ⟨rfl, rfl⟩
  · intro hnot
    unfold syncJointStep
    rw [hn]
    simp only []
    split
    · rename_i n1 n2 h1 h2
      split
      · rename_i rb1 rb2 k1 k2
        exact absurd ⟨n1, n2, rb1, rb2, h1, h2, k1, k2⟩ hnot
      · rfl
    · rfl

/-- Witness for C5 at a two-node pool of rigid bodies referenced by a
fresh joint. -/
theorem c5_joint_created_when_nodes_borrow_as_rigid_bodies_witness :
    (JointData.mk ⟨0, 1⟩ ⟨1, 1⟩ 7 none ⟨false, false, false⟩).native = none ∧
    ((∀ n1 n2 rb1 rb2,
      (Pool.mk (α := Node ℕ)
        [⟨1, .occupied { Node.baseDefault with kind := .rigidBody ⟨.dynamic, (0, 0, 0), (0, 0, 0), 0, 0, 0, false, false, false, false, none,
             ⟨false, false, false, false, false, false, false⟩, false⟩ }⟩,
         ⟨1, .occupied { Node.baseDefault with kind := .rigidBody ⟨.dynamic, (0, 0, 0), (0, 0, 0), 0, 0, 0, false, false, false, false, none,
             ⟨false, false, false, false, false, false, false⟩, false⟩ }⟩]).tryBorrow
        (JointData.mk ⟨0, 1⟩ ⟨1, 1⟩ 7 none ⟨false, false, false⟩).body1 = some n1 →
      (Pool.mk (α := Node ℕ)
        [⟨1, .occupied { Node.baseDefault with kind := .rigidBody ⟨.dynamic, (0, 0, 0), (0, 0, 0), 0, 0, 0, false, false, false, false, none,
             ⟨false, false, false, false, false, false, false⟩, false⟩ }⟩,
         ⟨1, .occupied { Node.baseDefault with kind := .rigidBody ⟨.dynamic, (0, 0, 0), (0, 0, 0), 0, 0, 0, false, false, false, false, none,
             ⟨false, false, false, false, false, false, false⟩, false⟩ }⟩]).tryBorrow
        (JointData.mk ⟨0, 1⟩ ⟨1, 1⟩ 7 none ⟨false, false, false⟩).body2 = some n2 →
      n1.kind = NodeKind.rigidBody rb1 → n2.kind = NodeKind.rigidBody rb2 →
      (syncJointStep
        (Pool.mk (α := Node ℕ)
          [⟨1, .occupied { Node.baseDefault with kind := .rigidBody ⟨.dynamic, (0, 0, 0), (0, 0, 0), 0, 0, 0, false, false, false, false, none,
               ⟨false, false, false, false, false, false, false⟩, false⟩ }⟩,
           ⟨1, .occupied { Node.baseDefault with kind := .rigidBody ⟨.dynamic, (0, 0, 0), (0, 0, 0), 0, 0, 0, false, false, false, false, none,
               ⟨false, false, false, false, false, false, false⟩, false⟩ }⟩])
        PhysicsWorld.new
        (JointData.mk ⟨0, 1⟩ ⟨1, 1⟩ 7 none ⟨false, false, false⟩)).1.native
          = some PhysicsWorld.new.nextId ∧
      (syncJointStep
        (Pool.mk (α := Node ℕ)
          [⟨1, .occupied { Node.baseDefault with kind := .rigidBody ⟨.dynamic, (0, 0, 0), (0, 0, 0), 0, 0, 0, false, false, false, false, none,
               ⟨false, false, false, false, false, false, false⟩, false⟩ }⟩,
           ⟨1, .occupied { Node.baseDefault with kind := .rigidBody ⟨.dynamic, (0, 0, 0), (0, 0, 0), 0, 0, 0, false, false, false, false, none,
               ⟨false, false, false, false, false, false, false⟩, false⟩ }⟩])
        PhysicsWorld.new
        (JointData.mk ⟨0, 1⟩ ⟨1, 1⟩ 7 none ⟨false, false, false⟩)).2.joints
          = PhysicsWorld.new.joints ++ [(PhysicsWorld.new.nextId,
              ⟨rb1.native, rb2.native,
               (JointData.mk ⟨0, 1⟩ ⟨1, 1⟩ 7 none ⟨false, false, false⟩).params⟩)]) ∧
     True) :=
  ⟨rfl,
   (c5_joint_created_when_nodes_borrow_as_rigid_bodies
      (Pool.mk (α := Node ℕ)
        [⟨1, .occupied { Node.baseDefault with kind := .rigidBody ⟨.dynamic, (0, 0, 0), (0, 0, 0), 0, 0, 0, false, false, false, false, none,
             ⟨false, false, false, false, false, false, false⟩, false⟩ }⟩,
         ⟨1, .occupied { Node.baseDefault with kind := .rigidBody ⟨.dynamic, (0, 0, 0), (0, 0, 0), 0, 0, 0, false, false, false, false, none,
             ⟨false, false, false, false, false, false, false⟩, false⟩ }⟩])
      PhysicsWorld.new
      (JointData.mk ⟨0, 1⟩ ⟨1, 1⟩ 7 none ⟨false, false, false⟩) rfl).1, trivial⟩

/-- C5 counterexample: a joint whose two referenced rigid-body nodes carry
NO live backing native bodies (their `native` fields are absent and the
simulation's body container is empty) still gets a native joint created by
the sync pass. -/
theorem c5_joint_created_without_live_backing_bodies :
    (syncJointStep
      (Pool.mk (α := Node ℕ)
        [⟨1, .occupied { Node.baseDefault with kind := .rigidBody ⟨.dynamic, (0, 0, 0), (0, 0, 0), 0, 0, 0, false, false, false, false, none,
             ⟨false, false, false, false, false, false, false⟩, false⟩ }⟩,
         ⟨1, .occupied { Node.baseDefault with kind := .rigidBody ⟨.dynamic, (0, 0, 0), (0, 0, 0), 0, 0, 0, false, false, false, false, none,
             ⟨false, false, false, false, false, false, false⟩, false⟩ }⟩])
      PhysicsWorld.new
      (JointData.mk ⟨0, 1⟩ ⟨1, 1⟩ 7 none ⟨false, false, false⟩)).1.native = some 0 ∧
    (syncJointStep
      (Pool.mk (α := Node ℕ)
        [⟨1, .occupied { Node.baseDefault with kind := .rigidBody ⟨.dynamic, (0, 0, 0), (0, 0, 0), 0, 0, 0, false, false, false, false, none,
             ⟨false, false, false, false, false, false, false⟩, false⟩ }⟩,
         ⟨1, .occupied { Node.baseDefault with kind := .rigidBody ⟨.dynamic, (0, 0, 0), (0, 0, 0), 0, 0, 0, false, false, false, false, none,
             ⟨false, false, false, false, false, false, false⟩, false⟩ }⟩])
      PhysicsWorld.new
      (JointData.mk ⟨0, 1⟩ ⟨1, 1⟩ 7 none ⟨false, false, false⟩)).2.joints
        = [(0, ⟨none, none, 7⟩)] ∧
    PhysicsWorld.new.bodies = [] :=
  ⟨rfl, rfl, rfl⟩

theorem graph_mem_removeFirst {y c : Handle} : ∀ {l : List Handle}, y ∈ l → y ≠ c →
    y ∈ Graph.removeFirst l c := by
  intro l
  induction l with
  | nil => intro h _; exact absurd h (List.not_mem_nil y)
  | cons x rest ih =>
    intro hy hne
    unfold Graph.removeFirst
    by_cases hx : x = c
    · rw [if_pos hx]
      rcases List.mem_cons.mp hy with he | hm
      · exact absurd (he.trans hx) hne
      · exact hm
    · rw [if_neg hx]
      rcases List.mem_cons.mp hy with he | hm
      · rw [he]; exact List.mem_cons_self x _
      · exact List.mem_cons_of_mem x (ih hm hne)

theorem pool_spawn_ne_none {α : Type} (p : Pool α) (v : α) :
    (p.spawn v).1 ≠ Handle.NONE := by
  rcases pool_spawn_cases p v with ⟨i, g, hslot, hil, hsp⟩ | hsp <;> rw [hsp] <;>
    intro he <;> (have hg := congrArg Handle.generation he; simp [Handle.NONE] at hg)

theorem graph_parentOf_inv {M : Type} {g : Graph M} {h p : Handle}
    (hp : g.parentOf h = some p) : ∃ n, g.tryGet h = some n ∧ n.parent = p := by
  unfold Graph.parentOf at hp
  cases hn : g.tryGet h with
  | none => rw [hn] at hp; simp at hp
  | some n =>
    rw [hn] at hp
    exact ⟨n, rfl, by simpa using hp⟩

theorem graph_parentIter_succ {M : Type} {g : Graph M} {h : Handle} {n : Node M} (k : Nat)
    (hn : g.tryGet h = some n) : g.parentIter (k + 1) h = g.parentIter k n.parent := by
  conv_lhs => unfold Graph.parentIter
  rw [hn]

/-- Effect of re-linking a list of carried children under a fixed parent
(the final `for child in children { self.link_nodes(child, handle) }` loop
of `add_node`). -/
theorem graph_linkChildren_spec {M : Type} (pr : Handle) :
    ∀ (cs : List Handle) (g : Graph M),
      g.tryGet Handle.NONE = none →
      (g.tryGet pr).isSome = true →
      pr ∉ cs →
      (∀ c ∈ cs, (g.tryGet c).isSome = true) →
      (∀ c ∈ cs, ∀ cn, g.tryGet c = some cn →
          cn.parent = Handle.NONE ∨ (g.tryGet cn.parent).isSome = true) →
      ∃ g', cs.foldlM (fun acc child => acc.linkNodes child pr) g = some g' ∧
        g'.root = g.root ∧
        (∀ x, (g'.tryGet x).isSome = (g.tryGet x).isSome) ∧
        (∀ x, g'.parentOf x = if x ∈ cs then some pr else g.parentOf x) ∧
        (∀ c ∈ cs, c ∈ g'.childrenOfD pr) ∧
        (∀ x y, y ∉ cs → y ∈ g.childrenOfD x → y ∈ g'.childrenOfD x) := by
  intro cs
  induction cs with
  | nil =>
    intro g hNone hpr hft halive hpok
    refine ⟨g, rfl, rfl, fun x => rfl, ?_, ?_, ?_⟩
    · intro x
      rw [if_neg (List.not_mem_nil x)]
    · intro c hc
      exact absurd hc (List.not_mem_nil c)
    · intro x y _ hy
      exact hy
  | cons c rest ih =>
    intro g hNone hpr hft halive hpok
    have hcal := halive c (List.mem_cons_self c rest)
    obtain ⟨cn, hcn⟩ := Option.isSome_iff_exists.mp hcal
    have hcpok := hpok c (List.mem_cons_self c rest) cn hcn
    have hlk : (g.linkNodes c pr).isSome = true :=
      graph_linkNodes_isSome hNone hcn hcpok hpr
    obtain ⟨g₁, hg1⟩ := Option.isSome_iff_exists.mp hlk
    obtain ⟨lroot, -, -, -, -, -, lalive, lparent, lchildren, -, -, -⟩ :=
      graph_linkNodes_spec hNone hcn hg1
    have hNone1 : g₁.tryGet Handle.NONE = none := by
      have h1 := lalive Handle.NONE
      rw [hNone] at h1
      cases hx : g₁.tryGet Handle.NONE with
      | none => rfl
      | some q => rw [hx] at h1; exact Bool.noConfusion h1
    have hpr1 : (g₁.tryGet pr).isSome = true := by
      rw [lalive pr]
      exact hpr
    have hft1 : pr ∉ rest := fun hm => hft (List.mem_cons_of_mem c hm)
    have halive1 : ∀ x ∈ rest, (g₁.tryGet x).isSome = true := by
      intro x hx
      rw [lalive x]
      exact halive x (List.mem_cons_of_mem c hx)
    have hpok1 : ∀ x ∈ rest, ∀ xn, g₁.tryGet x = some xn →
        xn.parent = Handle.NONE ∨ (g₁.tryGet xn.parent).isSome = true := by
      intro x hx xn hxn
      have hpx := lparent x
      rw [graph_parentOf_eq hxn] at hpx
      by_cases hxc : x = c
      · rw [if_pos hxc] at hpx
        right
        rw [Option.some_inj.mp hpx]
        exact hpr1
      · rw [if_neg hxc] at hpx
        obtain ⟨xn0, hxn0⟩ :=
          Option.isSome_iff_exists.mp (halive x (List.mem_cons_of_mem c hx))
        rw [graph_parentOf_eq hxn0] at hpx
        have hpe : xn.parent = xn0.parent := Option.some_inj.mp hpx
        rcases hpok x (List.mem_cons_of_mem c hx) xn0 hxn0 with hno | hal
        · left
          rw [hpe, hno]
        · right
          rw [hpe, lalive]
          exact hal
    obtain ⟨g', hfold, froot, falive, fparent, fmem, fpres⟩ :=
      ih g₁ hNone1 hpr1 hft1 halive1 hpok1
    refine ⟨g', ?_, ?_, ?_, ?_, ?_, ?_⟩
    · rw [List.foldlM_cons, hg1]
      simp only [Option.bind_eq_bind, Option.some_bind]
      exact hfold
    · rw [froot, lroot]
    · intro x
      rw [falive x, lalive x]
    · intro x
      rw [fparent x]
      by_cases hxr : x ∈ rest
      · rw [if_pos hxr, if_pos (List.mem_cons_of_mem c hxr)]
      · rw [if_neg hxr, lparent x]
        by_cases hxc : x = c
        · rw [if_pos hxc, if_pos (by rw [hxc]; exact List.mem_cons_self c rest)]
        · rw [if_neg hxc,
            if_neg (fun hx => (List.mem_cons.mp hx).elim hxc hxr)]
    · intro d hdm
      rcases List.mem_cons.mp hdm with he | hm
      · subst he
        by_cases hdr : d ∈ rest
        · exact fmem d hdr
        · apply fpres pr d hdr
          have hch := lchildren pr
          rw [if_pos rfl] at hch
          rw [hch]
          exact List.mem_append_right _ (List.mem_singleton.mpr rfl)
      · exact fmem d hm
    · intro x y hyn hy
      have hyc : y ≠ c := fun e => hyn (by rw [e]; exact List.mem_cons_self c rest)
      have hyr : y ∉ rest := fun hm => hyn (List.mem_cons_of_mem c hm)
      apply fpres x y hyr
      rw [lchildren x]
      by_cases hxp : x = pr
      · subst hxp
        rw [if_pos rfl]
        apply List.mem_append_left
        by_cases hpc : x = cn.parent
        · rw [if_pos hpc]
          exact graph_mem_removeFirst hy hyc
        · rw [if_neg hpc]
          exact hy
      · rw [if_neg hxp]
        by_cases hxc : x = cn.parent
        · rw [if_pos hxc]
          exact graph_mem_removeFirst hy hyc
        · rw [if_neg hxc]
          exact hy

/-- C6: `add_node` succeeds on a graph satisfying the tree invariant (with
the incoming node's parent handle absent-or-alive and its carried children
alive); the new node ends up linked under root, every carried child ends up
re-linked under the new node, and the new node and all carried children are
reachable from the root handle. -/
theorem c6_add_node_links_under_root_and_relinks_children {M : Type} [Monoid M]
    {g : Graph M} {node : Node M}
    (hinv : g.Invariant)
    (hpar : node.parent = Handle.NONE ∨ (g.tryGet node.parent).isSome = true)
    (hch : ∀ c ∈ node.children, (g.tryGet c).isSome = true) :
    ∃ hnd g', g.addNode node = some (hnd, g') ∧
      g'.root = g.root ∧
      g'.parentOf hnd = some g.root ∧
      hnd ∈ g'.childrenOfD g.root ∧
      (∀ c ∈ node.children, g'.parentOf c = some hnd ∧ c ∈ g'.childrenOfD hnd) ∧
      g'.Reaches hnd ∧
      (∀ c ∈ node.children, g'.Reaches c) := by
  have hNone := inv_none_dead hinv
  have hrootal := inv_root_alive hinv
  have hrootne := inv_root_ne_none hinv
  -- the spawn step
  set pr := (g.pool.spawn { node with children := [] }).1 with hpr_def
  set g₀ : Graph M := { g with pool := (g.pool.spawn { node with children := [] }).2 }
    with hg0_def
  have hfresh : g.tryGet pr = none := pool_spawn_fresh g.pool _
  have hself0 : g₀.tryGet pr = some { node with children := [] } :=
    pool_spawn_tryBorrow_self g.pool _
  have hother0 : ∀ x, x ≠ pr → g₀.tryGet x = g.tryGet x := fun x hx =>
    pool_spawn_tryBorrow_other g.pool _ x hx
  have hprne : pr ≠ Handle.NONE := pool_spawn_ne_none g.pool _
  have hNone0 : g₀.tryGet Handle.NONE = none := by
    rw [hother0 Handle.NONE (fun e => hprne e.symm)]
    exact hNone
  have hrootpr : g.root ≠ pr := by
    intro e
    rw [e, hfresh] at hrootal
    exact Bool.noConfusion hrootal
  have hroot0 : (g₀.tryGet g.root).isSome = true := by
    rw [hother0 g.root hrootpr]
    exact hrootal
  -- the link-under-root step
  have hpar0 : ({ node with children := ([] : List Handle) } : Node M).parent = Handle.NONE ∨
      (g₀.tryGet ({ node with children := ([] : List Handle) } : Node M).parent).isSome
        = true := by
    rcases hpar with hno | hal
    · left
      exact hno
    · right
      have hne : node.parent ≠ pr := by
        intro e
        rw [e, hfresh] at hal
        exact Bool.noConfusion hal
      rw [hother0 node.parent hne]
      exact hal
  have hlk : (g₀.linkNodes pr g.root).isSome = true :=
    graph_linkNodes_isSome hNone0 hself0 hpar0 hroot0
  obtain ⟨g₁, hg1⟩ := Option.isSome_iff_exists.mp hlk
  obtain ⟨lroot, -, -, -, -, -, lalive, lparent, lchildren, -, -, -⟩ :=
    graph_linkNodes_spec hNone0 hself0 hg1
  -- hypotheses of the child-relinking fold
  have hNone1 : g₁.tryGet Handle.NONE = none := by
    have h1 := lalive Handle.NONE
    rw [hNone0] at h1
    cases hx : g₁.tryGet Handle.NONE with
    | none => rfl
    | some q => rw [hx] at h1; exact Bool.noConfusion h1
  have hpr1 : (g₁.tryGet pr).isSome = true := by
    rw [lalive pr, hself0]
    rfl
  have hft : pr ∉ node.children := by
    intro hm
    have := hch pr hm
    rw [hfresh] at this
    exact Bool.noConfusion this
  have halive1 : ∀ c ∈ node.children, (g₁.tryGet c).isSome = true := by
    intro c hc
    have hcpr : c ≠ pr := by
      intro e
      have := hch c hc
      rw [e, hfresh] at this
      exact Bool.noConfusion this
    rw [lalive c, hother0 c hcpr]
    exact hch c hc
  have hpok1 : ∀ c ∈ node.children, ∀ cn, g₁.tryGet c = some cn →
      cn.parent = Handle.NONE ∨ (g₁.tryGet cn.parent).isSome = true := by
    intro c hc cn hcn
    have hcpr : c ≠ pr := by
      intro e
      have := hch c hc
      rw [e, hfresh] at this
      exact Bool.noConfusion this
    have hpx := lparent c
    rw [graph_parentOf_eq hcn, if_neg hcpr] at hpx
    obtain ⟨cn0, hcn0⟩ := Option.isSome_iff_exists.mp (hch c hc)
    have hcn0' : g₀.tryGet c = some cn0 := by
      rw [hother0 c hcpr]
      exact hcn0
    rw [graph_parentOf_eq hcn0'] at hpx
    have hpe : cn.parent = cn0.parent := Option.some_inj.mp hpx
    rcases inv_parents_ok hinv c cn0 hcn0 with hno | hal
    · left
      rw [hpe, hno]
    · right
      have hpne : cn0.parent ≠ pr := by
        intro e
        rw [e, hfresh] at hal
        exact Bool.noConfusion hal
      rw [hpe, lalive, hother0 cn0.parent hpne]
      exact hal
  obtain ⟨g₂, hfold, froot, falive, fparent, fmem, fpres⟩ :=
    graph_linkChildren_spec pr node.children g₁ hNone1 hpr1 hft halive1 hpok1
  refine ⟨pr, g₂, ?_, ?_, ?_, ?_, ?_, ?_, ?_⟩
  · unfold Graph.addNode
    simp only []
    rw [if_neg hrootne, hg1]
    simp only [Option.bind_eq_bind, Option.some_bind]
    rw [hfold]
    simp only [Option.some_bind]
    rfl
  · rw [froot, lroot]
  · rw [fparent pr, if_neg hft, lparent pr, if_pos rfl]
  · apply fpres g.root pr hft
    rw [lchildren g.root, if_pos rfl]
    exact List.mem_append_right _ (List.mem_singleton.mpr rfl)
  · intro c hc
    exact ⟨by rw [fparent c, if_pos hc], fmem c hc⟩
  · have hp2 : g₂.parentOf pr = some g.root := by
      rw [fparent pr, if_neg hft, lparent pr, if_pos rfl]
    obtain ⟨n, hn, hnp⟩ := graph_parentOf_inv hp2
    refine ⟨1, ?_⟩
    rw [graph_parentIter_succ 0 hn, hnp]
    show some g.root = some g₂.root
    rw [froot, lroot]
  · intro c hc
    have hpc : g₂.parentOf c = some pr := by
      rw [fparent c, if_pos hc]
    obtain ⟨cn2, hcn2, hcp⟩ := graph_parentOf_inv hpc
    have hp2 : g₂.parentOf pr = some g.root := by
      rw [fparent pr, if_neg hft, lparent pr, if_pos rfl]
    obtain ⟨n, hn, hnp⟩ := graph_parentOf_inv hp2
    refine ⟨2, ?_⟩
    rw [graph_parentIter_succ 1 hcn2, hcp, graph_parentIter_succ 0 hn, hnp]
    show some g.root = some g₂.root
    rw [froot, lroot]

/-- Witness for C6 at the fresh graph and a default base node. -/
theorem c6_add_node_links_under_root_and_relinks_children_witness :
    (Graph.new : Graph ℕ).Invariant ∧
      ((Node.baseDefault : Node ℕ).parent = Handle.NONE ∨
        ((Graph.new : Graph ℕ).tryGet (Node.baseDefault : Node ℕ).parent).isSome = true) ∧
      (∃ hnd g', (Graph.new : Graph ℕ).addNode Node.baseDefault = some (hnd, g') ∧
        g'.root = (Graph.new : Graph ℕ).root ∧
        g'.parentOf hnd = some (Graph.new : Graph ℕ).root ∧
        hnd ∈ g'.childrenOfD (Graph.new : Graph ℕ).root ∧
        (∀ c ∈ (Node.baseDefault : Node ℕ).children,
          g'.parentOf c = some hnd ∧ c ∈ g'.childrenOfD hnd) ∧
        g'.Reaches hnd ∧
        (∀ c ∈ (Node.baseDefault : Node ℕ).children, g'.Reaches c)) :=
  ⟨by decide, Or.inl rfl,
    c6_add_node_links_under_root_and_relinks_children (by decide) (Or.inl rfl)
      (fun c hc => absurd hc (List.not_mem_nil c))⟩

theorem graph_parentIter_succ_dead {M : Type} {g : Graph M} {h : Handle} (k : Nat)
    (hn : g.tryGet h = none) : g.parentIter (k + 1) h = none := by
  conv_lhs => unfold Graph.parentIter
  rw [hn]

theorem graph_parentIter_isSome_alive {M : Type} {g : Graph M} {k : Nat} {h y : Handle}
    (hp : g.parentIter (k + 1) h = some y) : (g.tryGet h).isSome = true := by
  cases hn : g.tryGet h with
  | none =>
    rw [graph_parentIter_succ_dead k hn] at hp
    exact Option.noConfusion hp
  | some n => rfl

theorem graph_parentIter_add {M : Type} (g : Graph M) (a b : Nat) (h : Handle) :
    g.parentIter (a + b) h = (g.parentIter a h).bind fun y => g.parentIter b y := by
  induction a generalizing h with
  | zero =>
    rw [Nat.zero_add]
    rfl
  | succ a ih =>
    rw [Nat.succ_add]
    cases hn : g.tryGet h with
    | none =>
      rw [graph_parentIter_succ_dead (a + b) hn, graph_parentIter_succ_dead a hn]
      rfl
    | some n =>
      rw [graph_parentIter_succ (a + b) hn, graph_parentIter_succ a hn]
      exact ih n.parent

theorem graph_root_chain_unique {M : Type} {g : Graph M} (hinv : g.Invariant)
    {h : Handle} {i j : Nat}
    (hi : g.parentIter i h = some g.root) (hj : g.parentIter j h = some g.root) : i = j := by
  have key : ∀ {i j : Nat}, i < j → g.parentIter i h = some g.root →
      g.parentIter j h = some g.root → False := by
    intro i j hlt hi hj
    have hd : j = i + (j - i) := by omega
    rw [hd, graph_parentIter_add, hi] at hj
    simp only [Option.some_bind] at hj
    obtain ⟨m, hm⟩ : ∃ m, j - i = m + 1 := ⟨j - i - 1, by omega⟩
    rw [hm] at hj
    obtain ⟨rn, hrn⟩ := Option.isSome_iff_exists.mp (inv_root_alive hinv)
    rw [graph_parentIter_succ m hrn] at hj
    have hrp : rn.parent = Handle.NONE := by
      have hq := inv_root_parent hinv
      rw [graph_parentOf_eq hrn] at hq
      exact Option.some_inj.mp hq
    rw [hrp] at hj
    cases m with
    | zero => exact inv_root_ne_none hinv (Option.some_inj.mp hj).symm
    | succ m =>
      rw [graph_parentIter_succ_dead m (inv_none_dead hinv)] at hj
      exact Option.noConfusion hj
  rcases Nat.lt_trichotomy i j with hlt | heq | hgt
  · exact absurd (key hlt hi hj) not_false
  · exact heq
  · exact absurd (key hgt hj hi) not_false

theorem graph_desc_trans {M : Type} {g : Graph M} {a b c : Handle}
    (hab : g.Desc a b) (hbc : g.Desc b c) : g.Desc a c := by
  induction hbc with
  | refl => exact hab
  | child _ hm ih => exact Graph.Desc.child ih hm

theorem graph_desc_chain {M : Type} {g : Graph M} (hinv : g.Invariant) {a x : Handle}
    (hd : g.Desc a x) : ∃ m, g.parentIter m x = some a := by
  induction hd with
  | refl => exact ⟨0, rfl⟩
  | @child b c hdb hm ih =>
    obtain ⟨m, hm'⟩ := ih
    have hbal : (g.tryGet b).isSome = true := by
      cases hb : g.tryGet b with
      | none =>
        rw [graph_childrenOfD_dead hb] at hm
        exact absurd hm (List.not_mem_nil c)
      | some q => rfl
    have hmem : b ∈ g.pool.aliveList := (graph_mem_aliveList g b).mpr hbal
    have hpc : g.parentOf c = some b := hinv.2.2.2.2.1 b hmem c hm
    obtain ⟨cn, hcn, hcp⟩ := graph_parentOf_inv hpc
    refine ⟨m + 1, ?_⟩
    rw [graph_parentIter_succ m hcn, hcp]
    exact hm'

theorem graph_chain_desc {M : Type} {g : Graph M} (hinv : g.Invariant) :
    ∀ (k : Nat) (x : Handle), (g.tryGet x).isSome = true →
      g.parentIter k x = some g.root → g.Desc g.root x := by
  intro k
  induction k with
  | zero =>
    intro x _ hp
    have he : x = g.root := Option.some_inj.mp hp
    subst he
    exact Graph.Desc.refl _
  | succ k ih =>
    intro x hal hp
    obtain ⟨n, hn⟩ := Option.isSome_iff_exists.mp hal
    rw [graph_parentIter_succ k hn] at hp
    by_cases hxr : x = g.root
    · subst hxr
      exact Graph.Desc.refl _
    · obtain ⟨pn, hpn, hcount⟩ := inv_parent_spec hinv hn hxr
      have hpal : (g.tryGet n.parent).isSome = true := by
        rw [hpn]
        rfl
      have hdp : g.Desc g.root n.parent := ih n.parent hpal hp
      refine Graph.Desc.child hdp ?_
      rw [graph_childrenOfD_eq hpn]
      have hpos : 0 < pn.children.count x := by
        rw [hcount]
        exact Nat.zero_lt_one
      exact List.count_pos_iff.mp hpos

theorem inv_children_nodup {M : Type} {g : Graph M} (hinv : g.Invariant) (p : Handle) :
    (g.childrenOfD p).Nodup := by
  rw [List.nodup_iff_count_le_one]
  intro a
  by_cases ha : a ∈ g.childrenOfD p
  · cases hp : g.tryGet p with
    | none =>
      rw [graph_childrenOfD_dead hp] at ha
      exact absurd ha (List.not_mem_nil a)
    | some pn =>
      have hmem : p ∈ g.pool.aliveList := (graph_mem_aliveList g p).mpr (by rw [hp]; rfl)
      have hpa : g.parentOf a = some p := hinv.2.2.2.2.1 p hmem a ha
      obtain ⟨an, han, hap⟩ := graph_parentOf_inv hpa
      have haroot : a ≠ g.root := by
        intro he
        have hrp := inv_root_parent hinv
        rw [← he, graph_parentOf_eq han, hap] at hrp
        have hpe : p = Handle.NONE := Option.some_inj.mp hrp
        rw [hpe, inv_none_dead hinv] at hp
        exact Option.noConfusion hp
      obtain ⟨pn', hpn', hcount⟩ := inv_parent_spec hinv han haroot
      rw [hap, hp] at hpn'
      have hpe : pn' = pn := (Option.some_inj.mp hpn').symm
      rw [graph_childrenOfD_eq hp, ← hpe, hcount]
  · rw [List.count_eq_zero_of_not_mem ha]
    exact Nat.zero_le 1

theorem graph_chain_through {M : Type} {g : Graph M} (hinv : g.Invariant)
    {x a : Handle} {m i j : Nat}
    (hm : g.parentIter m x = some a) (hi : g.parentIter i x = some g.root)
    (hj : g.parentIter j a = some g.root) : i = m + j := by
  have hc : g.parentIter (m + j) x = some g.root := by
    rw [graph_parentIter_add, hm]
    simpa using hj
  exact graph_root_chain_unique hinv hi hc

theorem graph_desc_same_depth_eq {M : Type} {g : Graph M} (hinv : g.Invariant)
    {a b x : Handle} {j : Nat}
    (hda : g.Desc a x) (hdb : g.Desc b x)
    (ha : g.parentIter j a = some g.root) (hb : g.parentIter j b = some g.root) : a = b := by
  obtain ⟨ma, hma⟩ := graph_desc_chain hinv hda
  obtain ⟨mb, hmb⟩ := graph_desc_chain hinv hdb
  have hxa : g.parentIter (ma + j) x = some g.root := by
    rw [graph_parentIter_add, hma]
    simpa using ha
  have heq : ma + j = mb + j :=
    graph_chain_through hinv hmb hxa hb
  have hmm : ma = mb := by omega
  rw [hmm] at hma
  exact Option.some_inj.mp (hma.symm.trans hmb)

theorem graph_desc_strict_parent {M : Type} {g : Graph M} (hinv : g.Invariant) {h x : Handle}
    (hd : g.Desc h x) (hne : x ≠ h) :
    (∃ c ∈ g.childrenOfD h, g.Desc c x) ∧ ∃ b, g.Desc h b ∧ g.parentOf x = some b := by
  induction hd with
  | refl => exact absurd rfl hne
  | @child b c hdb hm ih =>
    have hbal : (g.tryGet b).isSome = true := by
      cases hb : g.tryGet b with
      | none =>
        rw [graph_childrenOfD_dead hb] at hm
        exact absurd hm (List.not_mem_nil c)
      | some q => rfl
    obtain ⟨bn, hbn⟩ := Option.isSome_iff_exists.mp hbal
    constructor
    · by_cases hbh : b = h
      · subst hbh
        exact ⟨c, hm, Graph.Desc.refl c⟩
      · obtain ⟨⟨c0, hc0, hdc0⟩, -⟩ := ih (fun e => hbh e)
        exact ⟨c0, hc0, Graph.Desc.child hdc0 hm⟩
    · refine ⟨b, hdb, ?_⟩
      have hmem : b ∈ g.pool.aliveList := (graph_mem_aliveList g b).mpr hbal
      exact hinv.2.2.2.2.1 b hmem c hm

theorem graph_updateRecList_cons {M : Type} [Monoid M] (fuel : Nat) (g : Graph M)
    (h : Handle) (rest : List Handle) {n : Node M} (hn : g.tryGet h = some n) :
    Graph.updateRecList (fuel + 1) g (h :: rest) =
      (g.setNode h { n with
          globalTransform :=
            ((g.tryGet n.parent).map fun p => p.globalTransform).getD 1 * n.localMatrix
          globalVisibility :=
            (((g.tryGet n.parent).map fun p => p.globalVisibility).getD true)
              && n.visibility }).bind fun g1 =>
        (Graph.updateRecList fuel g1 n.children).bind fun g2 =>
          Graph.updateRecList (fuel + 1) g2 rest := by
  conv_lhs => unfold Graph.updateRecList
  rw [hn]
  simp only [Option.bind_eq_bind, Option.some_bind]
  cases hpn : g.tryGet n.parent <;> rfl

theorem graph_updateRecList_nil {M : Type} [Monoid M] (fuel : Nat) (g : Graph M) :
    Graph.updateRecList fuel g [] = some g := by
  cases fuel <;> (unfold Graph.updateRecList; rfl)

theorem graph_updateRecList_spec {M : Type} [Monoid M] {g₀ : Graph M} (hinv : g₀.Invariant) :
    ∀ (fuel : Nat) (ws : List Handle) (g : Graph M),
      g.StructAgrees g₀ →
      ws.Nodup →
      (∀ h ∈ ws, (g₀.tryGet h).isSome = true ∧
        ∃ k, g₀.parentIter k h = some g₀.root ∧ k + fuel = g₀.pool.len + 1) →
      ∃ g', Graph.updateRecList fuel g ws = some g' ∧
        g'.StructAgrees g₀ ∧
        (∀ x, (∀ h ∈ ws, ¬ g₀.Desc h x) → g'.tryGet x = g.tryGet x) ∧
        (∀ h ∈ ws, ∀ x, g₀.Desc h x → g'.CacheOK x) := by
  intro fuel
  induction fuel with
  | zero =>
    intro ws g hSA hnd hws
    cases ws with
    | nil =>
      exact ⟨g, graph_updateRecList_nil 0 g, hSA, fun x _ => rfl,
        fun h hh => absurd hh (List.not_mem_nil h)⟩
    | cons h rest =>
      exfalso
      obtain ⟨hal, k, hk, hk0⟩ := hws h (List.mem_cons_self h rest)
      obtain ⟨k', hk'le, hk'⟩ := inv_reach hinv hal
      have := graph_root_chain_unique hinv hk hk'
      omega
  | succ f ihf =>
    intro ws
    induction ws with
    | nil =>
      intro g hSA hnd hws
      exact ⟨g, graph_updateRecList_nil (f + 1) g, hSA, fun x _ => rfl,
        fun h hh => absurd hh (List.not_mem_nil h)⟩
    | cons h rest ihws =>
      intro g hSA hnd hws
      obtain ⟨hal0, k, hkchain, hkf⟩ := hws h (List.mem_cons_self h rest)
      have hal : (g.tryGet h).isSome = true := by
        rw [hSA.2.1 h]
        exact hal0
      obtain ⟨n, hn⟩ := Option.isSome_iff_exists.mp hal
      obtain ⟨n₀, hn0, hpar_e, hch_e, hlm_e, hvis_e⟩ := hSA.2.2 h n hn
      -- the node value written by the visit
      set nv : Node M := { n with
          globalTransform :=
            ((g.tryGet n.parent).map fun p => p.globalTransform).getD 1 * n.localMatrix
          globalVisibility :=
            (((g.tryGet n.parent).map fun p => p.globalVisibility).getD true)
              && n.visibility } with hnv
      have hset : (g.setNode h nv).isSome = true := by
        rw [graph_setNode_isSome]
        exact hal
      obtain ⟨g_a, hga⟩ := Option.isSome_iff_exists.mp hset
      obtain ⟨atry, aroot, -, -, -⟩ := graph_setNode_eq_some hga
      have hSA_a : g_a.StructAgrees g₀ := by
        refine ⟨aroot.trans hSA.1, ?_, ?_⟩
        · intro x
          rw [atry x]
          by_cases hx : x = h
          · rw [if_pos hx, hx]
            simp only [Option.isSome_some]
            exact hal0.symm
          · rw [if_neg hx]
            exact hSA.2.1 x
        · intro x m hm
          rw [atry x] at hm
          by_cases hx : x = h
          · rw [if_pos hx] at hm
            have hme : m = nv := (Option.some_inj.mp hm).symm
            subst hme
            subst hx
            exact ⟨n₀, hn0, hpar_e, hch_e, hlm_e, hvis_e⟩
          · rw [if_neg hx] at hm
            exact hSA.2.2 x m hm
      -- the children worklist
      have hch0 : n.children = g₀.childrenOfD h := by
        rw [graph_childrenOfD_eq hn0]
        exact hch_e
      have hnd_ch : (n.children).Nodup := by
        rw [hch0]
        exact inv_children_nodup hinv h
      have hmem0 : h ∈ g₀.pool.aliveList := (graph_mem_aliveList g₀ h).mpr hal0
      have hchain_c : ∀ c ∈ g₀.childrenOfD h, g₀.parentIter (k + 1) c = some g₀.root := by
        intro c hcd
        have hpc : g₀.parentOf c = some h := hinv.2.2.2.2.1 h hmem0 c hcd
        obtain ⟨cn, hcn, hcp⟩ := graph_parentOf_inv hpc
        rw [graph_parentIter_succ k hcn, hcp]
        exact hkchain
      have hws_ch : ∀ c ∈ n.children, (g₀.tryGet c).isSome = true ∧
          ∃ kc, g₀.parentIter kc c = some g₀.root ∧ kc + f = g₀.pool.len + 1 := by
        intro c hc
        have hcd : c ∈ g₀.childrenOfD h := by
          rw [← hch0]
          exact hc
        have hpc : g₀.parentOf c = some h := hinv.2.2.2.2.1 h hmem0 c hcd
        obtain ⟨cn, hcn, hcp⟩ := graph_parentOf_inv hpc
        exact ⟨by rw [hcn]; rfl, k + 1, hchain_c c hcd, by omega⟩
      obtain ⟨g_b, hgb, hSA_b, hframe_b, hcache_b⟩ := ihf n.children g_a hSA_a hnd_ch hws_ch
      -- the remaining siblings
      have hnotr : h ∉ rest := (List.nodup_cons.mp hnd).1
      have hnd_r : rest.Nodup := (List.nodup_cons.mp hnd).2
      have hws_r : ∀ hy ∈ rest, (g₀.tryGet hy).isSome = true ∧
          ∃ kc, g₀.parentIter kc hy = some g₀.root ∧ kc + (f + 1) = g₀.pool.len + 1 :=
        fun hy hm => hws hy (List.mem_cons_of_mem h hm)
      obtain ⟨g_f, hgf, hSA_f, hframe_f, hcache_f⟩ := ihws g_b hSA_b hnd_r hws_r
      -- every remaining sibling has the same chain length `k` as `h`
      have hsame : ∀ hy ∈ rest, g₀.parentIter k hy = some g₀.root := by
        intro hy hm
        obtain ⟨-, kc, hkc, hkfc⟩ := hws hy (List.mem_cons_of_mem h hm)
        have he : kc = k := by omega
        rw [← he]
        exact hkc
      -- nothing below `h` lies below a remaining sibling
      have hnodesc : ∀ hy ∈ rest, ∀ z, g₀.Desc h z → ¬ g₀.Desc hy z := by
        intro hy hm z hdz hdz'
        apply hnotr
        rw [← graph_desc_same_depth_eq hinv hdz' hdz (hsame hy hm) hkchain]
        exact hm
      -- children of `h` do not contain `h` itself in their subtrees
      have hnoself : ∀ c ∈ n.children, ¬ g₀.Desc c h := by
        intro c hc hdch
        have hcd : c ∈ g₀.childrenOfD h := by
          rw [← hch0]
          exact hc
        obtain ⟨mc, hmc⟩ := graph_desc_chain hinv hdch
        have := graph_chain_through hinv hmc hkchain (hchain_c c hcd)
        omega
      refine ⟨g_f, ?_, hSA_f, ?_, ?_⟩
      · rw [graph_updateRecList_cons f g h rest hn, ← hnv, hga]
        simp only [Option.some_bind]
        rw [hgb]
        simp only [Option.some_bind]
        exact hgf
      · intro x hx
        have hxh : ¬ g₀.Desc h x := hx h (List.mem_cons_self h rest)
        have h1 : g_f.tryGet x = g_b.tryGet x :=
          hframe_f x (fun hy hm => hx hy (List.mem_cons_of_mem h hm))
        have h2 : g_b.tryGet x = g_a.tryGet x := by
          apply hframe_b x
          intro c hc hdcx
          apply hxh
          refine graph_desc_trans ?_ hdcx
          refine Graph.Desc.child (Graph.Desc.refl h) ?_
          rw [← hch0]
          exact hc
        have hxne : x ≠ h := by
          intro e
          apply hxh
          rw [e]
          exact Graph.Desc.refl h
        rw [h1, h2, atry x, if_neg hxne]
      · intro hy hm x hdx
        rcases List.mem_cons.mp hm with he | hmr
        case inr => exact hcache_f hy hmr x hdx
        subst he
        by_cases hxh : x = hy
        · -- the visited node itself
          subst hxh
          intro m hm2
          have hxb : g_b.tryGet x = some nv := by
            have hfr : g_b.tryGet x = g_a.tryGet x := hframe_b x hnoself
            rw [hfr, atry x, if_pos rfl]
          have hxf : g_f.tryGet x = some nv := by
            rw [hframe_f x (fun hz hmz => hnodesc hz hmz x hdx), hxb]
          have hme : m = nv := by
            rw [hxf] at hm2
            exact (Option.some_inj.mp hm2).symm
          subst hme
          cases hpg : g.tryGet n.parent with
          | none =>
            have hnone : g_f.tryGet nv.parent = none := by
              have hfalse : (g_f.tryGet nv.parent).isSome = false := by
                rw [hSA_f.2.1, ← hSA.2.1]
                show (g.tryGet n.parent).isSome = false
                rw [hpg]
                rfl
              cases hq : g_f.tryGet nv.parent with
              | none => rfl
              | some q => rw [hq] at hfalse; exact Bool.noConfusion hfalse
            rw [hnone]
            simp only []
            constructor
            · simp [hnv, hpg]
            · simp [hnv, hpg]
          | some pp =>
            -- the parent is live; `x` is therefore not the root
            have hppal : (g₀.tryGet n₀.parent).isSome = true := by
              rw [← hpar_e, ← hSA.2.1, hpg]
              rfl
            have hkpos : k ≠ 0 := by
              intro hk0
              rw [hk0] at hkchain
              have hxr : x = g₀.root := Option.some_inj.mp hkchain
              have hrp := inv_root_parent hinv
              rw [← hxr, graph_parentOf_eq hn0] at hrp
              have hpe : n₀.parent = Handle.NONE := Option.some_inj.mp hrp
              rw [hpe, inv_none_dead hinv] at hppal
              exact Bool.noConfusion hppal
            obtain ⟨kp, hke⟩ : ∃ kp, k = kp + 1 := ⟨k - 1, by omega⟩
            have hpchain : g₀.parentIter kp n₀.parent = some g₀.root := by
              rw [hke, graph_parentIter_succ kp hn0] at hkchain
              exact hkchain
            -- the parent handle is untouched by the whole pass
            have hpfinal : g_f.tryGet nv.parent = some pp := by
              show g_f.tryGet n.parent = some pp
              have h1 : g_f.tryGet n.parent = g_b.tryGet n.parent := by
                apply hframe_f n.parent
                intro hz hmz hdesc
                obtain ⟨mp, hmp⟩ := graph_desc_chain hinv hdesc
                rw [hpar_e] at hmp
                have := graph_chain_through hinv hmp hpchain (hsame hz hmz)
                omega
              have h2 : g_b.tryGet n.parent = g_a.tryGet n.parent := by
                apply hframe_b n.parent
                intro c hc hdesc
                have hcd : c ∈ g₀.childrenOfD x := by
                  rw [← hch0]
                  exact hc
                obtain ⟨mp, hmp⟩ := graph_desc_chain hinv hdesc
                rw [hpar_e] at hmp
                have := graph_chain_through hinv hmp hpchain (hchain_c c hcd)
                omega
              have hph : n.parent ≠ x := by
                intro e
                rw [hpar_e] at e
                rw [e] at hpchain
                have := graph_root_chain_unique hinv hpchain hkchain
                omega
              rw [h1, h2, atry n.parent, if_neg hph]
              exact hpg
            rw [hpfinal]
            simp only []
            constructor
            · simp [hnv, hpg]
            · simp [hnv, hpg]
        · -- a strict descendant of the visited node
          obtain ⟨⟨c, hc_mem, hdcx⟩, b, hdb, hpb⟩ :=
            graph_desc_strict_parent hinv hdx hxh
          have hck : g_b.CacheOK x :=
            hcache_b c (by rw [hch0]; exact hc_mem) x hdcx
          intro m hm2
          have hxe : g_f.tryGet x = g_b.tryGet x :=
            hframe_f x (fun hz hmz => hnodesc hz hmz x hdx)
          have hm3 : g_b.tryGet x = some m := by
            rw [← hxe]
            exact hm2
          have hgoal := hck m hm3
          obtain ⟨m₀, hm0, hmpar, -, -, -⟩ := hSA_b.2.2 x m hm3
          have hbm : b = m₀.parent := by
            rw [graph_parentOf_eq hm0] at hpb
            exact (Option.some_inj.mp hpb).symm
          have hpe : g_f.tryGet m.parent = g_b.tryGet m.parent := by
            apply hframe_f m.parent
            intro hz hmz hdesc
            rw [hmpar, ← hbm] at hdesc
            apply hnotr
            rw [← graph_desc_same_depth_eq hinv hdesc hdb (hsame hz hmz) hkchain]
            exact hmz
          rw [hpe]
          exact hgoal

/-- C2: after `update_hierarchical_data` on a graph satisfying the tree
invariant, every live node's cached global transform equals its (live)
parent's cached global transform times its own local transform matrix, and
its cached global visibility equals the parent's cached global visibility
AND its own visibility flag; a node without a live parent (the root, whose
parent handle is `NONE`) has its local matrix and its own flag as caches.
Occupancy and the root handle are unchanged. -/
theorem c2_update_hierarchical_data_caches {M : Type} [Monoid M] {g : Graph M}
    (hinv : g.Invariant) :
    ∃ g', g.updateHierarchicalData = some g' ∧
      (∀ x n, g'.tryGet x = some n →
        (∃ pn, g'.tryGet n.parent = some pn ∧
          n.globalTransform = pn.globalTransform * n.localMatrix ∧
          n.globalVisibility = (pn.globalVisibility && n.visibility)) ∨
        (g'.tryGet n.parent = none ∧ n.globalTransform = n.localMatrix ∧
          n.globalVisibility = n.visibility)) ∧
      (∀ x, (g'.tryGet x).isSome = (g.tryGet x).isSome) ∧
      g'.root = g.root := by
  have hSA : g.StructAgrees g :=
    ⟨rfl, fun x => rfl, fun x n hn => ⟨n, hn, rfl, rfl, rfl, rfl⟩⟩
  have hws : ∀ h ∈ [g.root], (g.tryGet h).isSome = true ∧
      ∃ k, g.parentIter k h = some g.root ∧ k + (g.pool.len + 1) = g.pool.len + 1 := by
    intro h hm
    rcases List.mem_singleton.mp hm with he
    subst he
    exact ⟨inv_root_alive hinv, 0, rfl, Nat.zero_add _⟩
  obtain ⟨g', hrun, hSA', hframe, hcache⟩ :=
    graph_updateRecList_spec hinv (g.pool.len + 1) [g.root] g hSA
      (List.nodup_singleton g.root) hws
  refine ⟨g', ?_, ?_, hSA'.2.1, hSA'.1⟩
  · unfold Graph.updateHierarchicalData
    exact hrun
  · intro x n hn
    have hal : (g.tryGet x).isSome = true := by
      rw [← hSA'.2.1 x, hn]
      rfl
    obtain ⟨k, -, hk⟩ := inv_reach hinv hal
    have hdx : g.Desc g.root x := graph_chain_desc hinv k x hal hk
    have hck : g'.CacheOK x := hcache g.root (List.mem_singleton.mpr rfl) x hdx
    have hgoal := hck n hn
    cases hpn : g'.tryGet n.parent with
    | some pn =>
      rw [hpn] at hgoal
      exact Or.inl ⟨pn, rfl, hgoal⟩
    | none =>
      rw [hpn] at hgoal
      exact Or.inr ⟨rfl, hgoal⟩

/-- Witness for C2 at the fresh graph. -/
theorem c2_update_hierarchical_data_caches_witness :
    (Graph.new : Graph ℕ).Invariant ∧
      ∃ g', (Graph.new : Graph ℕ).updateHierarchicalData = some g' ∧
        (∀ x n, g'.tryGet x = some n →
          (∃ pn, g'.tryGet n.parent = some pn ∧
            n.globalTransform = pn.globalTransform * n.localMatrix ∧
            n.globalVisibility = (pn.globalVisibility && n.visibility)) ∨
          (g'.tryGet n.parent = none ∧ n.globalTransform = n.localMatrix ∧
            n.globalVisibility = n.visibility)) ∧
        (∀ x, (g'.tryGet x).isSome = ((Graph.new : Graph ℕ).tryGet x).isSome) ∧
        g'.root = (Graph.new : Graph ℕ).root :=
  ⟨by decide, c2_update_hierarchical_data_caches (by decide)⟩

theorem alist_get_cons {β : Type} (e : Nat × β) (rest : AList β) (k : Nat) :
    AList.get (e :: rest) k = if e.1 = k then some e.2 else AList.get rest k := rfl

theorem alist_get_erase {β : Type} : ∀ (l : AList β) (k' k : Nat),
    AList.get (AList.erase l k') k = if k = k' then none else AList.get l k := by
  intro l
  induction l with
  | nil =>
    intro k' k
    simp [AList.erase, AList.get]
  | cons e rest ih =>
    intro k' k
    unfold AList.erase
    by_cases he : e.1 = k' <;> by_cases hek : e.1 = k <;> by_cases hk : k = k' <;>
      simp_all [AList.get, alist_get_cons]

theorem length_filter_le_of {α : Type} (p q : α → Bool)
    (hpq : ∀ x, q x = true → p x = true) :
    ∀ l : List α, (l.filter q).length ≤ (l.filter p).length := by
  intro l
  induction l with
  | nil => exact Nat.le_refl 0
  | cons a t ih =>
    by_cases hq : q a = true
    · rw [List.filter_cons_of_pos hq, List.filter_cons_of_pos (hpq a hq)]
      exact Nat.succ_le_succ ih
    · rw [List.filter_cons_of_neg (by simpa using hq)]
      by_cases hp : p a = true
      · rw [List.filter_cons_of_pos hp]
        exact Nat.le_succ_of_le ih
      · rw [List.filter_cons_of_neg (by simpa using hp)]
        exact ih

theorem length_filter_lt_of {α : Type} (p q : α → Bool)
    (hpq : ∀ x, q x = true → p x = true) (s : α) (hps : p s = true) (hqs : q s = false) :
    ∀ l : List α, s ∈ l → (l.filter q).length < (l.filter p).length := by
  intro l
  induction l with
  | nil => intro hs; exact absurd hs (List.not_mem_nil s)
  | cons a t ih =>
    intro hs
    rcases List.mem_cons.mp hs with he | hm
    · subst he
      rw [List.filter_cons_of_pos hps, List.filter_cons_of_neg (by simp [hqs])]
      exact Nat.lt_succ_of_le (length_filter_le_of p q hpq t)
    · by_cases hq : q a = true
      · rw [List.filter_cons_of_pos hq, List.filter_cons_of_pos (hpq a hq)]
        exact Nat.succ_lt_succ (ih hm)
      · rw [List.filter_cons_of_neg (by simpa using hq)]
        by_cases hp : p a = true
        · rw [List.filter_cons_of_pos hp]
          exact Nat.lt_succ_of_lt (ih hm)
        · rw [List.filter_cons_of_neg (by simpa using hp)]
          exact ih hm

theorem pool_same_index_eq {α : Type} {p : Pool α} {x y : Handle} {vx vy : α}
    (hx : p.tryBorrow x = some vx) (hy : p.tryBorrow y = some vy)
    (hi : x.index = y.index) : x = y := by
  have hx' := (pool_tryBorrow_eq_some p x vx).mp hx
  have hy' := (pool_tryBorrow_eq_some p y vy).mp hy
  rw [hi, hy'] at hx'
  have hg : y.generation = x.generation := congrArg Slot.generation (Option.some_inj.mp hx')
  cases x
  cases y
  simp only at hi hg
  rw [hi, hg]

theorem inv_parent_ne_self {M : Type} {g : Graph M} (hinv : g.Invariant) {h : Handle}
    {n : Node M} (hn : g.tryGet h = some n) : n.parent ≠ h := by
  intro e
  have hk : ∀ k, g.parentIter k h = some h := by
    intro k
    induction k with
    | zero => rfl
    | succ k ih =>
      rw [graph_parentIter_succ k hn, e]
      exact ih
  obtain ⟨k, -, hkr⟩ := inv_reach hinv (by rw [hn]; rfl)
  have hroot : h = g.root := Option.some_inj.mp ((hk k).symm.trans hkr)
  have hrp := inv_root_parent hinv
  rw [← hroot, graph_parentOf_eq hn] at hrp
  have hnone : n.parent = Handle.NONE := Option.some_inj.mp hrp
  rw [e] at hnone
  rw [hnone, inv_none_dead hinv] at hn
  exact Option.noConfusion hn

theorem graph_desc_alive {M : Type} {g : Graph M} (hinv : g.Invariant) {a x : Handle}
    (ha : (g.tryGet a).isSome = true) (hd : g.Desc a x) : (g.tryGet x).isSome = true := by
  induction hd with
  | refl => exact ha
  | @child b c hdb hm ih =>
    have hbal : (g.tryGet b).isSome = true := ih
    have hmem : b ∈ g.pool.aliveList := (graph_mem_aliveList g b).mpr hbal
    have hpc : g.parentOf c = some b := hinv.2.2.2.2.1 b hmem c hm
    obtain ⟨cn, hcn, -⟩ := graph_parentOf_inv hpc
    rw [hcn]
    rfl

theorem graph_chain_desc_general {M : Type} {g : Graph M} (hinv : g.Invariant) {a : Handle}
    (ha : (g.tryGet a).isSome = true) :
    ∀ (m : Nat) (x : Handle), (g.tryGet x).isSome = true →
      g.parentIter m x = some a → g.Desc a x := by
  intro m
  induction m with
  | zero =>
    intro x _ hp
    have he : x = a := Option.some_inj.mp hp
    subst he
    exact Graph.Desc.refl _
  | succ m ih =>
    intro x hal hp
    obtain ⟨n, hn⟩ := Option.isSome_iff_exists.mp hal
    rw [graph_parentIter_succ m hn] at hp
    have hpal : (g.tryGet n.parent).isSome = true := by
      cases m with
      | zero =>
        have he : n.parent = a := Option.some_inj.mp hp
        rw [he]
        exact ha
      | succ m2 => exact graph_parentIter_isSome_alive hp
    have hxr : x ≠ g.root := by
      intro he
      have hrp := inv_root_parent hinv
      rw [← he, graph_parentOf_eq hn] at hrp
      have hq : n.parent = Handle.NONE := Option.some_inj.mp hrp
      rw [hq, inv_none_dead hinv] at hpal
      exact Bool.noConfusion hpal
    obtain ⟨pn, hpn, hcount⟩ := inv_parent_spec hinv hn hxr
    refine Graph.Desc.child (ih n.parent hpal hp) ?_
    rw [graph_childrenOfD_eq hpn]
    exact List.count_pos_iff.mp (by rw [hcount]; exact Nat.zero_lt_one)

theorem graph_desc_total {M : Type} {g : Graph M} (hinv : g.Invariant) {a b x : Handle}
    (ha : (g.tryGet a).isSome = true) (hb : (g.tryGet b).isSome = true)
    (hda : g.Desc a x) (hdb : g.Desc b x) : g.Desc a b ∨ g.Desc b a := by
  obtain ⟨ma, hma⟩ := graph_desc_chain hinv hda
  obtain ⟨mb, hmb⟩ := graph_desc_chain hinv hdb
  rcases Nat.le_total ma mb with hle | hle
  · right
    have hsplit : g.parentIter (ma + (mb - ma)) x = some b := by
      rw [show ma + (mb - ma) = mb by omega]
      exact hmb
    rw [graph_parentIter_add, hma] at hsplit
    simp only [Option.some_bind] at hsplit
    exact graph_chain_desc_general hinv hb (mb - ma) a ha hsplit
  · left
    have hsplit : g.parentIter (mb + (ma - mb)) x = some a := by
      rw [show mb + (ma - mb) = ma by omega]
      exact hma
    rw [graph_parentIter_add, hmb] at hsplit
    simp only [Option.some_bind] at hsplit
    exact graph_chain_desc_general hinv ha (ma - mb) b hb hsplit

theorem graph_descWithin_iff {M : Type} {g : Graph M} (hinv : g.Invariant) {a : Handle}
    (ha : (g.tryGet a).isSome = true) (x : Handle) :
    g.descWithin a x ↔ g.Desc a x := by
  constructor
  · rintro ⟨hal, m, -, hm⟩
    exact graph_chain_desc_general hinv ha m x hal hm
  · intro hd
    obtain ⟨m, hm⟩ := graph_desc_chain hinv hd
    have hal : (g.tryGet x).isSome = true := graph_desc_alive hinv ha hd
    obtain ⟨i, hile, hi⟩ := inv_reach hinv hal
    obtain ⟨j, -, hj⟩ := inv_reach hinv ha
    have := graph_chain_through hinv hm hi hj
    exact ⟨hal, m, List.mem_range.mpr (by omega), hm⟩

theorem graph_physicsOnFree_pool {M : Type} (g : Graph M) (n : Node M) :
    (g.physicsOnFree n).pool = g.pool := by
  unfold Graph.physicsOnFree
  cases n.kind with
  | base => rfl
  | rigidBody rb => simp only []; cases rb.native <;> rfl
  | collider c => simp only []; cases c.native <;> rfl
  | joint j => simp only []; cases j.native <;> rfl

theorem graph_physicsOnFree_root {M : Type} (g : Graph M) (n : Node M) :
    (g.physicsOnFree n).root = g.root := by
  unfold Graph.physicsOnFree
  cases n.kind with
  | base => rfl
  | rigidBody rb => simp only []; cases rb.native <;> rfl
  | collider c => simp only []; cases c.native <;> rfl
  | joint j => simp only []; cases j.native <;> rfl

theorem graph_physicsOnFree_absent {M : Type} (g : Graph M) (n : Node M) (nid : Nat) :
    (AList.get g.physics.bodies nid = none →
      AList.get (g.physicsOnFree n).physics.bodies nid = none) ∧
    (AList.get g.physics.colliders nid = none →
      AList.get (g.physicsOnFree n).physics.colliders nid = none) ∧
    (AList.get g.physics.joints nid = none →
      AList.get (g.physicsOnFree n).physics.joints nid = none) ∧
    (AList.get g.colliderMap nid = none →
      AList.get (g.physicsOnFree n).colliderMap nid = none) := by
  unfold Graph.physicsOnFree
  cases n.kind with
  | base => exact ⟨id, id, id, id⟩
  | rigidBody rb =>
    simp only []
    cases rb.native with
    | none => exact ⟨id, id, id, id⟩
    | some k =>
      refine ⟨?_, id, id, id⟩
      intro hq
      rw [alist_get_erase]
      by_cases hk : nid = k
      · rw [if_pos hk]
      · rw [if_neg hk]
        exact hq
  | collider c =>
    simp only []
    cases c.native with
    | none => exact ⟨id, id, id, id⟩
    | some k =>
      refine ⟨id, ?_, id, ?_⟩ <;>
        (intro hq
         rw [alist_get_erase]
         by_cases hk : nid = k
         · rw [if_pos hk]
         · rw [if_neg hk]
           exact hq)
  | joint j =>
    simp only []
    cases j.native with
    | none => exact ⟨id, id, id, id⟩
    | some k =>
      refine ⟨id, id, ?_, id⟩
      intro hq
      rw [alist_get_erase]
      by_cases hk : nid = k
      · rw [if_pos hk]
      · rw [if_neg hk]
        exact hq

theorem graph_physicsOnFree_removes {M : Type} (g : Graph M) (n : Node M) :
    (g.physicsOnFree n).nodePhysicsRemoved n := by
  unfold Graph.physicsOnFree Graph.nodePhysicsRemoved
  cases n.kind with
  | base => trivial
  | rigidBody rb =>
    simp only []
    cases rb.native with
    | none => intro nid hq; exact Option.noConfusion hq
    | some k =>
      intro nid hq
      have hk : k = nid := Option.some_inj.mp hq
      subst hk
      rw [alist_get_erase, if_pos rfl]
  | collider c =>
    simp only []
    cases c.native with
    | none => intro nid hq; exact Option.noConfusion hq
    | some k =>
      intro nid hq
      have hk : k = nid := Option.some_inj.mp hq
      subst hk
      constructor <;> rw [alist_get_erase, if_pos rfl]
  | joint j =>
    simp only []
    cases j.native with
    | none => intro nid hq; exact Option.noConfusion hq
    | some k =>
      intro nid hq
      have hk : k = nid := Option.some_inj.mp hq
      subst hk
      rw [alist_get_erase, if_pos rfl]

theorem graph_nodePhysicsRemoved_kind {M : Type} {g : Graph M} {n m : Node M}
    (hk : n.kind = m.kind) (hr : g.nodePhysicsRemoved n) : g.nodePhysicsRemoved m := by
  unfold Graph.nodePhysicsRemoved at hr ⊢
  rw [← hk]
  exact hr

theorem graph_nodePhysicsRemoved_mono {M : Type} {g g' : Graph M} {n : Node M}
    (hmono : ∀ nid,
      (AList.get g.physics.bodies nid = none → AList.get g'.physics.bodies nid = none) ∧
      (AList.get g.physics.colliders nid = none → AList.get g'.physics.colliders nid = none) ∧
      (AList.get g.physics.joints nid = none → AList.get g'.physics.joints nid = none) ∧
      (AList.get g.colliderMap nid = none → AList.get g'.colliderMap nid = none))
    (hr : g.nodePhysicsRemoved n) : g'.nodePhysicsRemoved n := by
  unfold Graph.nodePhysicsRemoved at hr ⊢
  cases hkind : n.kind with
  | base => trivial
  | rigidBody rb =>
    rw [hkind] at hr
    simp only [] at hr
    intro nid hq
    exact (hmono nid).1 (hr nid hq)
  | collider c =>
    rw [hkind] at hr
    simp only [] at hr
    intro nid hq
    exact ⟨(hmono nid).2.1 (hr nid hq).1, (hmono nid).2.2.2 (hr nid hq).2⟩
  | joint j =>
    rw [hkind] at hr
    simp only [] at hr
    intro nid hq
    exact (hmono nid).2.2.1 (hr nid hq)

theorem graph_removeLoop_spec {M : Type} {g : Graph M} (hinv : g.Invariant) :
    ∀ (fuel : Nat) (S : List Handle) (gc : Graph M),
      (g.pool.aliveList.filter fun x => decide (∃ s ∈ S, g.descWithin s x)).length < fuel →
      List.Pairwise (fun a b => ¬ g.Desc a b ∧ ¬ g.Desc b a) S →
      (∀ s ∈ S, (g.tryGet s).isSome = true) →
      (∀ x, (∃ s ∈ S, g.Desc s x) → ∃ n₀ n, g.tryGet x = some n₀ ∧ gc.tryGet x = some n ∧
        n.children = n₀.children ∧
        (n.kind = n₀.kind ∨ gc.nodePhysicsRemoved n₀)) →
      ∃ gc', Graph.removeLoop fuel gc S = some gc' ∧
        (∀ x, (∃ s ∈ S, g.Desc s x) → gc'.tryGet x = none) ∧
        (∀ x, ¬ (∃ s ∈ S, g.Desc s x) → gc'.tryGet x = gc.tryGet x) ∧
        (∀ x n₀, (∃ s ∈ S, g.Desc s x) → g.tryGet x = some n₀ →
          gc'.nodePhysicsRemoved n₀) ∧
        (∀ nid,
          (AList.get gc.physics.bodies nid = none →
            AList.get gc'.physics.bodies nid = none) ∧
          (AList.get gc.physics.colliders nid = none →
            AList.get gc'.physics.colliders nid = none) ∧
          (AList.get gc.physics.joints nid = none →
            AList.get gc'.physics.joints nid = none) ∧
          (AList.get gc.colliderMap nid = none →
            AList.get gc'.colliderMap nid = none)) ∧
        gc'.root = gc.root := by
  intro fuel
  induction fuel with
  | zero =>
    intro S gc hfuel hpair halive hnodes
    exact absurd hfuel (Nat.not_lt_zero _)
  | succ f ih =>
    intro S gc hfuel hpair halive hnodes
    cases S with
    | nil =>
      refine ⟨gc, rfl, ?_, fun x _ => rfl, ?_, fun nid => ⟨id, id, id, id⟩, rfl⟩
      · rintro x ⟨s, hs, -⟩
        exact absurd hs (List.not_mem_nil s)
      · rintro x n₀ ⟨s, hs, -⟩
        exact absurd hs (List.not_mem_nil s)
    | cons s rest =>
      have hsS : ∃ t ∈ s :: rest, g.Desc t s :=
        ⟨s, List.mem_cons_self s rest, Graph.Desc.refl s⟩
      obtain ⟨n₀, n, hn0, hn, hch, hkor⟩ := hnodes s hsS
      have hsal : (g.tryGet s).isSome = true := halive s (List.mem_cons_self s rest)
      have hsmemg : s ∈ g.pool.aliveList := (graph_mem_aliveList g s).mpr hsal
      obtain ⟨ks, -, hks⟩ := inv_reach hinv hsal
      have hchild_chain : ∀ c ∈ g.childrenOfD s, g.parentIter (ks + 1) c = some g.root := by
        intro c hcd
        have hpc : g.parentOf c = some s := hinv.2.2.2.2.1 s hsmemg c hcd
        obtain ⟨cn, hcn, hcp⟩ := graph_parentOf_inv hpc
        rw [graph_parentIter_succ ks hcn, hcp]
        exact hks
      have hchild_alive : ∀ c ∈ g.childrenOfD s, (g.tryGet c).isSome = true := by
        intro c hcd
        have hpc : g.parentOf c = some s := hinv.2.2.2.2.1 s hsmemg c hcd
        obtain ⟨cn, hcn, -⟩ := graph_parentOf_inv hpc
        rw [hcn]
        rfl
      have hchild_desc : ∀ c ∈ g.childrenOfD s, g.Desc s c :=
        fun c hcd => Graph.Desc.child (Graph.Desc.refl s) hcd
      have hnotself : ∀ c ∈ g.childrenOfD s, ¬ g.Desc c s := by
        intro c hcd hdc
        obtain ⟨mc, hmc⟩ := graph_desc_chain hinv hdc
        have := graph_chain_through hinv hmc hks (hchild_chain c hcd)
        omega
      have hpairhead : ∀ t ∈ rest, ¬ g.Desc s t ∧ ¬ g.Desc t s :=
        (List.pairwise_cons.mp hpair).1
      have hpairrest := (List.pairwise_cons.mp hpair).2
      have hch_g : n.children = g.childrenOfD s := by
        rw [hch, graph_childrenOfD_eq hn0]
      have hins2 : ∀ x, (∃ t ∈ n.children.reverse ++ rest, g.Desc t x) ↔
          ((∃ t ∈ s :: rest, g.Desc t x) ∧ x ≠ s) := by
        intro x
        constructor
        · rintro ⟨t, ht, hdt⟩
          rcases List.mem_append.mp ht with htc | htr
          · have htc2 : t ∈ g.childrenOfD s := by
              rw [← hch_g]
              exact List.mem_reverse.mp htc
            refine ⟨⟨s, List.mem_cons_self s rest,
              graph_desc_trans (hchild_desc t htc2) hdt⟩, ?_⟩
            intro he
            subst he
            exact hnotself t htc2 hdt
          · refine ⟨⟨t, List.mem_cons_of_mem s htr, hdt⟩, ?_⟩
            intro he
            subst he
            exact (hpairhead t htr).2 hdt
        · rintro ⟨⟨t, ht, hdt⟩, hxs⟩
          rcases List.mem_cons.mp ht with he | htr
          · subst he
            obtain ⟨⟨c, hc, hdc⟩, -⟩ := graph_desc_strict_parent hinv hdt hxs
            exact ⟨c, List.mem_append.mpr (Or.inl (List.mem_reverse.mpr
              (by rw [hch_g]; exact hc))), hdc⟩
          · exact ⟨t, List.mem_append.mpr (Or.inr htr), hdt⟩
      have hfree : gc.pool.free s
          = some (n, ⟨gc.pool.slots.set s.index ⟨s.generation, .vacant⟩⟩) := by
        unfold Pool.free
        rw [show gc.pool.tryBorrow s = some n from hn]
        rfl
      set pf : Pool (Node M) := ⟨gc.pool.slots.set s.index ⟨s.generation, .vacant⟩⟩ with hpf
      set gc₁ : Graph M := Graph.physicsOnFree { gc with pool := pf } n with hgc1
      have hgc1_pool : gc₁.pool = pf := by
        rw [hgc1]
        exact graph_physicsOnFree_pool _ n
      have hgc1_try : ∀ x, gc₁.tryGet x = if x.index = s.index then none else gc.tryGet x := by
        intro x
        show gc₁.pool.tryBorrow x = _
        rw [hgc1_pool]
        exact pool_tryBorrow_free hfree x
      have hdead_same_idx : ∀ x, x ≠ s → x.index = s.index → gc.tryGet x = none := by
        intro x hxs hxi
        cases hq : gc.tryGet x with
        | none => rfl
        | some v => exact absurd (pool_same_index_eq hq hn hxi) hxs
      have hgc1_frame : ∀ x, x ≠ s → gc₁.tryGet x = gc.tryGet x := by
        intro x hxs
        rw [hgc1_try x]
        by_cases hxi : x.index = s.index
        · rw [if_pos hxi, hdead_same_idx x hxs hxi]
        · rw [if_neg hxi]
      have hgc1_s : gc₁.tryGet s = none := by
        rw [hgc1_try s, if_pos rfl]
      have hstep_mono : ∀ nid,
          (AList.get gc.physics.bodies nid = none →
            AList.get gc₁.physics.bodies nid = none) ∧
          (AList.get gc.physics.colliders nid = none →
            AList.get gc₁.physics.colliders nid = none) ∧
          (AList.get gc.physics.joints nid = none →
            AList.get gc₁.physics.joints nid = none) ∧
          (AList.get gc.colliderMap nid = none →
            AList.get gc₁.colliderMap nid = none) := by
        intro nid
        have hstep := graph_physicsOnFree_absent { gc with pool := pf } n nid
        rw [← hgc1] at hstep
        exact hstep
      -- hypotheses of the recursive call
      have halive2 : ∀ t ∈ n.children.reverse ++ rest, (g.tryGet t).isSome = true := by
        intro t ht
        rcases List.mem_append.mp ht with htc | htr
        · exact hchild_alive t (by rw [← hch_g]; exact List.mem_reverse.mp htc)
        · exact halive t (List.mem_cons_of_mem s htr)
      have hdw_iff : ∀ t x, (g.tryGet t).isSome = true →
          (g.descWithin t x ↔ g.Desc t x) :=
        fun t x ht => graph_descWithin_iff hinv ht x
      have himp : ∀ x,
          decide (∃ t ∈ n.children.reverse ++ rest, g.descWithin t x) = true →
          decide (∃ t ∈ s :: rest, g.descWithin t x) = true := by
        intro x hx
        rw [decide_eq_true_eq] at hx ⊢
        obtain ⟨t, ht, hdw⟩ := hx
        have hdt : g.Desc t x := (hdw_iff t x (halive2 t ht)).mp hdw
        obtain ⟨⟨t2, ht2, hdt2⟩, -⟩ := (hins2 x).mp ⟨t, ht, hdt⟩
        exact ⟨t2, ht2, (hdw_iff t2 x (halive t2 ht2)).mpr hdt2⟩
      have hps : decide (∃ t ∈ s :: rest, g.descWithin t s) = true := by
        rw [decide_eq_true_eq]
        exact ⟨s, List.mem_cons_self s rest, (hdw_iff s s hsal).mpr (Graph.Desc.refl s)⟩
      have hqs : decide (∃ t ∈ n.children.reverse ++ rest, g.descWithin t s) = false := by
        rw [decide_eq_false_iff_not]
        rintro ⟨t, ht, hdw⟩
        have hdt : g.Desc t s := (hdw_iff t s (halive2 t ht)).mp hdw
        exact ((hins2 s).mp ⟨t, ht, hdt⟩).2 rfl
      have hfuel2 : (g.pool.aliveList.filter fun x =>
          decide (∃ t ∈ n.children.reverse ++ rest, g.descWithin t x)).length < f := by
        have hdec := length_filter_lt_of _ _ himp s hps hqs g.pool.aliveList hsmemg
        omega
      have hchpair : (g.childrenOfD s).Pairwise fun a b => ¬ g.Desc a b ∧ ¬ g.Desc b a := by
        refine List.Pairwise.imp_of_mem ?_ (inv_children_nodup hinv s)
        intro a b ha hb hab
        constructor
        · intro hd
          exact hab (graph_desc_same_depth_eq hinv hd (Graph.Desc.refl b)
            (hchild_chain a ha) (hchild_chain b hb))
        · intro hd
          exact hab (graph_desc_same_depth_eq hinv (Graph.Desc.refl a) hd
            (hchild_chain a ha) (hchild_chain b hb))
      have hpair2 : List.Pairwise (fun a b => ¬ g.Desc a b ∧ ¬ g.Desc b a)
          (n.children.reverse ++ rest) := by
        rw [List.pairwise_append]
        refine ⟨?_, hpairrest, ?_⟩
        · rw [List.pairwise_reverse]
          rw [hch_g]
          exact hchpair.imp fun hx => ⟨hx.2, hx.1⟩
        · intro a ha b hb
          have ha2 : a ∈ g.childrenOfD s := by
            rw [← hch_g]
            exact List.mem_reverse.mp ha
          constructor
          · intro hd
            exact (hpairhead b hb).1 (graph_desc_trans (hchild_desc a ha2) hd)
          · intro hd
            have hba : (g.tryGet b).isSome = true := halive b (List.mem_cons_of_mem s hb)
            rcases graph_desc_total hinv hba hsal hd (hchild_desc a ha2) with hx | hx
            · exact (hpairhead b hb).2 hx
            · exact (hpairhead b hb).1 hx
      have hnodes2 : ∀ x, (∃ t ∈ n.children.reverse ++ rest, g.Desc t x) →
          ∃ n₀x nx, g.tryGet x = some n₀x ∧ gc₁.tryGet x = some nx ∧
          nx.children = n₀x.children ∧
          (nx.kind = n₀x.kind ∨ gc₁.nodePhysicsRemoved n₀x) := by
        intro x hx
        obtain ⟨hIns, hxs⟩ := (hins2 x).mp hx
        obtain ⟨n₀x, nx, h1, h2, h3, h4⟩ := hnodes x hIns
        refine ⟨n₀x, nx, h1, ?_, h3, ?_⟩
        · rw [hgc1_frame x hxs]
          exact h2
        · rcases h4 with h4 | h4
          · exact Or.inl h4
          · exact Or.inr (graph_nodePhysicsRemoved_mono hstep_mono h4)
      obtain ⟨gc', hrun, hA, hB, hC, hD, hroot2⟩ :=
        ih (n.children.reverse ++ rest) gc₁ hfuel2 hpair2 halive2 hnodes2
      refine ⟨gc', ?_, ?_, ?_, ?_, ?_, ?_⟩
      · have hcomp : Graph.removeLoop (f + 1) gc (s :: rest)
            = (gc.pool.free s).bind fun fr =>
                Graph.removeLoop f (Graph.physicsOnFree { gc with pool := fr.2 } fr.1)
                  (fr.1.children.reverse ++ rest) := rfl
        rw [hcomp, hfree]
        simp only [Option.some_bind]
        rw [← hgc1]
        exact hrun
      · intro x hxIns
        by_cases hxs : x = s
        · subst hxs
          have hnotIns2 : ¬ (∃ t ∈ n.children.reverse ++ rest, g.Desc t x) :=
            fun hx => ((hins2 x).mp hx).2 rfl
          rw [hB x hnotIns2]
          exact hgc1_s
        · exact hA x ((hins2 x).mpr ⟨hxIns, hxs⟩)
      · intro x hxn
        have hxs : x ≠ s := by
          intro e
          subst e
          exact hxn ⟨x, List.mem_cons_self x rest, Graph.Desc.refl x⟩
        rw [hB x (fun hx => hxn ((hins2 x).mp hx).1), hgc1_frame x hxs]
      · intro x n₀x hxIns hgx
        by_cases hxs : x = s
        · subst hxs
          have he : n₀x = n₀ := Option.some_inj.mp (hgx.symm.trans hn0)
          subst he
          rcases hkor with hk | hk
          · have hrem : gc₁.nodePhysicsRemoved n := by
              rw [hgc1]
              exact graph_physicsOnFree_removes _ n
            exact graph_nodePhysicsRemoved_mono hD (graph_nodePhysicsRemoved_kind hk hrem)
          · exact graph_nodePhysicsRemoved_mono hD (graph_nodePhysicsRemoved_mono hstep_mono hk)
        · exact hC x n₀x ((hins2 x).mpr ⟨hxIns, hxs⟩) hgx
      · intro nid
        exact ⟨fun hq => (hD nid).1 ((hstep_mono nid).1 hq),
          fun hq => (hD nid).2.1 ((hstep_mono nid).2.1 hq),
          fun hq => (hD nid).2.2.1 ((hstep_mono nid).2.2.1 hq),
          fun hq => (hD nid).2.2.2 ((hstep_mono nid).2.2.2 hq)⟩
      · rw [hroot2, hgc1]
        exact graph_physicsOnFree_root _ n

theorem graph_clearColliderNative_cases {M : Type} (g : Graph M) (n : Node M) :
    g.clearColliderNative n = n ∨
    ∃ c nid, n.kind = NodeKind.collider c ∧ c.native = some nid ∧
      (AList.get g.physics.colliders nid).isSome = true ∧
      g.clearColliderNative n = { n with kind := .collider { c with native := none } } := by
  unfold Graph.clearColliderNative
  cases hk : n.kind with
  | base => left; rfl
  | rigidBody rb => left; rfl
  | joint j => left; rfl
  | collider c =>
    simp only []
    cases hnat : c.native with
    | none => left; rfl
    | some nid =>
      simp only []
      cases hlive : AList.get g.physics.colliders nid with
      | none => left; rfl
      | some q =>
        right
        exact ⟨c, nid, rfl, hnat, by rw [hlive]; rfl, rfl⟩

/-- C3: `remove_node(h)` on a valid handle of a graph satisfying the tree
invariant succeeds, makes `h` and every handle in its subtree invalid,
keeps every handle outside the subtree exactly as valid as before, and
removes every backing physics entity (body / collider / joint; collider
entries also from `collider_map`) recorded by the removed nodes. -/
theorem c3_remove_node_frees_subtree_and_physics {M : Type} {g : Graph M} {h : Handle}
    (hinv : g.Invariant) (hh : (g.tryGet h).isSome = true) :
    ∃ g', g.removeNode h = some g' ∧
      (∀ x, g.Desc h x → g'.tryGet x = none) ∧
      (∀ x, ¬ g.Desc h x → (g'.tryGet x).isSome = (g.tryGet x).isSome) ∧
      (∀ x n₀, g.Desc h x → g.tryGet x = some n₀ → g'.nodePhysicsRemoved n₀) ∧
      g'.root = g.root := by
  obtain ⟨n, hn⟩ := Option.isSome_iff_exists.mp hh
  have hNone := inv_none_dead hinv
  have hpok := inv_parents_ok hinv h n hn
  have hul : (g.unlinkInternal h).isSome = true := graph_unlinkInternal_isSome hn hpok
  obtain ⟨g₁, hg1⟩ := Option.isSome_iff_exists.mp hul
  obtain ⟨uroot, ulen, ubody, ujoint, ueff, ualive, uframe, uself, -⟩ :=
    graph_unlinkInternal_spec hNone hn hg1
  have hps : n.parent ≠ h := inv_parent_ne_self hinv hn
  have huh : g₁.tryGet h = some (g.clearColliderNative { n with parent := Handle.NONE }) := by
    rw [uself, if_neg hps]
  have hfl : (g.pool.aliveList.filter fun x =>
      decide (∃ s ∈ [h], g.descWithin s x)).length < g₁.pool.len + 1 := by
    have h1 : (g.pool.aliveList.filter fun x =>
        decide (∃ s ∈ [h], g.descWithin s x)).length ≤ g.pool.aliveList.length :=
      List.length_filter_le _ _
    have h2 := pool_aliveList_length_le g.pool
    rw [ulen]
    omega
  have halive : ∀ s ∈ [h], (g.tryGet s).isSome = true := by
    intro s hs
    rw [List.mem_singleton.mp hs]
    exact hh
  have hnodes : ∀ x, (∃ s ∈ [h], g.Desc s x) → ∃ n₀ nx, g.tryGet x = some n₀ ∧
      g₁.tryGet x = some nx ∧ nx.children = n₀.children ∧
      (nx.kind = n₀.kind ∨ g₁.nodePhysicsRemoved n₀) := by
    rintro x ⟨s, hs, hdx⟩
    rw [List.mem_singleton.mp hs] at hdx
    by_cases hxh : x = h
    · subst hxh
      refine ⟨n, g.clearColliderNative { n with parent := Handle.NONE }, hn, huh,
        graph_clearColliderNative_children g _, ?_⟩
      rcases graph_clearColliderNative_cases g { n with parent := Handle.NONE } with
        hcc | ⟨c, nid, hk, hnat, hlive, hcc⟩
      · left
        rw [hcc]
      · right
        have hk2 : n.kind = NodeKind.collider c := hk
        show Graph.nodePhysicsRemoved g₁ n
        unfold Graph.nodePhysicsRemoved
        rw [hk2]
        simp only []
        intro nid2 hnid2
        have he : nid = nid2 := by
          rw [hnat] at hnid2
          exact Option.some_inj.mp hnid2
        subst he
        have heff : (g₁.colliderMap, g₁.physics.colliders)
            = (AList.erase g.colliderMap nid, AList.erase g.physics.colliders nid) := by
          rw [ueff]
          unfold Graph.unlinkColliderEffect
          rw [hk2]
          simp only []
          rw [hnat]
          simp only []
          obtain ⟨q, hq⟩ := Option.isSome_iff_exists.mp hlive
          rw [hq]
        constructor
        · have hcq : g₁.physics.colliders = AList.erase g.physics.colliders nid :=
            congrArg Prod.snd heff
          rw [hcq, alist_get_erase, if_pos rfl]
        · have hmq : g₁.colliderMap = AList.erase g.colliderMap nid :=
            congrArg Prod.fst heff
          rw [hmq, alist_get_erase, if_pos rfl]
    · have hxp : x ≠ n.parent := by
        intro e
        by_cases hroot : h = g.root
        · have hrp := inv_root_parent hinv
          rw [← hroot, graph_parentOf_eq hn] at hrp
          have hq : n.parent = Handle.NONE := Option.some_inj.mp hrp
          have hxal : (g.tryGet x).isSome = true := graph_desc_alive hinv hh hdx
          rw [e, hq, inv_none_dead hinv] at hxal
          exact Bool.noConfusion hxal
        · obtain ⟨kh, -, hkh⟩ := inv_reach hinv hh
          have hkh0 : kh ≠ 0 := by
            intro h0
            subst h0
            exact hroot (Option.some_inj.mp hkh)
          obtain ⟨kp, hkp⟩ : ∃ kp, kh = kp + 1 := ⟨kh - 1, by omega⟩
          have hpchain : g.parentIter kp n.parent = some g.root := by
            have hkh2 := hkh
            rw [hkp, graph_parentIter_succ kp hn] at hkh2
            exact hkh2
          obtain ⟨m, hm⟩ := graph_desc_chain hinv hdx
          rw [e] at hm
          have := graph_chain_through hinv hm hpchain hkh
          omega
      have hxal : (g.tryGet x).isSome = true := graph_desc_alive hinv hh hdx
      obtain ⟨nx, hnx⟩ := Option.isSome_iff_exists.mp hxal
      exact ⟨nx, nx, hnx, by rw [uframe x hxh hxp]; exact hnx, rfl, Or.inl rfl⟩
  obtain ⟨g', hrun, hA, hB, hC, hD, hroot2⟩ :=
    graph_removeLoop_spec hinv (g₁.pool.len + 1) [h] g₁ hfl (by simp) halive hnodes
  refine ⟨g', ?_, ?_, ?_, ?_, ?_⟩
  · unfold Graph.removeNode
    simp only [Option.bind_eq_bind]
    rw [hg1]
    simp only [Option.some_bind]
    exact hrun
  · intro x hdx
    exact hA x ⟨h, List.mem_singleton.mpr rfl, hdx⟩
  · intro x hndx
    have hnot : ¬ ∃ s ∈ [h], g.Desc s x := by
      rintro ⟨s, hs, hd⟩
      rw [List.mem_singleton.mp hs] at hd
      exact hndx hd
    rw [hB x hnot, ualive x]
  · intro x n₀ hdx hgx
    exact hC x n₀ ⟨h, List.mem_singleton.mpr rfl, hdx⟩ hgx
  · rw [hroot2, uroot]

/-- Witness for C3 at the fresh graph, removing its root node. -/
theorem c3_remove_node_frees_subtree_and_physics_witness :
    (Graph.new : Graph ℕ).Invariant ∧
      (((Graph.new : Graph ℕ)).tryGet (Graph.new : Graph ℕ).root).isSome = true ∧
      ∃ g', (Graph.new : Graph ℕ).removeNode (Graph.new : Graph ℕ).root = some g' ∧
        (∀ x, (Graph.new : Graph ℕ).Desc (Graph.new : Graph ℕ).root x →
          g'.tryGet x = none) ∧
        (∀ x, ¬ (Graph.new : Graph ℕ).Desc (Graph.new : Graph ℕ).root x →
          (g'.tryGet x).isSome = ((Graph.new : Graph ℕ).tryGet x).isSome) ∧
        (∀ x n₀, (Graph.new : Graph ℕ).Desc (Graph.new : Graph ℕ).root x →
          (Graph.new : Graph ℕ).tryGet x = some n₀ → g'.nodePhysicsRemoved n₀) ∧
        g'.root = (Graph.new : Graph ℕ).root :=
  ⟨by decide, by decide,
    c3_remove_node_frees_subtree_and_physics (by decide) (by decide)⟩

theorem graph_stack_step {M : Type} {g : Graph M} (hinv : g.Invariant) {s : Handle}
    {rest : List Handle} {f : Nat}
    (hsal : (g.tryGet s).isSome = true)
    (halive : ∀ t ∈ s :: rest, (g.tryGet t).isSome = true)
    (hpair : List.Pairwise (fun a b => ¬ g.Desc a b ∧ ¬ g.Desc b a) (s :: rest))
    (hfuel : (g.pool.aliveList.filter fun x =>
      decide (∃ t ∈ s :: rest, g.descWithin t x)).length < f + 1) :
    (∀ x, (∃ t ∈ (g.childrenOfD s).reverse ++ rest, g.Desc t x) ↔
      ((∃ t ∈ s :: rest, g.Desc t x) ∧ x ≠ s)) ∧
    List.Pairwise (fun a b => ¬ g.Desc a b ∧ ¬ g.Desc b a)
      ((g.childrenOfD s).reverse ++ rest) ∧
    (∀ t ∈ (g.childrenOfD s).reverse ++ rest, (g.tryGet t).isSome = true) ∧
    (g.pool.aliveList.filter fun x =>
      decide (∃ t ∈ (g.childrenOfD s).reverse ++ rest, g.descWithin t x)).length < f := by
  have hsmemg : s ∈ g.pool.aliveList := (graph_mem_aliveList g s).mpr hsal
  obtain ⟨ks, -, hks⟩ := inv_reach hinv hsal
  have hchild_chain : ∀ c ∈ g.childrenOfD s, g.parentIter (ks + 1) c = some g.root := by
    intro c hcd
    have hpc : g.parentOf c = some s := hinv.2.2.2.2.1 s hsmemg c hcd
    obtain ⟨cn, hcn, hcp⟩ := graph_parentOf_inv hpc
    rw [graph_parentIter_succ ks hcn, hcp]
    exact hks
  have hchild_alive : ∀ c ∈ g.childrenOfD s, (g.tryGet c).isSome = true := by
    intro c hcd
    have hpc : g.parentOf c = some s := hinv.2.2.2.2.1 s hsmemg c hcd
    obtain ⟨cn, hcn, -⟩ := graph_parentOf_inv hpc
    rw [hcn]
    rfl
  have hchild_desc : ∀ c ∈ g.childrenOfD s, g.Desc s c :=
    fun c hcd => Graph.Desc.child (Graph.Desc.refl s) hcd
  have hnotself : ∀ c ∈ g.childrenOfD s, ¬ g.Desc c s := by
    intro c hcd hdc
    obtain ⟨mc, hmc⟩ := graph_desc_chain hinv hdc
    have := graph_chain_through hinv hmc hks (hchild_chain c hcd)
    omega
  have hpairhead : ∀ t ∈ rest, ¬ g.Desc s t ∧ ¬ g.Desc t s :=
    (List.pairwise_cons.mp hpair).1
  have hpairrest := (List.pairwise_cons.mp hpair).2
  have hins2 : ∀ x, (∃ t ∈ (g.childrenOfD s).reverse ++ rest, g.Desc t x) ↔
      ((∃ t ∈ s :: rest, g.Desc t x) ∧ x ≠ s) := by
    intro x
    constructor
    · rintro ⟨t, ht, hdt⟩
      rcases List.mem_append.mp ht with htc | htr
      · have htc2 : t ∈ g.childrenOfD s := List.mem_reverse.mp htc
        refine ⟨⟨s, List.mem_cons_self s rest,
          graph_desc_trans (hchild_desc t htc2) hdt⟩, ?_⟩
        intro he
        subst he
        exact hnotself t htc2 hdt
      · refine ⟨⟨t, List.mem_cons_of_mem s htr, hdt⟩, ?_⟩
        intro he
        subst he
        exact (hpairhead t htr).2 hdt
    · rintro ⟨⟨t, ht, hdt⟩, hxs⟩
      rcases List.mem_cons.mp ht with he | htr
      · subst he
        obtain ⟨⟨c, hc, hdc⟩, -⟩ := graph_desc_strict_parent hinv hdt hxs
        exact ⟨c, List.mem_append.mpr (Or.inl (List.mem_reverse.mpr hc)), hdc⟩
      · exact ⟨t, List.mem_append.mpr (Or.inr htr), hdt⟩
  have halive2 : ∀ t ∈ (g.childrenOfD s).reverse ++ rest, (g.tryGet t).isSome = true := by
    intro t ht
    rcases List.mem_append.mp ht with htc | htr
    · exact hchild_alive t (List.mem_reverse.mp htc)
    · exact halive t (List.mem_cons_of_mem s htr)
  refine ⟨hins2, ?_, halive2, ?_⟩
  · rw [List.pairwise_append]
    refine ⟨?_, hpairrest, ?_⟩
    · rw [List.pairwise_reverse]
      have hbase : (g.childrenOfD s).Pairwise fun a b => ¬ g.Desc a b ∧ ¬ g.Desc b a := by
        refine List.Pairwise.imp_of_mem ?_ (inv_children_nodup hinv s)
        intro a b ha hb hab
        constructor
        · intro hd
          exact hab (graph_desc_same_depth_eq hinv hd (Graph.Desc.refl b)
            (hchild_chain a ha) (hchild_chain b hb))
        · intro hd
          exact hab (graph_desc_same_depth_eq hinv (Graph.Desc.refl a) hd
            (hchild_chain a ha) (hchild_chain b hb))
      exact hbase.imp fun hx => ⟨hx.2, hx.1⟩
    · intro a ha b hb
      have ha2 : a ∈ g.childrenOfD s := List.mem_reverse.mp ha
      constructor
      · intro hd
        exact (hpairhead b hb).1 (graph_desc_trans (hchild_desc a ha2) hd)
      · intro hd
        have hba : (g.tryGet b).isSome = true := halive b (List.mem_cons_of_mem s hb)
        rcases graph_desc_total hinv hba hsal hd (hchild_desc a ha2) with hx | hx
        · exact (hpairhead b hb).2 hx
        · exact (hpairhead b hb).1 hx
  · have hdw_iff : ∀ t x, (g.tryGet t).isSome = true →
        (g.descWithin t x ↔ g.Desc t x) :=
      fun t x ht => graph_descWithin_iff hinv ht x
    have himp : ∀ x,
        decide (∃ t ∈ (g.childrenOfD s).reverse ++ rest, g.descWithin t x) = true →
        decide (∃ t ∈ s :: rest, g.descWithin t x) = true := by
      intro x hx
      rw [decide_eq_true_eq] at hx ⊢
      obtain ⟨t, ht, hdw⟩ := hx
      have hdt : g.Desc t x := (hdw_iff t x (halive2 t ht)).mp hdw
      obtain ⟨⟨t2, ht2, hdt2⟩, -⟩ := (hins2 x).mp ⟨t, ht, hdt⟩
      exact ⟨t2, ht2, (hdw_iff t2 x (halive t2 ht2)).mpr hdt2⟩
    have hps : decide (∃ t ∈ s :: rest, g.descWithin t s) = true := by
      rw [decide_eq_true_eq]
      exact ⟨s, List.mem_cons_self s rest, (hdw_iff s s hsal).mpr (Graph.Desc.refl s)⟩
    have hqs : decide (∃ t ∈ (g.childrenOfD s).reverse ++ rest, g.descWithin t s) = false := by
      rw [decide_eq_false_iff_not]
      rintro ⟨t, ht, hdw⟩
      have hdt : g.Desc t s := (hdw_iff t s (halive2 t ht)).mp hdw
      exact ((hins2 s).mp ⟨t, ht, hdt⟩).2 rfl
    have hdec := length_filter_lt_of _ _ himp s hps hqs g.pool.aliveList hsmemg
    omega

theorem graph_takeSubLoop_spec {M : Type} {g : Graph M} (hinv : g.Invariant) :
    ∀ (fuel : Nat) (S : List Handle) (gc : Graph M) (acc : List (Handle × Node M)),
      (g.pool.aliveList.filter fun x => decide (∃ s ∈ S, g.descWithin s x)).length < fuel →
      List.Pairwise (fun a b => ¬ g.Desc a b ∧ ¬ g.Desc b a) S →
      (∀ s ∈ S, (g.tryGet s).isSome = true) →
      (∀ x, (∃ s ∈ S, g.Desc s x) → gc.tryGet x = g.tryGet x) →
      (∀ tv ∈ acc, ∀ x, (∃ s ∈ S, g.Desc s x) → tv.1.index ≠ x.index) →
      acc.Pairwise (fun a b => a.1.index ≠ b.1.index) →
      ∃ gc' acc2, Graph.takeSubLoop fuel gc S acc = some (gc', acc2) ∧
        (∀ tv ∈ acc, tv ∈ acc2) ∧
        (∀ tv ∈ acc2, tv ∈ acc ∨
          (g.tryGet tv.1 = some tv.2 ∧ ∃ s ∈ S, g.Desc s tv.1)) ∧
        (∀ x, (∃ s ∈ S, g.Desc s x) → ∃ v, (x, v) ∈ acc2 ∧ g.tryGet x = some v) ∧
        acc2.Pairwise (fun a b => a.1.index ≠ b.1.index) ∧
        (∀ x, (∃ s ∈ S, g.Desc s x) →
          gc'.pool.slots[x.index]? = some ⟨x.generation, SlotState.reserved⟩) ∧
        (∀ i, (∀ x, (∃ s ∈ S, g.Desc s x) → x.index ≠ i) →
          gc'.pool.slots[i]? = gc.pool.slots[i]?) ∧
        gc'.physics = gc.physics ∧ gc'.colliderMap = gc.colliderMap ∧
        gc'.root = gc.root := by
  intro fuel
  induction fuel with
  | zero =>
    intro S gc acc hfuel hpair halive hnodes haccd haccp
    exact absurd hfuel (Nat.not_lt_zero _)
  | succ f ih =>
    intro S gc acc hfuel hpair halive hnodes haccd haccp
    cases S with
    | nil =>
      refine ⟨gc, acc, rfl, fun tv ht => ht, fun tv ht => Or.inl ht, ?_, haccp, ?_, ?_,
        rfl, rfl, rfl⟩
      · rintro x ⟨s, hs, -⟩
        exact absurd hs (List.not_mem_nil s)
      · rintro x ⟨s, hs, -⟩
        exact absurd hs (List.not_mem_nil s)
      · intro i _
        rfl
    | cons s rest =>
      have hsal : (g.tryGet s).isSome = true := halive s (List.mem_cons_self s rest)
      obtain ⟨n, hn⟩ := Option.isSome_iff_exists.mp hsal
      have hgcs : gc.tryGet s = some n := by
        rw [hnodes s ⟨s, List.mem_cons_self s rest, Graph.Desc.refl s⟩]
        exact hn
      have htr : gc.pool.takeReserve s
          = some (s, n, ⟨gc.pool.slots.set s.index ⟨s.generation, SlotState.reserved⟩⟩) := by
        unfold Pool.takeReserve
        rw [show gc.pool.tryBorrow s = some n from hgcs]
        rfl
      obtain ⟨hins2, hpair2, halive2, hfuel2⟩ :=
        graph_stack_step hinv hsal halive hpair hfuel
      have hch_g : n.children = g.childrenOfD s := (graph_childrenOfD_eq hn).symm
      set pf : Pool (Node M) :=
        ⟨gc.pool.slots.set s.index ⟨s.generation, SlotState.reserved⟩⟩ with hpf
      set gc₁ : Graph M := { gc with pool := pf } with hgc1
      have hsidx : s.index < gc.pool.slots.length := pool_tryBorrow_index_lt hgcs
      have hgc1_try : ∀ x, gc₁.tryGet x
          = if x.index = s.index then none else gc.tryGet x := by
        intro x
        show gc₁.pool.tryBorrow x = _
        have : gc₁.pool = pf := rfl
        rw [this]
        exact pool_tryBorrow_takeReserve htr x
      have hnodes2 : ∀ x, (∃ t ∈ (g.childrenOfD s).reverse ++ rest, g.Desc t x) →
          gc₁.tryGet x = g.tryGet x := by
        intro x hx
        obtain ⟨hIns, hxs⟩ := (hins2 x).mp hx
        have hxal : (g.tryGet x).isSome = true := by
          obtain ⟨t, ht, hdt⟩ := hIns
          exact graph_desc_alive hinv (halive t ht) hdt
        have hxi : x.index ≠ s.index := by
          intro he
          obtain ⟨vx, hvx⟩ := Option.isSome_iff_exists.mp hxal
          have hvx2 : gc.tryGet x = some vx := by
            rw [hnodes x hIns]
            exact hvx
          exact hxs (pool_same_index_eq hvx2 hgcs he)
        rw [hgc1_try x, if_neg hxi]
        exact hnodes x hIns
      have haccd2 : ∀ tv ∈ acc ++ [(s, n)], ∀ x,
          (∃ t ∈ (g.childrenOfD s).reverse ++ rest, g.Desc t x) → tv.1.index ≠ x.index := by
        intro tv htv x hx
        have hx2 := (hins2 x).mp hx
        rcases List.mem_append.mp htv with hta | htb
        · exact haccd tv hta x hx2.1
        · have he : tv = (s, n) := List.mem_singleton.mp htb
          subst he
          intro hie
          have hxal : (g.tryGet x).isSome = true := by
            obtain ⟨t, ht, hdt⟩ := hx2.1
            exact graph_desc_alive hinv (halive t ht) hdt
          obtain ⟨vx, hvx⟩ := Option.isSome_iff_exists.mp hxal
          exact hx2.2 (pool_same_index_eq hvx hn hie.symm)
      have haccp2 : (acc ++ [(s, n)]).Pairwise (fun a b => a.1.index ≠ b.1.index) := by
        rw [List.pairwise_append]
        refine ⟨haccp, List.pairwise_singleton _ _, ?_⟩
        intro a ha b hb
        have hb' : b = (s, n) := List.mem_singleton.mp hb
        subst hb'
        exact haccd a ha s ⟨s, List.mem_cons_self s rest, Graph.Desc.refl s⟩
      obtain ⟨gc', acc2, hrun, hmono, hprov, hcover, hnodup, hres, hframe, hphys, hmap,
          hroot2⟩ :=
        ih ((g.childrenOfD s).reverse ++ rest) gc₁ (acc ++ [(s, n)])
          hfuel2 hpair2 halive2 hnodes2 haccd2 haccp2
      refine ⟨gc', acc2, ?_, ?_, ?_, ?_, hnodup, ?_, ?_, hphys, hmap, hroot2⟩
      · have hcomp : Graph.takeSubLoop (f + 1) gc (s :: rest) acc
            = (gc.tryGet s).bind fun n2 =>
                (gc.pool.takeReserve s).bind fun tr =>
                  Graph.takeSubLoop f { gc with pool := tr.2.2 }
                    (n2.children.reverse ++ rest) (acc ++ [(tr.1, tr.2.1)]) := rfl
        rw [hcomp, hgcs]
        simp only [Option.some_bind]
        rw [htr]
        simp only [Option.some_bind]
        rw [show (Graph.takeSubLoop f { gc with pool := pf }
            (n.children.reverse ++ rest) (acc ++ [(s, n)])) = some (gc', acc2) from by
          rw [hch_g]
          exact hrun]
      · intro tv ht
        exact hmono tv (List.mem_append.mpr (Or.inl ht))
      · intro tv ht
        rcases hprov tv ht with hin | ⟨hv, t, ht2, hd⟩
        · rcases List.mem_append.mp hin with h1 | h2
          · exact Or.inl h1
          · have he : tv = (s, n) := List.mem_singleton.mp h2
            subst he
            exact Or.inr ⟨hn, s, List.mem_cons_self s rest, Graph.Desc.refl s⟩
        · exact Or.inr ⟨hv, ((hins2 tv.1).mp ⟨t, ht2, hd⟩).1⟩
      · intro x hx
        by_cases hxs : x = s
        · subst hxs
          exact ⟨n, hmono (x, n) (List.mem_append.mpr (Or.inr (List.mem_singleton.mpr rfl))),
            hn⟩
        · exact hcover x ((hins2 x).mpr ⟨hx, hxs⟩)
      · intro x hx
        by_cases hxs : x = s
        · subst hxs
          have hother : ∀ y, (∃ t ∈ (g.childrenOfD x).reverse ++ rest, g.Desc t y) →
              y.index ≠ x.index := by
            intro y hy he
            obtain ⟨hIns, hys⟩ := (hins2 y).mp hy
            have hyal : (g.tryGet y).isSome = true := by
              obtain ⟨t, ht, hdt⟩ := hIns
              exact graph_desc_alive hinv (halive t ht) hdt
            obtain ⟨vy, hvy⟩ := Option.isSome_iff_exists.mp hyal
            have hvy2 : gc.tryGet y = some vy := by
              rw [hnodes y hIns]
              exact hvy
            exact hys (pool_same_index_eq hvy2 hgcs he)
          rw [hframe x.index hother]
          show (gc.pool.slots.set x.index ⟨x.generation, SlotState.reserved⟩)[x.index]?
            = some ⟨x.generation, SlotState.reserved⟩
          exact List.getElem?_set_self hsidx
        · exact hres x ((hins2 x).mpr ⟨hx, hxs⟩)
      · intro i hi
        have hi2 : ∀ y, (∃ t ∈ (g.childrenOfD s).reverse ++ rest, g.Desc t y) →
            y.index ≠ i :=
          fun y hy => hi y ((hins2 y).mp hy).1
        rw [hframe i hi2]
        show (gc.pool.slots.set s.index ⟨s.generation, SlotState.reserved⟩)[i]?
          = gc.pool.slots[i]?
        exact List.getElem?_set_ne (hi s ⟨s, List.mem_cons_self s rest, Graph.Desc.refl s⟩)

/-- Putting back a list of reserved `(ticket, node)` pairs with pairwise
distinct indices succeeds; every pair is borrowable afterwards at its
original handle and value, and all other slots are untouched. -/
theorem graph_putBackList_spec {M : Type} :
    ∀ (acc : List (Handle × Node M)) (gc : Graph M),
      (∀ tv ∈ acc, gc.pool.slots[tv.1.index]?
        = some ⟨tv.1.generation, SlotState.reserved⟩) →
      acc.Pairwise (fun a b => a.1.index ≠ b.1.index) →
      ∃ gc', acc.foldlM (fun a tv =>
          (a.pool.putBack tv.1 tv.2).map fun hp => { a with pool := hp.2 }) gc
            = some gc' ∧
        (∀ tv ∈ acc, gc'.tryGet tv.1 = some tv.2) ∧
        (∀ i, (∀ tv ∈ acc, tv.1.index ≠ i) → gc'.pool.slots[i]? = gc.pool.slots[i]?) ∧
        gc'.physics = gc.physics ∧ gc'.colliderMap = gc.colliderMap ∧
        gc'.root = gc.root := by
  intro acc
  induction acc with
  | nil =>
    intro gc hres hpair
    exact ⟨gc, rfl, fun tv ht => absurd ht (List.not_mem_nil tv),
      fun i _ => rfl, rfl, rfl, rfl⟩
  | cons tv rest ih =>
    intro gc hres hpair
    have hslot := hres tv (List.mem_cons_self tv rest)
    have hpb := pool_putBack_of_reserved hslot tv.2
    set pf : Pool (Node M) :=
      ⟨gc.pool.slots.set tv.1.index ⟨tv.1.generation, SlotState.occupied tv.2⟩⟩ with hpf
    set gc₁ : Graph M := { gc with pool := pf } with hgc1
    have hidx : tv.1.index < gc.pool.slots.length := (List.getElem?_eq_some.mp hslot).1
    have hpairhead : ∀ b ∈ rest, tv.1.index ≠ b.1.index := (List.pairwise_cons.mp hpair).1
    have hres2 : ∀ b ∈ rest, gc₁.pool.slots[b.1.index]?
        = some ⟨b.1.generation, SlotState.reserved⟩ := by
      intro b hb
      show (gc.pool.slots.set tv.1.index
        ⟨tv.1.generation, SlotState.occupied tv.2⟩)[b.1.index]? = _
      rw [List.getElem?_set_ne (hpairhead b hb)]
      exact hres b (List.mem_cons_of_mem tv hb)
    obtain ⟨gc', hrun, hval, hframe, hphys, hmap, hroot⟩ :=
      ih gc₁ hres2 (List.pairwise_cons.mp hpair).2
    refine ⟨gc', ?_, ?_, ?_, hphys, hmap, hroot⟩
    · rw [List.foldlM_cons]
      show ((gc.pool.putBack tv.1 tv.2).map fun hp =>
        { gc with pool := hp.2 } : Option (Graph M)).bind _ = some gc'
      rw [hpb]
      simp only [Option.map_some', Option.some_bind]
      exact hrun
    · intro b hb
      rcases List.mem_cons.mp hb with he | hm
      · subst he
        show gc'.pool.tryBorrow b.1 = some b.2
        rw [pool_tryBorrow_eq_some]
        rw [hframe b.1.index (fun c hc => (hpairhead c hc).symm)]
        show (gc.pool.slots.set b.1.index
            ⟨b.1.generation, SlotState.occupied b.2⟩)[b.1.index]?
          = some ⟨b.1.generation, SlotState.occupied b.2⟩
        exact List.getElem?_set_self hidx
      · exact hval b hm
    · intro i hi
      rw [hframe i (fun c hc => hi c (List.mem_cons_of_mem tv hc))]
      show (gc.pool.slots.set tv.1.index
        ⟨tv.1.generation, SlotState.occupied tv.2⟩)[i]? = gc.pool.slots[i]?
      exact List.getElem?_set_ne (hi tv (List.mem_cons_self tv rest))

/-- `try_borrow` only inspects the slot at the handle's index. -/
theorem pool_tryBorrow_congr {α : Type} {p q : Pool α} {h : Handle}
    (hs : p.slots[h.index]? = q.slots[h.index]?) : p.tryBorrow h = q.tryBorrow h := by
  unfold Pool.tryBorrow
  rw [hs]

/-- A reserved slot yields nothing to `try_borrow`. -/
theorem pool_tryBorrow_reserved {α : Type} {p : Pool α} {h : Handle} {gen : Nat}
    (hs : p.slots[h.index]? = some ⟨gen, SlotState.reserved⟩) : p.tryBorrow h = none := by
  cases ht : p.tryBorrow h with
  | none => rfl
  | some v =>
    have h2 := (pool_tryBorrow_eq_some p h v).mp ht
    rw [hs] at h2
    simp at h2

/-- A handle with the wrong generation yields nothing to `try_borrow`. -/
theorem pool_tryBorrow_ne_gen {α : Type} {p : Pool α} {x : Handle} {gen : Nat}
    {st : SlotState α} (hs : p.slots[x.index]? = some ⟨gen, st⟩)
    (hg : gen ≠ x.generation) : p.tryBorrow x = none := by
  cases ht : p.tryBorrow x with
  | none => rfl
  | some v =>
    have h2 := (pool_tryBorrow_eq_some p x v).mp ht
    rw [hs] at h2
    exact absurd (congrArg Slot.generation (Option.some_inj.mp h2)) hg

/-- Two pools whose slots at an index are occupied under the same generation
agree on borrow success at every handle with that index. -/
theorem pool_tryBorrow_isSome_occ {α : Type} {p q : Pool α} {x : Handle} {gen : Nat}
    {v w : α} (hp : p.slots[x.index]? = some ⟨gen, SlotState.occupied v⟩)
    (hq : q.slots[x.index]? = some ⟨gen, SlotState.occupied w⟩) :
    (p.tryBorrow x).isSome = (q.tryBorrow x).isSome := by
  by_cases hg : gen = x.generation
  · subst hg
    rw [(pool_tryBorrow_eq_some p x v).mpr hp, (pool_tryBorrow_eq_some q x w).mpr hq]
    rfl
  · rw [pool_tryBorrow_ne_gen hp hg, pool_tryBorrow_ne_gen hq hg]

/-- `setNode` leaves every other slot untouched. -/
theorem graph_setNode_slot_frame {M : Type} {g g' : Graph M} {h : Handle} {v : Node M}
    (hs : g.setNode h v = some g') :
    ∀ i, i ≠ h.index → g'.pool.slots[i]? = g.pool.slots[i]? := by
  unfold Graph.setNode Pool.setAt at hs
  cases hb : g.pool.tryBorrow h with
  | none => rw [hb] at hs; simp at hs
  | some w =>
    rw [hb] at hs
    simp only [Option.map_some'] at hs
    cases hs
    intro i hi
    show (g.pool.slots.set h.index ⟨h.generation, SlotState.occupied v⟩)[i]?
      = g.pool.slots[i]?
    exact List.getElem?_set_ne (fun e => hi e.symm)

/-- The collider destruction check touches only the slot of its argument. -/
theorem graph_unlinkColliderCheck_slot_frame {M : Type} {g g' : Graph M} {h : Handle}
    (hc : g.unlinkColliderCheck h = some g') :
    ∀ i, i ≠ h.index → g'.pool.slots[i]? = g.pool.slots[i]? := by
  unfold Graph.unlinkColliderCheck at hc
  cases hn : g.tryGet h with
  | none => rw [hn] at hc; simp at hc
  | some n =>
    rw [hn] at hc
    simp only [Option.bind_eq_bind, Option.some_bind] at hc
    cases hk : n.kind with
    | base => rw [hk] at hc; cases hc; intro i _; rfl
    | rigidBody rb => rw [hk] at hc; cases hc; intro i _; rfl
    | joint j => rw [hk] at hc; cases hc; intro i _; rfl
    | collider c =>
      rw [hk] at hc
      simp only [] at hc
      cases hnat : c.native with
      | none => rw [hnat] at hc; cases hc; intro i _; rfl
      | some nid =>
        rw [hnat] at hc
        simp only [] at hc
        cases hlive : AList.get g.physics.colliders nid with
        | none => rw [hlive] at hc; cases hc; intro i _; rfl
        | some nc =>
          rw [hlive] at hc
          simp only [] at hc
          have hf := graph_setNode_slot_frame hc
          intro i hi
          exact hf i hi

/-- `unlink_internal` touches only the slots of the node and of its old
parent. -/
theorem graph_unlinkInternal_slot_frame {M : Type} {g g' : Graph M} {h : Handle}
    {n : Node M} (hn : g.tryGet h = some n) (hul : g.unlinkInternal h = some g') :
    ∀ i, i ≠ h.index → (n.parent = Handle.NONE ∨ i ≠ n.parent.index) →
      g'.pool.slots[i]? = g.pool.slots[i]? := by
  unfold Graph.unlinkInternal at hul
  rw [hn] at hul
  simp only [Option.bind_eq_bind, Option.some_bind] at hul
  rw [Option.bind_eq_some] at hul
  obtain ⟨g₁, hs1, hul⟩ := hul
  have hf1 := graph_setNode_slot_frame hs1
  by_cases hp : n.parent = Handle.NONE
  · rw [if_pos hp] at hul
    simp only [Option.pure_def, Option.some_bind] at hul
    have hf3 := graph_unlinkColliderCheck_slot_frame hul
    intro i hi _
    rw [hf3 i hi, hf1 i hi]
  · rw [if_neg hp] at hul
    rw [Option.bind_eq_some] at hul
    obtain ⟨pn, hpn1, hul⟩ := hul
    rw [Option.bind_eq_some] at hul
    obtain ⟨g₂, hs2, hul⟩ := hul
    have hf2 := graph_setNode_slot_frame hs2
    have hf3 := graph_unlinkColliderCheck_slot_frame hul
    intro i hi hpi
    have hip : i ≠ n.parent.index := hpi.resolve_left hp
    rw [hf3 i hi, hf2 i hip, hf1 i hi]

/-- `link_nodes` touches only the slots of the child, the new parent and
the old parent. -/
theorem graph_linkNodes_slot_frame {M : Type} {g g' : Graph M} {c p : Handle}
    {cn : Node M} (hc : g.tryGet c = some cn) (hl : g.linkNodes c p = some g') :
    ∀ i, i ≠ c.index → i ≠ p.index → (cn.parent = Handle.NONE ∨ i ≠ cn.parent.index) →
      g'.pool.slots[i]? = g.pool.slots[i]? := by
  unfold Graph.linkNodes at hl
  simp only [Option.bind_eq_bind] at hl
  rw [Option.bind_eq_some] at hl
  obtain ⟨g₁, hul, hl⟩ := hl
  rw [Option.bind_eq_some] at hl
  obtain ⟨cn1, hcn1, hl⟩ := hl
  rw [Option.bind_eq_some] at hl
  obtain ⟨g₂, hset2, hl⟩ := hl
  rw [Option.bind_eq_some] at hl
  obtain ⟨pn2, hpn2, hl⟩ := hl
  intro i hic hip hicp
  rw [graph_setNode_slot_frame hl i hip, graph_setNode_slot_frame hset2 i hic,
    graph_unlinkInternal_slot_frame hc hul i hic hicp]

/-- The collider destruction leaves a node unchanged when its native
collider (if any) is absent from the engine. -/
theorem graph_clearColliderNative_id_of {M : Type} (g : Graph M) (n : Node M)
    (hd : ∀ c nid, n.kind = NodeKind.collider c → c.native = some nid →
      AList.get g.physics.colliders nid = none) :
    g.clearColliderNative n = n := by
  unfold Graph.clearColliderNative
  cases hk : n.kind with
  | base => rfl
  | rigidBody rb => rfl
  | joint j => rfl
  | collider c =>
    simp only []
    cases hnat : c.native with
    | none => rfl
    | some nid =>
      simp only []
      rw [hd c nid hk hnat]

/-- Value computed by the collider destruction on a collider with a live
native backing. -/
theorem graph_clearColliderNative_live {M : Type} (g : Graph M) {n : Node M}
    {c : ColliderData} {nid : Nat} (hk : n.kind = NodeKind.collider c)
    (hnat : c.native = some nid) {w : NativeCollider}
    (hw : AList.get g.physics.colliders nid = some w) :
    g.clearColliderNative n = { n with kind := .collider { c with native := none } } := by
  unfold Graph.clearColliderNative
  rw [hk]
  simp only []
  rw [hnat]
  simp only []
  rw [hw]

/-- A node whose kind agrees with the output of a collider destruction pass
is left unchanged by a second pass over a physics world with no additional
live colliders. -/
theorem graph_clearColliderNative_id_of_kind {M : Type} {g g' : Graph M} {n m : Node M}
    (hk : m.kind = (g.clearColliderNative n).kind)
    (hmono : ∀ nid, (AList.get g'.physics.colliders nid).isSome = true →
      (AList.get g.physics.colliders nid).isSome = true) :
    g'.clearColliderNative m = m := by
  apply graph_clearColliderNative_id_of
  intro c nid hkm hnat
  cases hg' : AList.get g'.physics.colliders nid with
  | none => rfl
  | some w =>
    exfalso
    have hliveg := hmono nid (by rw [hg']; rfl)
    obtain ⟨w2, hw2⟩ := Option.isSome_iff_exists.mp hliveg
    rcases graph_clearColliderNative_cases g n with hid | ⟨c0, nid0, hk0, hnat0, hlive0, hval0⟩
    · rw [hid] at hk
      have hnk : n.kind = NodeKind.collider c := by rw [← hk, hkm]
      have hclear := graph_clearColliderNative_live g hnk hnat hw2
      rw [hid] at hclear
      have hkind := congrArg Node.kind hclear
      rw [hnk] at hkind
      injection hkind with he
      have hne := congrArg ColliderData.native he
      rw [hnat] at hne
      simp at hne
    · rw [hval0] at hk
      have hk2 : m.kind = NodeKind.collider { c0 with native := none } := hk
      rw [hkm] at hk2
      injection hk2 with he
      have hne := congrArg ColliderData.native he
      rw [hnat] at hne
      simp at hne

/-- The collider-destruction effect only removes engine colliders, never
adds any. -/
theorem graph_unlinkColliderEffect_mono {M : Type} (g : Graph M) (n : Node M) :
    ∀ nid, (AList.get (g.unlinkColliderEffect n).2 nid).isSome = true →
      (AList.get g.physics.colliders nid).isSome = true := by
  intro nid h
  unfold Graph.unlinkColliderEffect at h
  cases hk : n.kind with
  | base => rw [hk] at h; exact h
  | rigidBody rb => rw [hk] at h; exact h
  | joint j => rw [hk] at h; exact h
  | collider c =>
    rw [hk] at h
    simp only [] at h
    cases hnat : c.native with
    | none => rw [hnat] at h; exact h
    | some nid0 =>
      rw [hnat] at h
      simp only [] at h
      cases hlive : AList.get g.physics.colliders nid0 with
      | none => rw [hlive] at h; exact h
      | some w =>
        rw [hlive] at h
        simp only [] at h
        rw [alist_get_erase] at h
        by_cases he : nid = nid0
        · rw [if_pos he] at h
          simp at h
        · rw [if_neg he] at h
          exact h

/-- C8: on a well-formed graph, `take_reserve_sub_graph(r)` on a valid
non-root handle followed immediately by `put_sub_graph_back` succeeds and
restores the subtree under the graph root: every handle strictly inside
the subtree is valid again at the same index and generation and holds its
exact original node data; the subtree root keeps its data up to the
collider-destruction pass of the intervening unlink (a live backing native
collider is destroyed) and is re-parented under the graph root, in whose
children list it now appears; every other handle's validity and the root
handle are unchanged. -/
theorem c8_take_put_sub_graph_roundtrip {M : Type} {g : Graph M} {r : Handle} {n : Node M}
    (hinv : g.Invariant) (hn : g.tryGet r = some n) (hrr : r ≠ g.root) :
    ∃ sg gT g₂, g.takeReserveSubGraph r = some (sg, gT) ∧
      gT.putSubGraphBack sg = some (r, g₂) ∧
      (∀ x, (∃ c ∈ n.children, g.Desc c x) → g₂.tryGet x = g.tryGet x) ∧
      g₂.tryGet r = some { g.clearColliderNative { n with parent := Handle.NONE }
        with parent := g.root } ∧
      r ∈ g₂.childrenOfD g.root ∧
      (∀ x, (g₂.tryGet x).isSome = (g.tryGet x).isSome) ∧
      g₂.root = g.root := by
  have htry_congr : ∀ (p q : Pool (Node M)) (x : Handle),
      p.slots[x.index]? = q.slots[x.index]? → p.tryBorrow x = q.tryBorrow x :=
    fun p q x hs => pool_tryBorrow_congr hs
  have hch : g.childrenOfD r = n.children := graph_childrenOfD_eq hn
  have hral : (g.tryGet r).isSome = true := by rw [hn]; rfl
  have hNone : g.tryGet Handle.NONE = none := inv_none_dead hinv
  have hr_ne_none : r ≠ Handle.NONE := by
    intro e
    rw [e, hNone] at hn
    exact Option.noConfusion hn
  obtain ⟨rn, hrootn⟩ := Option.isSome_iff_exists.mp (inv_root_alive hinv)
  have hgen1 : ∀ (x : Handle) (v : Node M), g.tryGet x = some v → 1 ≤ x.generation := by
    intro x v hv
    have hslot := (graph_tryGet_eq_some_iff_slot g x v).mp hv
    exact hinv.1 _ (List.getElem?_mem hslot) (by simp [SlotState.isOccupied])
  obtain ⟨kr, -, hkr⟩ := inv_reach hinv hral
  obtain ⟨pn, hpn, -⟩ := inv_parent_spec hinv hn hrr
  have hpar_ne_r : n.parent ≠ r := inv_parent_ne_self hinv hn
  obtain ⟨kp, -, hkp⟩ := inv_reach hinv (by rw [hpn]; rfl)
  have hpar1 : g.parentIter 1 r = some n.parent := by
    rw [graph_parentIter_succ 0 hn]
    rfl
  have hkr_eq : kr = 1 + kp := graph_chain_through hinv hpar1 hkr hkp
  -- invoke the stack step once at stack [r] to obtain the loop preconditions
  have hfuel_r : (g.pool.aliveList.filter fun x =>
      decide (∃ t ∈ [r], g.descWithin t x)).length < g.pool.len + 1 := by
    have h1 := List.length_filter_le
      (fun x => decide (∃ t ∈ [r], g.descWithin t x)) g.pool.aliveList
    have h2 := pool_aliveList_length_le g.pool
    omega
  have halive_r : ∀ t ∈ [r], (g.tryGet t).isSome = true := by
    intro t ht
    rw [List.mem_singleton.mp ht]
    exact hral
  obtain ⟨hins_r, hpair₀, halive₀, hfuel₀⟩ :=
    graph_stack_step hinv hral halive_r (List.pairwise_singleton _ _) hfuel_r
  have happ : (g.childrenOfD r).reverse ++ ([] : List Handle) = n.children.reverse := by
    rw [List.append_nil, hch]
  rw [happ] at hins_r hpair₀ halive₀ hfuel₀
  have hsub_iff : ∀ x, (∃ c ∈ n.children, g.Desc c x) ↔
      (∃ s ∈ n.children.reverse, g.Desc s x) := by
    intro x
    constructor
    · rintro ⟨c, hc, hd⟩
      exact ⟨c, List.mem_reverse.mpr hc, hd⟩
    · rintro ⟨c, hc, hd⟩
      exact ⟨c, List.mem_reverse.mp hc, hd⟩
  have hsub_desc : ∀ x, (∃ s ∈ n.children.reverse, g.Desc s x) → g.Desc r x ∧ x ≠ r := by
    intro x hx
    obtain ⟨⟨t, ht, hd⟩, hne⟩ := (hins_r x).mp hx
    rw [List.mem_singleton.mp ht] at hd
    exact ⟨hd, hne⟩
  have hdesc_alive : ∀ x, (∃ s ∈ n.children.reverse, g.Desc s x) →
      (g.tryGet x).isSome = true := by
    intro x hx
    obtain ⟨s, hs, hd⟩ := hx
    exact graph_desc_alive hinv (halive₀ s hs) hd
  have hdesc_ne_r_idx : ∀ x, (∃ s ∈ n.children.reverse, g.Desc s x) →
      x.index ≠ r.index := by
    intro x hx he
    obtain ⟨vx, hvx⟩ := Option.isSome_iff_exists.mp (hdesc_alive x hx)
    exact (hsub_desc x hx).2 (pool_same_index_eq hvx hn he)
  have hroot_not_sub : ¬ (∃ s ∈ n.children.reverse, g.Desc s g.root) := by
    intro hx
    obtain ⟨hdr, -⟩ := hsub_desc g.root hx
    obtain ⟨m, hm⟩ := graph_desc_chain hinv hdr
    have h0 : (0 : Nat) = m + kr := graph_chain_through hinv hm rfl hkr
    have hm0 : m = 0 := by omega
    rw [hm0] at hm
    exact hrr (Option.some_inj.mp hm).symm
  have hpar_not_sub : ¬ (∃ s ∈ n.children.reverse, g.Desc s n.parent) := by
    intro hx
    obtain ⟨hdr, -⟩ := hsub_desc n.parent hx
    obtain ⟨m, hm⟩ := graph_desc_chain hinv hdr
    have he : kp = m + kr := graph_chain_through hinv hm hkp hkr
    omega
  have hpar_idx_ne_r : n.parent.index ≠ r.index := by
    intro he
    exact hpar_ne_r (pool_same_index_eq hpn hn he)
  have hroot_idx_ne_r : g.root.index ≠ r.index := by
    intro he
    exact hrr (pool_same_index_eq hn hrootn he.symm)
  have hd_idx_ne_par : ∀ x, (∃ s ∈ n.children.reverse, g.Desc s x) →
      x.index ≠ n.parent.index := by
    intro x hx he
    obtain ⟨vx, hvx⟩ := Option.isSome_iff_exists.mp (hdesc_alive x hx)
    exact hpar_not_sub ((pool_same_index_eq hvx hpn he) ▸ hx)
  have hd_idx_ne_root : ∀ x, (∃ s ∈ n.children.reverse, g.Desc s x) →
      x.index ≠ g.root.index := by
    intro x hx he
    obtain ⟨vx, hvx⟩ := Option.isSome_iff_exists.mp (hdesc_alive x hx)
    exact hroot_not_sub ((pool_same_index_eq hvx hrootn he) ▸ hx)
  -- run the take-reserve loop over the subtree
  obtain ⟨gT, D, hrun, -, hprov, hcover, hnodup, hres, hframeT, hphysT, hmapT, hrootT⟩ :=
    graph_takeSubLoop_spec hinv (g.pool.len + 1) n.children.reverse g []
      (Nat.lt_succ_of_lt hfuel₀) hpair₀ halive₀ (fun x _ => rfl)
      (fun tv ht => absurd ht (List.not_mem_nil tv)) List.Pairwise.nil
  have hprovD : ∀ tv ∈ D, g.tryGet tv.1 = some tv.2 ∧
      ∃ s ∈ n.children.reverse, g.Desc s tv.1 :=
    fun tv ht => (hprov tv ht).resolve_left (List.not_mem_nil tv)
  have hD_idx_ne_r : ∀ tv ∈ D, tv.1.index ≠ r.index :=
    fun tv ht => hdesc_ne_r_idx tv.1 (hprovD tv ht).2
  have hD_idx_ne_par : ∀ tv ∈ D, tv.1.index ≠ n.parent.index :=
    fun tv ht => hd_idx_ne_par tv.1 (hprovD tv ht).2
  have hD_idx_ne_root : ∀ tv ∈ D, tv.1.index ≠ g.root.index :=
    fun tv ht => hd_idx_ne_root tv.1 (hprovD tv ht).2
  have hno_desc_at : ∀ i, (∀ tv ∈ D, tv.1.index ≠ i) →
      ∀ x, (∃ s ∈ n.children.reverse, g.Desc s x) → x.index ≠ i := by
    intro i hi x hx
    obtain ⟨v, hvD, -⟩ := hcover x hx
    exact hi (x, v) hvD
  -- take out the subtree root (unlink + reserve)
  have hTr : gT.tryGet r = some n :=
    (graph_tryGet_eq_some_iff_slot gT r n).mpr (by
      rw [hframeT r.index (fun x hx => hdesc_ne_r_idx x hx)]
      exact (graph_tryGet_eq_some_iff_slot g r n).mp hn)
  have hTnone : gT.tryGet Handle.NONE = none := by
    by_cases hcase : ∃ x, (∃ s ∈ n.children.reverse, g.Desc s x) ∧
        x.index = (Handle.NONE : Handle).index
    · obtain ⟨x, hx, hxi⟩ := hcase
      have hslot := hres x hx
      rw [hxi] at hslot
      exact pool_tryBorrow_reserved hslot
    · push_neg at hcase
      show gT.pool.tryBorrow Handle.NONE = none
      rw [htry_congr gT.pool g.pool Handle.NONE
        (hframeT (Handle.NONE : Handle).index hcase)]
      exact hNone
  have hTpar : gT.tryGet n.parent = some pn :=
    (graph_tryGet_eq_some_iff_slot gT n.parent pn).mpr (by
      rw [hframeT n.parent.index (fun x hx => hd_idx_ne_par x hx)]
      exact (graph_tryGet_eq_some_iff_slot g n.parent pn).mp hpn)
  obtain ⟨gU, hgU⟩ := Option.isSome_iff_exists.mp
    (graph_unlinkInternal_isSome hTr (Or.inr (by rw [hTpar]; rfl)))
  obtain ⟨uroot, ulen, ubody, ujoint, ueff, ualive, uframe, uself, upar⟩ :=
    graph_unlinkInternal_spec hTnone hTr hgU
  have uslot := graph_unlinkInternal_slot_frame hTr hgU
  set N1 : Node M := g.clearColliderNative { n with parent := Handle.NONE } with hN1
  have hcphys : gT.physics.colliders = g.physics.colliders := by rw [hphysT]
  have hcc := graph_clearColliderNative_congr hcphys ({ n with parent := Handle.NONE } : Node M)
  have hUr : gU.tryGet r = some N1 := by
    rw [uself, if_neg hpar_ne_r, hcc]
  have htrU : gU.pool.takeReserve r
      = some (r, N1, ⟨gU.pool.slots.set r.index ⟨r.generation, SlotState.reserved⟩⟩) := by
    unfold Pool.takeReserve
    rw [show gU.pool.tryBorrow r = some N1 from hUr]
    rfl
  set gR : Graph M :=
    { gU with pool := ⟨gU.pool.slots.set r.index ⟨r.generation, SlotState.reserved⟩⟩ }
    with hgR
  have hTake : gT.takeReserve r = some (r, N1, gR) := by
    unfold Graph.takeReserve
    rw [hgU]
    simp only [Option.bind_eq_bind, Option.some_bind]
    rw [htrU]
    rfl
  have hchildren : g.childrenOf r = some n.children := by
    unfold Graph.childrenOf
    rw [hn]
    rfl
  have hTRSG : g.takeReserveSubGraph r = some (⟨(r, N1), D⟩, gR) := by
    unfold Graph.takeReserveSubGraph
    rw [hchildren]
    simp only [Option.bind_eq_bind, Option.some_bind]
    rw [hrun]
    simp only [Option.some_bind]
    show (gT.takeReserve r).bind _ = _
    rw [hTake]
    rfl
  -- put the descendants back
  have hresR : ∀ tv ∈ D, gR.pool.slots[tv.1.index]?
      = some ⟨tv.1.generation, SlotState.reserved⟩ := by
    intro tv ht
    have h1 : gR.pool.slots[tv.1.index]? = gU.pool.slots[tv.1.index]? := by
      show (gU.pool.slots.set r.index ⟨r.generation, SlotState.reserved⟩)[tv.1.index]? = _
      exact List.getElem?_set_ne (fun e => hD_idx_ne_r tv ht e.symm)
    rw [h1, uslot tv.1.index (hD_idx_ne_r tv ht) (Or.inr (hD_idx_ne_par tv ht))]
    exact hres tv.1 (hprovD tv ht).2
  obtain ⟨g1, hfold, hval1, hframe1, hphys1, hmap1, hroot1⟩ :=
    graph_putBackList_spec D gR hresR hnodup
  -- put the subtree root back
  have hg1r : g1.pool.slots[r.index]? = some ⟨r.generation, SlotState.reserved⟩ := by
    rw [hframe1 r.index (fun tv ht => hD_idx_ne_r tv ht)]
    show (gU.pool.slots.set r.index ⟨r.generation, SlotState.reserved⟩)[r.index]? = _
    exact List.getElem?_set_self (pool_tryBorrow_index_lt hUr)
  have hpbr := pool_putBack_of_reserved hg1r N1
  set gp : Graph M :=
    { g1 with pool := ⟨g1.pool.slots.set r.index ⟨r.generation, SlotState.occupied N1⟩⟩ }
    with hgp
  have hgp_try : ∀ x, gp.tryGet x = if x = r then some N1 else g1.tryGet x := by
    intro x
    show gp.pool.tryBorrow x = _
    exact pool_tryBorrow_putBack hpbr x
  have hg1root : g1.root = g.root := by
    rw [hroot1]
    show gU.root = g.root
    rw [uroot, hrootT]
  have hN1par : N1.parent = Handle.NONE := by
    rw [hN1, graph_clearColliderNative_parent]
  have hgp_slots : ∀ i, i ≠ r.index → i ≠ n.parent.index →
      gp.pool.slots[i]? = g.pool.slots[i]? := by
    intro i hir hip
    have h1 : gp.pool.slots[i]? = g1.pool.slots[i]? := by
      show (g1.pool.slots.set r.index ⟨r.generation, SlotState.occupied N1⟩)[i]? = _
      exact List.getElem?_set_ne (fun e => hir e.symm)
    by_cases hd : ∃ tv ∈ D, tv.1.index = i
    · obtain ⟨tv, htv, he⟩ := hd
      have h2 : g1.pool.slots[i]? = some ⟨tv.1.generation, SlotState.occupied tv.2⟩ := by
        rw [← he]
        exact (pool_tryBorrow_eq_some g1.pool tv.1 tv.2).mp (hval1 tv htv)
      have h3 : g.pool.slots[i]? = some ⟨tv.1.generation, SlotState.occupied tv.2⟩ := by
        rw [← he]
        exact (pool_tryBorrow_eq_some g.pool tv.1 tv.2).mp (hprovD tv htv).1
      rw [h1, h2, h3]
    · push_neg at hd
      have h3 : gR.pool.slots[i]? = gU.pool.slots[i]? := by
        show (gU.pool.slots.set r.index ⟨r.generation, SlotState.reserved⟩)[i]? = _
        exact List.getElem?_set_ne (fun e => hir e.symm)
      rw [h1, hframe1 i hd, h3, uslot i hir (Or.inr hip), hframeT i (hno_desc_at i hd)]
  have hgp_r : gp.tryGet r = some N1 := by
    rw [hgp_try r, if_pos rfl]
  have hgp_slot_r : gp.pool.slots[r.index]?
      = some ⟨r.generation, SlotState.occupied N1⟩ := by
    show (g1.pool.slots.set r.index ⟨r.generation, SlotState.occupied N1⟩)[r.index]? = _
    exact List.getElem?_set_self (List.getElem?_eq_some.mp hg1r).1
  have hslot_g_r : g.pool.slots[r.index]? = some ⟨r.generation, SlotState.occupied n⟩ :=
    (graph_tryGet_eq_some_iff_slot g r n).mp hn
  have hgen_r : 1 ≤ r.generation := hgen1 r n hn
  have hTroot : gT.tryGet g.root = some rn :=
    (graph_tryGet_eq_some_iff_slot gT g.root rn).mpr (by
      rw [hframeT g.root.index (fun x hx => hd_idx_ne_root x hx)]
      exact (graph_tryGet_eq_some_iff_slot g g.root rn).mp hrootn)
  obtain ⟨rn2, hUroot⟩ := Option.isSome_iff_exists.mp
    (show (gU.tryGet g.root).isSome = true from by rw [ualive g.root, hTroot]; rfl)
  have hgp_root : gp.tryGet g.root = some rn2 := by
    have h1 : gp.pool.slots[g.root.index]? = g1.pool.slots[g.root.index]? := by
      show (g1.pool.slots.set r.index ⟨r.generation, SlotState.occupied N1⟩)[g.root.index]?
        = _
      exact List.getElem?_set_ne (fun e => hroot_idx_ne_r e.symm)
    have h3 : gR.pool.slots[g.root.index]? = gU.pool.slots[g.root.index]? := by
      show (gU.pool.slots.set r.index ⟨r.generation, SlotState.reserved⟩)[g.root.index]? = _
      exact List.getElem?_set_ne (fun e => hroot_idx_ne_r e.symm)
    exact (graph_tryGet_eq_some_iff_slot gp g.root rn2).mpr (by
      rw [h1, hframe1 g.root.index (fun tv ht => hD_idx_ne_root tv ht), h3]
      exact (graph_tryGet_eq_some_iff_slot gU g.root rn2).mp hUroot)
  -- first re-link, inside `Graph::put_back`
  have hgp_none : gp.tryGet Handle.NONE = none := by
    by_cases h0r : (Handle.NONE : Handle).index = r.index
    · have hsl : gp.pool.slots[(Handle.NONE : Handle).index]?
          = some ⟨r.generation, SlotState.occupied N1⟩ := by
        rw [h0r]
        exact hgp_slot_r
      exact pool_tryBorrow_ne_gen hsl
        (by rw [show (Handle.NONE : Handle).generation = 0 from rfl]; omega)
    · by_cases h0p : (Handle.NONE : Handle).index = n.parent.index
      · obtain ⟨pn2, hUpar⟩ := Option.isSome_iff_exists.mp
          (show (gU.tryGet n.parent).isSome = true from by rw [ualive n.parent, hTpar]; rfl)
        have hgen_par : 1 ≤ n.parent.generation := hgen1 n.parent pn hpn
        have hsl : gp.pool.slots[(Handle.NONE : Handle).index]?
            = some ⟨n.parent.generation, SlotState.occupied pn2⟩ := by
          have h1 : gp.pool.slots[(Handle.NONE : Handle).index]?
              = g1.pool.slots[(Handle.NONE : Handle).index]? := by
            show (g1.pool.slots.set r.index
              ⟨r.generation, SlotState.occupied N1⟩)[(Handle.NONE : Handle).index]? = _
            exact List.getElem?_set_ne (fun e => h0r e.symm)
          have h2 := hframe1 (Handle.NONE : Handle).index
            (fun tv ht => by rw [h0p]; exact hD_idx_ne_par tv ht)
          have h3 : gR.pool.slots[(Handle.NONE : Handle).index]?
              = gU.pool.slots[(Handle.NONE : Handle).index]? := by
            show (gU.pool.slots.set r.index
              ⟨r.generation, SlotState.reserved⟩)[(Handle.NONE : Handle).index]? = _
            exact List.getElem?_set_ne (fun e => h0r e.symm)
          rw [h1, h2, h3, h0p]
          exact (pool_tryBorrow_eq_some gU.pool n.parent pn2).mp hUpar
        exact pool_tryBorrow_ne_gen hsl
          (by rw [show (Handle.NONE : Handle).generation = 0 from rfl]; omega)
      · show gp.pool.tryBorrow Handle.NONE = none
        rw [htry_congr gp.pool g.pool Handle.NONE
          (hgp_slots (Handle.NONE : Handle).index h0r h0p)]
        exact hNone
  obtain ⟨gq, hgq⟩ := Option.isSome_iff_exists.mp
    (graph_linkNodes_isSome hgp_none hgp_r (Or.inl hN1par) (by rw [hgp_root]; rfl))
  obtain ⟨l1root, l1len, l1body, l1joint, l1eff, l1palive, l1alive, l1parent, l1children,
    l1frame, l1self, l1pval⟩ := graph_linkNodes_spec hgp_none hgp_r hgq
  have l1slot := graph_linkNodes_slot_frame hgp_r hgq
  have hmono_p : ∀ nid, (AList.get gp.physics.colliders nid).isSome = true →
      (AList.get g.physics.colliders nid).isSome = true := by
    have hcoll : gp.physics.colliders = (g.unlinkColliderEffect n).2 := by
      show g1.physics.colliders = _
      rw [hphys1]
      show gU.physics.colliders = _
      have h6 : gU.physics.colliders = (gT.unlinkColliderEffect n).2 := congrArg Prod.snd ueff
      rw [h6, graph_unlinkColliderEffect_congr hmapT hcphys rfl]
    intro nid hl
    rw [hcoll] at hl
    exact graph_unlinkColliderEffect_mono g n nid hl
  have hclaimA := graph_clearColliderNative_id_of_kind
    (show ({ N1 with parent := Handle.NONE } : Node M).kind
      = (g.clearColliderNative { n with parent := Handle.NONE }).kind from by rw [hN1])
    hmono_p
  have hqr : gq.tryGet r = some { N1 with parent := g.root } := by
    have h := l1self hrr (by rw [hN1par]; exact fun e => hr_ne_none e.symm)
    rw [hclaimA] at h
    exact h
  have hgqroot : gq.root = g.root := by
    rw [l1root]
    show g1.root = g.root
    exact hg1root
  -- second re-link, the explicit one of `put_sub_graph_back`
  have hq_none : gq.tryGet Handle.NONE = none := by
    have h := l1alive Handle.NONE
    rw [hgp_none] at h
    cases hq : gq.tryGet Handle.NONE with
    | none => rfl
    | some v =>
      rw [hq] at h
      simp at h
  have hq_root_isSome : (gq.tryGet g.root).isSome = true := by
    rw [l1alive g.root, hgp_root]
    rfl
  obtain ⟨g₂, hg₂⟩ := Option.isSome_iff_exists.mp
    (graph_linkNodes_isSome hq_none hqr (Or.inr hq_root_isSome) hq_root_isSome)
  obtain ⟨l2root, l2len, l2body, l2joint, l2eff, l2palive, l2alive, l2parent, l2children,
    l2frame, l2self, l2pval⟩ := graph_linkNodes_spec hq_none hqr hg₂
  have l2slot := graph_linkNodes_slot_frame hqr hg₂
  have hmono_q : ∀ nid, (AList.get gq.physics.colliders nid).isSome = true →
      (AList.get g.physics.colliders nid).isSome = true := by
    intro nid hl
    have hcoll_q : gq.physics.colliders = (gp.unlinkColliderEffect N1).2 :=
      congrArg Prod.snd l1eff
    rw [hcoll_q] at hl
    exact hmono_p nid (graph_unlinkColliderEffect_mono gp N1 nid hl)
  have hclaimB := graph_clearColliderNative_id_of_kind
    (show ({ { N1 with parent := g.root } with parent := Handle.NONE } : Node M).kind
      = (g.clearColliderNative { n with parent := Handle.NONE }).kind from by rw [hN1])
    hmono_q
  have hfinal_r : g₂.tryGet r = some { N1 with parent := g.root } := by
    have h := l2self hrr (fun e => hrr e.symm)
    rw [hclaimB] at h
    exact h
  -- assemble the `put_sub_graph_back` computation
  have hPSB : gR.putSubGraphBack ⟨(r, N1), D⟩ = some (r, g₂) := by
    unfold Graph.putSubGraphBack
    simp only []
    rw [hfold]
    simp only [Option.bind_eq_bind, Option.some_bind]
    unfold Graph.putBack
    rw [hpbr]
    simp only [Option.bind_eq_bind, Option.some_bind]
    rw [show gp.linkNodes r g1.root = some gq from by rw [hg1root]; exact hgq]
    simp only [Option.some_bind]
    show (gq.linkNodes r gq.root).bind _ = _
    rw [show gq.linkNodes r gq.root = some g₂ from by rw [hgqroot]; exact hg₂]
    rfl
  refine ⟨⟨(r, N1), D⟩, gR, g₂, hTRSG, hPSB, ?_, ?_, ?_, ?_, ?_⟩
  · intro x hx
    have hx' := (hsub_iff x).mp hx
    have hxr : x.index ≠ r.index := hdesc_ne_r_idx x hx'
    have hxroot : x.index ≠ g.root.index := hd_idx_ne_root x hx'
    have hxpar : x.index ≠ n.parent.index := hd_idx_ne_par x hx'
    have h1 := l2slot x.index hxr hxroot (Or.inr hxroot)
    have h2 := l1slot x.index hxr hxroot (Or.inl hN1par)
    have h3 := hgp_slots x.index hxr hxpar
    show g₂.pool.tryBorrow x = g.pool.tryBorrow x
    exact htry_congr g₂.pool g.pool x (by rw [h1, h2, h3])
  · exact hfinal_r
  · rw [l2children g.root, if_pos rfl]
    exact List.mem_append.mpr (Or.inr (List.mem_singleton.mpr rfl))
  · intro x
    by_cases hxr : x.index = r.index
    · by_cases hxe : x = r
      · subst hxe
        rw [hfinal_r, hn]
        rfl
      · have hgx : x.generation ≠ r.generation := by
          intro e
          apply hxe
          cases x
          cases r
          simp only [Handle.mk.injEq]
          exact ⟨hxr, e⟩
        have hs2 : g₂.pool.slots[x.index]?
            = some ⟨r.generation, SlotState.occupied { N1 with parent := g.root }⟩ := by
          rw [hxr]
          exact (pool_tryBorrow_eq_some g₂.pool r _).mp hfinal_r
        have hs1 : g.pool.slots[x.index]? = some ⟨r.generation, SlotState.occupied n⟩ := by
          rw [hxr]
          exact hslot_g_r
        show (g₂.pool.tryBorrow x).isSome = (g.pool.tryBorrow x).isSome
        rw [pool_tryBorrow_ne_gen hs2 (fun e => hgx e.symm),
          pool_tryBorrow_ne_gen hs1 (fun e => hgx e.symm)]
    · by_cases hxroot : x.index = g.root.index
      · obtain ⟨w2, hw2⟩ := Option.isSome_iff_exists.mp
          (show (g₂.tryGet g.root).isSome = true from by
            rw [l2alive g.root, l1alive g.root, hgp_root]; rfl)
        have hs2 : g₂.pool.slots[x.index]?
            = some ⟨g.root.generation, SlotState.occupied w2⟩ := by
          rw [hxroot]
          exact (pool_tryBorrow_eq_some g₂.pool g.root w2).mp hw2
        have hs1 : g.pool.slots[x.index]?
            = some ⟨g.root.generation, SlotState.occupied rn⟩ := by
          rw [hxroot]
          exact (pool_tryBorrow_eq_some g.pool g.root rn).mp hrootn
        exact pool_tryBorrow_isSome_occ hs2 hs1
      · by_cases hxpar : x.index = n.parent.index
        · obtain ⟨pn2, hUpar⟩ := Option.isSome_iff_exists.mp
            (show (gU.tryGet n.parent).isSome = true from by
              rw [ualive n.parent, hTpar]; rfl)
          have h1 := l2slot x.index hxr hxroot (Or.inr hxroot)
          have h2 := l1slot x.index hxr hxroot (Or.inl hN1par)
          have h3 : gp.pool.slots[x.index]? = g1.pool.slots[x.index]? := by
            show (g1.pool.slots.set r.index
              ⟨r.generation, SlotState.occupied N1⟩)[x.index]? = _
            exact List.getElem?_set_ne (fun e => hxr e.symm)
          have h4 := hframe1 x.index (fun tv ht => by rw [hxpar]; exact hD_idx_ne_par tv ht)
          have h5 : gR.pool.slots[x.index]? = gU.pool.slots[x.index]? := by
            show (gU.pool.slots.set r.index
              ⟨r.generation, SlotState.reserved⟩)[x.index]? = _
            exact List.getElem?_set_ne (fun e => hxr e.symm)
          have hs2 : g₂.pool.slots[x.index]?
              = some ⟨n.parent.generation, SlotState.occupied pn2⟩ := by
            rw [h1, h2, h3, h4, h5, hxpar]
            exact (pool_tryBorrow_eq_some gU.pool n.parent pn2).mp hUpar
          have hs1 : g.pool.slots[x.index]?
              = some ⟨n.parent.generation, SlotState.occupied pn⟩ := by
            rw [hxpar]
            exact (pool_tryBorrow_eq_some g.pool n.parent pn).mp hpn
          exact pool_tryBorrow_isSome_occ hs2 hs1
        · have h1 := l2slot x.index hxr hxroot (Or.inr hxroot)
          have h2 := l1slot x.index hxr hxroot (Or.inl hN1par)
          have h3 := hgp_slots x.index hxr hxpar
          show (g₂.pool.tryBorrow x).isSome = (g.pool.tryBorrow x).isSome
          rw [htry_congr g₂.pool g.pool x (by rw [h1, h2, h3])]
  · rw [l2root, hgqroot]


/-- Witness for C8 at a two-node graph: the non-root node is taken out as a
one-node subgraph and put back under the root. -/
theorem c8_take_put_sub_graph_roundtrip_witness :
    (Graph.mk PhysicsWorld.new [] ⟨0, 1⟩ (Pool.mk [⟨1, SlotState.occupied (Node.mk "" Handle.NONE [⟨1, 1⟩] (0, 0, 0) 0 1 true 1 true NodeKind.base)⟩, ⟨1, SlotState.occupied (Node.mk "" ⟨0, 1⟩ [] (0, 0, 0) 0 1 true 1 true NodeKind.base)⟩]) : Graph ℕ).Invariant ∧
    (Graph.mk PhysicsWorld.new [] ⟨0, 1⟩ (Pool.mk [⟨1, SlotState.occupied (Node.mk "" Handle.NONE [⟨1, 1⟩] (0, 0, 0) 0 1 true 1 true NodeKind.base)⟩, ⟨1, SlotState.occupied (Node.mk "" ⟨0, 1⟩ [] (0, 0, 0) 0 1 true 1 true NodeKind.base)⟩]) : Graph ℕ).tryGet ⟨1, 1⟩ = some (Node.mk "" ⟨0, 1⟩ [] (0, 0, 0) 0 1 true 1 true NodeKind.base : Node ℕ) ∧
    (⟨1, 1⟩ : Handle) ≠ (Graph.mk PhysicsWorld.new [] ⟨0, 1⟩ (Pool.mk [⟨1, SlotState.occupied (Node.mk "" Handle.NONE [⟨1, 1⟩] (0, 0, 0) 0 1 true 1 true NodeKind.base)⟩, ⟨1, SlotState.occupied (Node.mk "" ⟨0, 1⟩ [] (0, 0, 0) 0 1 true 1 true NodeKind.base)⟩]) : Graph ℕ).root ∧
    (∃ sg gT g₂, (Graph.mk PhysicsWorld.new [] ⟨0, 1⟩ (Pool.mk [⟨1, SlotState.occupied (Node.mk "" Handle.NONE [⟨1, 1⟩] (0, 0, 0) 0 1 true 1 true NodeKind.base)⟩, ⟨1, SlotState.occupied (Node.mk "" ⟨0, 1⟩ [] (0, 0, 0) 0 1 true 1 true NodeKind.base)⟩]) : Graph ℕ).takeReserveSubGraph ⟨1, 1⟩ = some (sg, gT) ∧
      gT.putSubGraphBack sg = some (⟨1, 1⟩, g₂) ∧
      (∀ x, (∃ c ∈ (Node.mk "" ⟨0, 1⟩ [] (0, 0, 0) 0 1 true 1 true NodeKind.base : Node ℕ).children, (Graph.mk PhysicsWorld.new [] ⟨0, 1⟩ (Pool.mk [⟨1, SlotState.occupied (Node.mk "" Handle.NONE [⟨1, 1⟩] (0, 0, 0) 0 1 true 1 true NodeKind.base)⟩, ⟨1, SlotState.occupied (Node.mk "" ⟨0, 1⟩ [] (0, 0, 0) 0 1 true 1 true NodeKind.base)⟩]) : Graph ℕ).Desc c x) → g₂.tryGet x = (Graph.mk PhysicsWorld.new [] ⟨0, 1⟩ (Pool.mk [⟨1, SlotState.occupied (Node.mk "" Handle.NONE [⟨1, 1⟩] (0, 0, 0) 0 1 true 1 true NodeKind.base)⟩, ⟨1, SlotState.occupied (Node.mk "" ⟨0, 1⟩ [] (0, 0, 0) 0 1 true 1 true NodeKind.base)⟩]) : Graph ℕ).tryGet x) ∧
      g₂.tryGet ⟨1, 1⟩ = some { (Graph.mk PhysicsWorld.new [] ⟨0, 1⟩ (Pool.mk [⟨1, SlotState.occupied (Node.mk "" Handle.NONE [⟨1, 1⟩] (0, 0, 0) 0 1 true 1 true NodeKind.base)⟩, ⟨1, SlotState.occupied (Node.mk "" ⟨0, 1⟩ [] (0, 0, 0) 0 1 true 1 true NodeKind.base)⟩]) : Graph ℕ).clearColliderNative
        { (Node.mk "" ⟨0, 1⟩ [] (0, 0, 0) 0 1 true 1 true NodeKind.base : Node ℕ) with parent := Handle.NONE } with parent := (Graph.mk PhysicsWorld.new [] ⟨0, 1⟩ (Pool.mk [⟨1, SlotState.occupied (Node.mk "" Handle.NONE [⟨1, 1⟩] (0, 0, 0) 0 1 true 1 true NodeKind.base)⟩, ⟨1, SlotState.occupied (Node.mk "" ⟨0, 1⟩ [] (0, 0, 0) 0 1 true 1 true NodeKind.base)⟩]) : Graph ℕ).root } ∧
      (⟨1, 1⟩ : Handle) ∈ g₂.childrenOfD (Graph.mk PhysicsWorld.new [] ⟨0, 1⟩ (Pool.mk [⟨1, SlotState.occupied (Node.mk "" Handle.NONE [⟨1, 1⟩] (0, 0, 0) 0 1 true 1 true NodeKind.base)⟩, ⟨1, SlotState.occupied (Node.mk "" ⟨0, 1⟩ [] (0, 0, 0) 0 1 true 1 true NodeKind.base)⟩]) : Graph ℕ).root ∧
      (∀ x, (g₂.tryGet x).isSome = ((Graph.mk PhysicsWorld.new [] ⟨0, 1⟩ (Pool.mk [⟨1, SlotState.occupied (Node.mk "" Handle.NONE [⟨1, 1⟩] (0, 0, 0) 0 1 true 1 true NodeKind.base)⟩, ⟨1, SlotState.occupied (Node.mk "" ⟨0, 1⟩ [] (0, 0, 0) 0 1 true 1 true NodeKind.base)⟩]) : Graph ℕ).tryGet x).isSome) ∧
      g₂.root = (Graph.mk PhysicsWorld.new [] ⟨0, 1⟩ (Pool.mk [⟨1, SlotState.occupied (Node.mk "" Handle.NONE [⟨1, 1⟩] (0, 0, 0) 0 1 true 1 true NodeKind.base)⟩, ⟨1, SlotState.occupied (Node.mk "" ⟨0, 1⟩ [] (0, 0, 0) 0 1 true 1 true NodeKind.base)⟩]) : Graph ℕ).root) :=
  ⟨by decide, by decide, by decide,
    c8_take_put_sub_graph_roundtrip (by decide) (by decide) (by decide)⟩

/-- Counterexample to C8 as stated: taking out a subtree whose root is a
collider with a live backing native collider and putting it straight back
does not restore equivalent node data — the unlink inside
`take_reserve_sub_graph` destroys the native collider, so the node comes
back with `native = None` (and the engine entry is gone). -/
theorem c8_roundtrip_loses_collider_native :
    (((Graph.mk (PhysicsWorld.mk [] [(0, (NativeCollider.mk 0 (0, 0, 0) 0 0 0 (GroupsData.mk 0 0) (GroupsData.mk 0 0) false none 0))] [] 1) [(0, ⟨1, 1⟩)] ⟨0, 1⟩ (Pool.mk [⟨1, SlotState.occupied (Node.mk "" Handle.NONE [⟨1, 1⟩] (0, 0, 0) 0 1 true 1 true NodeKind.base)⟩, ⟨1, SlotState.occupied (Node.mk "" ⟨0, 1⟩ [] (0, 0, 0) 0 1 true 1 true (NodeKind.collider (ColliderData.mk 0 0 0 (GroupsData.mk 0 0) (GroupsData.mk 0 0) false none (some 0) (ColliderChanges.mk false false false false false false) false)))⟩]) : Graph ℕ).takeReserveSubGraph ⟨1, 1⟩).bind fun p =>
      (p.2.putSubGraphBack p.1).bind fun q =>
        (q.2.tryGet ⟨1, 1⟩).map fun nd =>
          match nd.kind with
          | NodeKind.collider c => c.native
          | _ => some 99) = some none ∧
    (((Graph.mk (PhysicsWorld.mk [] [(0, (NativeCollider.mk 0 (0, 0, 0) 0 0 0 (GroupsData.mk 0 0) (GroupsData.mk 0 0) false none 0))] [] 1) [(0, ⟨1, 1⟩)] ⟨0, 1⟩ (Pool.mk [⟨1, SlotState.occupied (Node.mk "" Handle.NONE [⟨1, 1⟩] (0, 0, 0) 0 1 true 1 true NodeKind.base)⟩, ⟨1, SlotState.occupied (Node.mk "" ⟨0, 1⟩ [] (0, 0, 0) 0 1 true 1 true (NodeKind.collider (ColliderData.mk 0 0 0 (GroupsData.mk 0 0) (GroupsData.mk 0 0) false none (some 0) (ColliderChanges.mk false false false false false false) false)))⟩]) : Graph ℕ).tryGet ⟨1, 1⟩).map fun nd =>
      match nd.kind with
      | NodeKind.collider c => c.native
      | _ => some 99) = some (some 0) ∧
    (Graph.mk (PhysicsWorld.mk [] [(0, (NativeCollider.mk 0 (0, 0, 0) 0 0 0 (GroupsData.mk 0 0) (GroupsData.mk 0 0) false none 0))] [] 1) [(0, ⟨1, 1⟩)] ⟨0, 1⟩ (Pool.mk [⟨1, SlotState.occupied (Node.mk "" Handle.NONE [⟨1, 1⟩] (0, 0, 0) 0 1 true 1 true NodeKind.base)⟩, ⟨1, SlotState.occupied (Node.mk "" ⟨0, 1⟩ [] (0, 0, 0) 0 1 true 1 true (NodeKind.collider (ColliderData.mk 0 0 0 (GroupsData.mk 0 0) (GroupsData.mk 0 0) false none (some 0) (ColliderChanges.mk false false false false false false) false)))⟩]) : Graph ℕ).Invariant :=
  ⟨by decide, by decide, by decide⟩

/-- One parent-chain step phrased through `parentOf`. -/
theorem graph_parentIter_succ_parentOf {M : Type} (g : Graph M) (k : Nat) (x : Handle) :
    g.parentIter (k + 1) x = (g.parentOf x).bind (g.parentIter k) := by
  cases hn : g.tryGet x with
  | none =>
    rw [graph_parentIter_succ_dead k hn, graph_parentOf_dead hn]
    rfl
  | some n =>
    rw [graph_parentIter_succ k hn, graph_parentOf_eq hn]
    rfl

/-- A parent chain transfers to any graph that agrees on the parents of the
nodes it visits. -/
theorem graph_parentIter_frame {M : Type} {g g' : Graph M} :
    ∀ (k : Nat) (x t : Handle), g.parentIter k x = some t →
      (∀ i, i < k → ∀ y, g.parentIter i x = some y → g'.parentOf y = g.parentOf y) →
      g'.parentIter k x = some t := by
  intro k
  induction k with
  | zero =>
    intro x t hk _
    exact hk
  | succ k ih =>
    intro x t hk hfr
    have hx0 := hfr 0 (Nat.succ_pos k) x rfl
    have hal : (g.tryGet x).isSome = true := graph_parentIter_isSome_alive hk
    obtain ⟨n, hn⟩ := Option.isSome_iff_exists.mp hal
    rw [graph_parentIter_succ k hn] at hk
    rw [graph_parentIter_succ_parentOf g' k x, hx0, graph_parentOf_eq hn]
    simp only [Option.some_bind]
    refine ih n.parent t hk ?_
    intro i hi y hy
    refine hfr (i + 1) (Nat.succ_lt_succ hi) y ?_
    rw [graph_parentIter_succ i hn]
    exact hy

/-- Every prefix of a successful parent chain is successful. -/
theorem graph_parentIter_isSome_of_le {M : Type} {g : Graph M} {k : Nat} {x t : Handle}
    (hk : g.parentIter k x = some t) : ∀ i, i ≤ k → (g.parentIter i x).isSome = true := by
  intro i hi
  have hd : k = i + (k - i) := by omega
  rw [hd, graph_parentIter_add] at hk
  cases hs : g.parentIter i x with
  | none =>
    rw [hs] at hk
    exact Option.noConfusion hk
  | some y => rfl

/-- Every strictly-interior node of a successful parent chain is alive. -/
theorem graph_parentIter_alive_of_lt {M : Type} {g : Graph M} {k i : Nat} {x t y : Handle}
    (hk : g.parentIter k x = some t) (hi : i < k) (hy : g.parentIter i x = some y) :
    (g.tryGet y).isSome = true := by
  have hd : k = i + (k - i) := by omega
  rw [hd, graph_parentIter_add, hy] at hk
  simp only [Option.some_bind] at hk
  obtain ⟨m, hm⟩ : ∃ m, k - i = m + 1 := ⟨k - i - 1, by omega⟩
  rw [hm] at hk
  exact graph_parentIter_isSome_alive hk

/-- Any root-reaching chain can be shortened to one within the pool size:
longer chains revisit a live node and the loop between the two visits can
be cut out. -/
theorem graph_reach_bound {M : Type} {g : Graph M} {t : Handle}
    (hroot : (g.tryGet t).isSome = true) :
    ∀ (k : Nat) (x : Handle), g.parentIter k x = some t →
      ∃ k' ∈ List.range (g.pool.len + 1), g.parentIter k' x = some t := by
  intro k
  induction k using Nat.strong_induction_on with
  | _ k ih =>
    intro x hk
    by_cases hk_le : k ≤ g.pool.len
    · exact ⟨k, List.mem_range.mpr (by omega), hk⟩
    · push_neg at hk_le
      have key : ∀ i j, i < j → j ≤ k →
          (g.parentIter i x).getD Handle.NONE = (g.parentIter j x).getD Handle.NONE →
          ∃ k' ∈ List.range (g.pool.len + 1), g.parentIter k' x = some t := by
        intro i j hij hjk heq
        obtain ⟨y, hy⟩ := Option.isSome_iff_exists.mp
          (graph_parentIter_isSome_of_le hk i (by omega))
        obtain ⟨z, hz⟩ := Option.isSome_iff_exists.mp
          (graph_parentIter_isSome_of_le hk j hjk)
        rw [hy, hz] at heq
        simp only [Option.getD_some] at heq
        have hk2 := hk
        have hd : k = j + (k - j) := by omega
        rw [hd, graph_parentIter_add, hz] at hk2
        simp only [Option.some_bind] at hk2
        have hnew : g.parentIter (i + (k - j)) x = some t := by
          rw [graph_parentIter_add, hy]
          simp only [Option.some_bind]
          rw [heq]
          exact hk2
        exact ih (i + (k - j)) (by omega) x hnew
      have hmapsto : ∀ i ∈ Finset.range (k + 1),
          ((g.parentIter i x).getD Handle.NONE) ∈ g.pool.aliveList.toFinset := by
        intro i hi
        have hi' : i ≤ k := by
          have := Finset.mem_range.mp hi
          omega
        obtain ⟨y, hy⟩ := Option.isSome_iff_exists.mp
          (graph_parentIter_isSome_of_le hk i hi')
        rw [hy]
        simp only [Option.getD_some]
        rw [List.mem_toFinset, pool_mem_aliveList]
        by_cases hik : i < k
        · exact graph_parentIter_alive_of_lt hk hik hy
        · have hike : i = k := by omega
          subst hike
          have hyr : y = t := Option.some_inj.mp (hy.symm.trans hk)
          rw [hyr]
          exact hroot
      have hcard : (g.pool.aliveList.toFinset).card < (Finset.range (k + 1)).card := by
        rw [Finset.card_range]
        have h1 := List.toFinset_card_le g.pool.aliveList
        have h2 := pool_aliveList_length_le g.pool
        omega
      obtain ⟨i, hi, j, hj, hij, heq⟩ :=
        Finset.exists_ne_map_eq_of_card_lt_of_maps_to hcard hmapsto
      have hi' : i ≤ k := by
        have := Finset.mem_range.mp hi
        omega
      have hj' : j ≤ k := by
        have := Finset.mem_range.mp hj
        omega
      rcases Nat.lt_or_ge i j with hlt | hge
      · exact key i j hlt hj' heq
      · have hlt : j < i := by omega
        exact key j i hlt hi' heq.symm

/-- Removing the first occurrence drops exactly one from the count. -/
theorem graph_count_removeFirst_self : ∀ (l : List Handle) (a : Handle),
    (Graph.removeFirst l a).count a = l.count a - 1 := by
  intro l a
  induction l with
  | nil => rfl
  | cons x rest ih =>
    unfold Graph.removeFirst
    by_cases hx : x = a
    · rw [if_pos hx]
      subst hx
      rw [List.count_cons_self]
      omega
    · rw [if_neg hx]
      rw [List.count_cons_of_ne (fun e => hx e.symm),
        List.count_cons_of_ne (fun e => hx e.symm)]
      exact ih

/-- Removing the first occurrence of another element keeps the count. -/
theorem graph_count_removeFirst_ne : ∀ (l : List Handle) (a b : Handle), b ≠ a →
    (Graph.removeFirst l a).count b = l.count b := by
  intro l a b hba
  induction l with
  | nil => rfl
  | cons x rest ih =>
    unfold Graph.removeFirst
    by_cases hx : x = a
    · rw [if_pos hx]
      subst hx
      rw [List.count_cons_of_ne hba]
    · rw [if_neg hx]
      rw [List.count_cons, List.count_cons, ih]

/-- Members of `removeFirst l a` are members of `l`. -/
theorem graph_mem_of_mem_removeFirst {y a : Handle} : ∀ {l : List Handle},
    y ∈ Graph.removeFirst l a → y ∈ l := by
  intro l
  induction l with
  | nil => intro h; exact absurd h (List.not_mem_nil y)
  | cons x rest ih =>
    unfold Graph.removeFirst
    by_cases hx : x = a
    · rw [if_pos hx]
      exact fun h => List.mem_cons_of_mem x h
    · rw [if_neg hx]
      intro h
      rcases List.mem_cons.mp h with he | hm
      · rw [he]
        exact List.mem_cons_self x rest
      · exact List.mem_cons_of_mem x (ih hm)

/-- Occupied slots of a graph whose live handles all carry positive
generations themselves carry positive generations. -/
theorem pool_clause1_of_tryGet {M : Type} {g : Graph M}
    (h : ∀ (x : Handle) (v : Node M), g.tryGet x = some v → 1 ≤ x.generation) :
    ∀ s ∈ g.pool.slots, s.state.isOccupied = true → 1 ≤ s.generation := by
  intro s hs hocc
  obtain ⟨i, hi⟩ := List.getElem?_of_mem hs
  rcases s with ⟨gen, st⟩
  cases st with
  | occupied v =>
    exact h ⟨i, gen⟩ v ((pool_tryBorrow_eq_some g.pool ⟨i, gen⟩ v).mpr hi)
  | vacant => simp [SlotState.isOccupied] at hocc
  | reserved => simp [SlotState.isOccupied] at hocc

/-- Positive generations of live handles, from the slot-level clause. -/
theorem inv_gen_pos {M : Type} {g : Graph M} (hinv : g.Invariant) :
    ∀ (x : Handle) (v : Node M), g.tryGet x = some v → 1 ≤ x.generation := by
  intro x v hv
  have hslot := (graph_tryGet_eq_some_iff_slot g x v).mp hv
  exact hinv.1 _ (List.getElem?_mem hslot) (by simp [SlotState.isOccupied])

/-- Evaluation of `parentChildCount` when the node and its parent are
live. -/
theorem graph_parentChildCount_compute {M : Type} {g : Graph M} {x px : Handle}
    (hx : (g.tryGet x).isSome = true) (hpx : g.parentOf x = some px)
    (hpal : (g.tryGet px).isSome = true) :
    g.parentChildCount x = some ((g.childrenOfD px).count x) := by
  obtain ⟨nx, hnx⟩ := Option.isSome_iff_exists.mp hx
  obtain ⟨pnx, hpnx⟩ := Option.isSome_iff_exists.mp hpal
  have hpe : nx.parent = px := by
    rw [graph_parentOf_eq hnx] at hpx
    exact Option.some_inj.mp hpx
  unfold Graph.parentChildCount
  rw [hnx]
  simp only [Option.bind_eq_bind, Option.some_bind]
  rw [hpe, hpnx]
  simp only [Option.some_bind]
  rw [graph_childrenOfD_eq hpnx]
  rfl

/-- Master lemma for invariant restoration by `link_nodes`: linking a live
node `c` (whose occurrence data satisfies the pre-state conditions below)
under a live target `p` that `c` is not a bounded ancestor of yields a
graph satisfying the tree invariant.  The pre-state covers three callers:
a fully well-formed graph, a graph with `c` freshly detached, and a graph
with `c` freshly spawned. -/
theorem graph_link_restores_inv {M : Type} {g g' : Graph M} {c p : Handle} {cn : Node M}
    (hc : g.tryGet c = some cn)
    (hNone : g.tryGet Handle.NONE = none)
    (hgen : ∀ (x : Handle) (v : Node M), g.tryGet x = some v → 1 ≤ x.generation)
    (hroot_al : (g.tryGet g.root).isSome = true)
    (hroot_par : g.parentOf g.root = some Handle.NONE)
    (hcount : ∀ x, (g.tryGet x).isSome = true → x ≠ g.root → x ≠ c →
      ∃ px, g.parentOf x = some px ∧ (g.tryGet px).isSome = true ∧
        (g.childrenOfD px).count x = 1)
    (hpoint : ∀ x, (g.tryGet x).isSome = true → ∀ ch ∈ g.childrenOfD x,
      g.parentOf ch = some x)
    (hC : cn.parent = Handle.NONE ∨ ((g.tryGet cn.parent).isSome = true ∧
      (g.childrenOfD cn.parent).count c ≤ 1))
    (hreach : ∀ x, (g.tryGet x).isSome = true →
      (∃ k, g.parentIter k x = some g.root) ∨ (∃ k, g.parentIter k x = some c))
    (hcr : c ≠ g.root)
    (hpal : (g.tryGet p).isSome = true)
    (hadm : ∀ k, k ≤ g.pool.len → g.parentIter k p ≠ some c)
    (hl : g.linkNodes c p = some g') :
    g'.Invariant := by
  have hcal : (g.tryGet c).isSome = true := by rw [hc]; rfl
  obtain ⟨lroot, llen, -, -, -, -, lalive, lparent, lchildren, -, -, -⟩ :=
    graph_linkNodes_spec hNone hc hl
  have hpar_frame : ∀ y, y ≠ c → g'.parentOf y = g.parentOf y := by
    intro y hy
    rw [lparent y, if_neg hy]
  have hpc : g.parentOf c = some cn.parent := graph_parentOf_eq hc
  have hcne_p : ∀ x, (g.tryGet x).isSome = true → c ∈ g.childrenOfD x → x = cn.parent := by
    intro x hx hin
    have := hpoint x hx c hin
    rw [hpc] at this
    exact (Option.some_inj.mp this).symm
  -- the new parent reaches the root, along a chain avoiding `c`
  have hp_chain : ∃ kp, g'.parentIter kp p = some g.root := by
    rcases hreach p hpal with ⟨kp, hkp⟩ | ⟨kc, hkc⟩
    · obtain ⟨kp', hkpm, hkp'⟩ := graph_reach_bound hroot_al kp p hkp
      have hkple : kp' ≤ g.pool.len := by
        have := List.mem_range.mp hkpm
        omega
      refine ⟨kp', graph_parentIter_frame kp' p g.root hkp' ?_⟩
      intro i hi y hy
      refine hpar_frame y ?_
      intro he
      subst he
      exact hadm i (by omega) hy
    · exfalso
      obtain ⟨kc', hkcm, hkc'⟩ := graph_reach_bound hcal kc p hkc
      have := List.mem_range.mp hkcm
      exact hadm kc' (by omega) hkc'
  obtain ⟨kp, hp_chain⟩ := hp_chain
  -- unbounded reach in the linked graph
  have hreach' : ∀ x, (g'.tryGet x).isSome = true →
      ∃ k', g'.parentIter k' x = some g.root := by
    have hckey : ∃ k', g'.parentIter k' c = some g.root := by
      refine ⟨kp + 1, ?_⟩
      rw [graph_parentIter_succ_parentOf g' kp c, lparent c, if_pos rfl]
      simp only [Option.some_bind]
      exact hp_chain
    have main : ∀ (kx : Nat) (x t : Handle), (g'.tryGet x).isSome = true →
        g.parentIter kx x = some t → (t = g.root ∨ t = c) →
        ∃ k', g'.parentIter k' x = some g.root := by
      intro kx
      induction kx with
      | zero =>
        intro x t hx hk ht
        have hxt : x = t := Option.some_inj.mp hk
        subst hxt
        rcases ht with ht | ht
        · exact ⟨0, by rw [ht]; rfl⟩
        · subst ht
          exact hckey
      | succ kx ih =>
        intro x t hx hk ht
        by_cases hxc : x = c
        · subst hxc
          exact hckey
        · by_cases hxr : x = g.root
          · exact ⟨0, by rw [hxr]; rfl⟩
          · have hxal : (g.tryGet x).isSome = true := graph_parentIter_isSome_alive hk
            obtain ⟨nx, hnx⟩ := Option.isSome_iff_exists.mp hxal
            rw [graph_parentIter_succ kx hnx] at hk
            have hpal2 : (g.tryGet nx.parent).isSome = true := by
              cases kx with
              | zero =>
                have he : nx.parent = t := Option.some_inj.mp hk
                rw [he]
                rcases ht with ht | ht
                · rw [ht]; exact hroot_al
                · rw [ht]; exact hcal
              | succ kx2 => exact graph_parentIter_isSome_alive hk
            have hpal2' : (g'.tryGet nx.parent).isSome = true := by
              rw [lalive nx.parent]
              exact hpal2
            obtain ⟨k', hk'⟩ := ih nx.parent t hpal2' hk ht
            refine ⟨k' + 1, ?_⟩
            rw [graph_parentIter_succ_parentOf g' k' x, hpar_frame x hxc,
              graph_parentOf_eq hnx]
            simp only [Option.some_bind]
            exact hk'
    intro x hx
    have hxal : (g.tryGet x).isSome = true := by rw [← lalive x]; exact hx
    rcases hreach x hxal with ⟨k, hk⟩ | ⟨k, hk⟩
    · exact main k x g.root hx hk (Or.inl rfl)
    · exact main k x c hx hk (Or.inr rfl)
  -- count of `c` in the new parent's children list
  have hcount_c_p : (g'.childrenOfD p).count c = 1 := by
    rw [lchildren p, if_pos rfl, List.count_append]
    have h1 : ([c] : List Handle).count c = 1 := by
      rw [List.count_cons_self, List.count_nil]
    rw [h1]
    by_cases hpcn : p = cn.parent
    · rw [if_pos hpcn, graph_count_removeFirst_self]
      rcases hC with hC | ⟨-, hC⟩
      · rw [hpcn, hC] at hpal
        rw [hNone] at hpal
        exact absurd hpal (by simp)
      · rw [hpcn]
        omega
    · rw [if_neg hpcn]
      have h0 : (g.childrenOfD p).count c = 0 := by
        rw [List.count_eq_zero]
        intro hin
        exact hpcn (hcne_p p hpal hin)
      omega
  refine ⟨?_, ?_, ?_, ?_, ?_, ?_⟩
  · refine pool_clause1_of_tryGet ?_
    intro x v hv
    have hxal : (g.tryGet x).isSome = true := by
      rw [← lalive x]
      rw [hv]
      rfl
    obtain ⟨w, hw⟩ := Option.isSome_iff_exists.mp hxal
    exact hgen x w hw
  · rw [lroot, lalive]
    exact hroot_al
  · rw [lroot, hpar_frame g.root (fun e => hcr e.symm)]
    exact hroot_par
  · intro x hmem hxr
    have hx' : (g'.tryGet x).isSome = true := (graph_mem_aliveList g' x).mp hmem
    have hxal : (g.tryGet x).isSome = true := by rw [← lalive x]; exact hx'
    rw [lroot] at hxr
    by_cases hxc : x = c
    · subst hxc
      rw [graph_parentChildCount_compute hx' (by rw [lparent x, if_pos rfl])
        (by rw [lalive p]; exact hpal)]
      rw [hcount_c_p]
    · obtain ⟨px, hpx, hpxal, hcnt⟩ := hcount x hxal hxr hxc
      rw [graph_parentChildCount_compute hx' (by rw [hpar_frame x hxc]; exact hpx)
        (by rw [lalive px]; exact hpxal)]
      have hcnt' : (g'.childrenOfD px).count x = 1 := by
        rw [lchildren px]
        by_cases hpxp : px = p
        · rw [if_pos hpxp, List.count_append]
          have h1 : ([c] : List Handle).count x = 0 :=
            List.count_eq_zero.mpr (fun hmem2 => hxc (List.mem_singleton.mp hmem2))
          rw [h1]
          by_cases hpcn : p = cn.parent
          · rw [if_pos hpcn, graph_count_removeFirst_ne _ _ _ hxc, ← hpxp, hcnt]
          · rw [if_neg hpcn, ← hpxp, hcnt]
        · rw [if_neg hpxp]
          by_cases hpxcn : px = cn.parent
          · rw [if_pos hpxcn, graph_count_removeFirst_ne _ _ _ hxc, hcnt]
          · rw [if_neg hpxcn, hcnt]
      rw [hcnt']
  · intro x hmem ch hch
    have hx' : (g'.tryGet x).isSome = true := (graph_mem_aliveList g' x).mp hmem
    have hxal : (g.tryGet x).isSome = true := by rw [← lalive x]; exact hx'
    rw [lchildren x] at hch
    by_cases hxp : x = p
    · rw [if_pos hxp] at hch
      rcases List.mem_append.mp hch with hin | hin
      · by_cases hchc : ch = c
        · subst hchc
          rw [lparent ch, if_pos rfl, hxp]
        · rw [hpar_frame ch hchc]
          have hin2 : ch ∈ g.childrenOfD p := by
            by_cases hpcn : p = cn.parent
            · rw [if_pos hpcn] at hin
              exact graph_mem_of_mem_removeFirst hin
            · rw [if_neg hpcn] at hin
              exact hin
          rw [hxp]
          exact hpoint p hpal ch hin2
      · have he : ch = c := List.mem_singleton.mp hin
        subst he
        rw [lparent ch, if_pos rfl, hxp]
    · rw [if_neg hxp] at hch
      by_cases hxcn : x = cn.parent
      · rw [if_pos hxcn] at hch
        have hcnotin : c ∉ Graph.removeFirst (g.childrenOfD x) c := by
          rw [← List.count_eq_zero, graph_count_removeFirst_self]
          rcases hC with hC | ⟨-, hC⟩
          · rw [hxcn, hC] at hxal
            rw [hNone] at hxal
            exact absurd hxal (by simp)
          · rw [hxcn]
            omega
        have hchc : ch ≠ c := fun e => hcnotin (e ▸ hch)
        rw [hpar_frame ch hchc]
        exact hpoint x hxal ch (graph_mem_of_mem_removeFirst hch)
      · rw [if_neg hxcn] at hch
        have hchc : ch ≠ c := by
          intro he
          subst he
          exact hxcn (hcne_p x hxal hch)
        rw [hpar_frame ch hchc]
        exact hpoint x hxal ch hch
  · intro x hmem
    have hx' : (g'.tryGet x).isSome = true := (graph_mem_aliveList g' x).mp hmem
    obtain ⟨k', hk'⟩ := hreach' x hx'
    have hroot'_al : (g'.tryGet g'.root).isSome = true := by
      rw [lroot, lalive]
      exact hroot_al
    have hk'' : g'.parentIter k' x = some g'.root := by
      rw [lroot]
      exact hk'
    exact graph_reach_bound hroot'_al k' x hk''

/-- The root's parent chain visits only the root itself and `NONE`. -/
theorem graph_root_chain_only {M : Type} {g : Graph M} {c : Handle}
    (hrp : g.parentOf g.root = some Handle.NONE)
    (hNone : g.tryGet Handle.NONE = none)
    (hcr : c ≠ g.root) (hcn : c ≠ Handle.NONE) :
    ∀ k, g.parentIter k g.root ≠ some c := by
  intro k
  match k with
  | 0 =>
    intro hcon
    exact hcr (Option.some_inj.mp hcon).symm
  | 1 =>
    intro hcon
    rw [graph_parentIter_succ_parentOf g 0 g.root, hrp] at hcon
    simp only [Option.some_bind] at hcon
    exact hcn (Option.some_inj.mp hcon).symm
  | (j + 2) =>
    intro hcon
    rw [show j + 2 = 1 + (j + 1) from by omega, graph_parentIter_add,
      graph_parentIter_succ_parentOf g 0 g.root, hrp] at hcon
    simp only [Option.some_bind] at hcon
    rw [show g.parentIter 0 Handle.NONE = some Handle.NONE from rfl] at hcon
    simp only [Option.some_bind] at hcon
    rw [graph_parentIter_succ_dead j hNone] at hcon
    exact Option.noConfusion hcon

/-- The parent handle captured by a successful `unlink_internal` is `NONE`
or live. -/
theorem graph_unlinkInternal_parent_cases {M : Type} {g g' : Graph M} {h : Handle}
    {n : Node M} (hn : g.tryGet h = some n) (hu : g.unlinkInternal h = some g') :
    n.parent = Handle.NONE ∨ (g.tryGet n.parent).isSome = true := by
  unfold Graph.unlinkInternal at hu
  rw [hn] at hu
  simp only [Option.bind_eq_bind, Option.some_bind] at hu
  rw [Option.bind_eq_some] at hu
  obtain ⟨g₁, hs1, hu⟩ := hu
  obtain ⟨htry1, -, -, -, -⟩ := graph_setNode_eq_some hs1
  by_cases hp : n.parent = Handle.NONE
  · exact Or.inl hp
  · right
    rw [if_neg hp] at hu
    rw [Option.bind_eq_some] at hu
    obtain ⟨pn, hpn1, -⟩ := hu
    have h2 := htry1 n.parent
    by_cases hph : n.parent = h
    · rw [hph, hn]
      rfl
    · rw [if_neg hph] at h2
      rw [← h2, hpn1]
      rfl

/-- A successful `link_nodes` starts from a live child. -/
theorem graph_linkNodes_child_alive {M : Type} {g g' : Graph M} {c p : Handle}
    (hl : g.linkNodes c p = some g') : (g.tryGet c).isSome = true := by
  cases hcg : g.tryGet c with
  | none =>
    exfalso
    unfold Graph.linkNodes Graph.unlinkInternal at hl
    rw [hcg] at hl
    simp at hl
  | some cn => rfl

/-- A successful `link_nodes` decomposes through `unlink_internal`. -/
theorem graph_linkNodes_unlink_some {M : Type} {g g' : Graph M} {c p : Handle}
    (hl : g.linkNodes c p = some g') : ∃ g₁, g.unlinkInternal c = some g₁ := by
  unfold Graph.linkNodes at hl
  simp only [Option.bind_eq_bind] at hl
  rw [Option.bind_eq_some] at hl
  obtain ⟨g₁, hul, -⟩ := hl
  exact ⟨g₁, hul⟩

/-- `link_nodes` under the documented no-cycle contract preserves the tree
invariant. -/
theorem graph_linkNodes_preserves_inv {M : Type} {g g' : Graph M} {c p : Handle}
    (hinv : g.Invariant) (hadm : ¬ g.isAncestorWithin c p)
    (hl : g.linkNodes c p = some g') : g'.Invariant := by
  have hcal := graph_linkNodes_child_alive hl
  obtain ⟨cn, hc⟩ := Option.isSome_iff_exists.mp hcal
  have hNone := inv_none_dead hinv
  obtain ⟨-, -, -, -, -, hpal, -, -, -, -, -, -⟩ := graph_linkNodes_spec hNone hc hl
  have hcr : c ≠ g.root := by
    intro e
    subst e
    apply hadm
    obtain ⟨k, hkle, hk⟩ := inv_reach hinv hpal
    exact ⟨k, List.mem_range.mpr (by omega), hk⟩
  obtain ⟨pn, hpn, hcnt⟩ := inv_parent_spec hinv hc hcr
  refine graph_link_restores_inv hc hNone (inv_gen_pos hinv) (inv_root_alive hinv)
    (inv_root_parent hinv) ?_ ?_ ?_ ?_ hcr hpal ?_ hl
  · intro x hx hxr hxc
    obtain ⟨nx, hnx⟩ := Option.isSome_iff_exists.mp hx
    obtain ⟨pnx, hpnx, hcnt1⟩ := inv_parent_spec hinv hnx hxr
    refine ⟨nx.parent, graph_parentOf_eq hnx, by rw [hpnx]; rfl, ?_⟩
    rw [graph_childrenOfD_eq hpnx]
    exact hcnt1
  · intro x hx ch hch
    exact hinv.2.2.2.2.1 x ((graph_mem_aliveList g x).mpr hx) ch hch
  · right
    refine ⟨by rw [hpn]; rfl, ?_⟩
    rw [graph_childrenOfD_eq hpn]
    omega
  · intro x hx
    left
    obtain ⟨k, -, hk⟩ := inv_reach hinv hx
    exact ⟨k, hk⟩
  · intro k hk hcon
    exact hadm ⟨k, List.mem_range.mpr (by omega), hcon⟩

/-- Invariance under a change that keeps the root, slot occupancy and each
node's parent and children. -/
theorem graph_inv_congr {M : Type} {g g' : Graph M}
    (hroot : g'.root = g.root) (hlen : g'.pool.len = g.pool.len)
    (halive : ∀ x, (g'.tryGet x).isSome = (g.tryGet x).isSome)
    (hstruct : ∀ x n', g'.tryGet x = some n' → ∃ n, g.tryGet x = some n ∧
      n'.parent = n.parent ∧ n'.children = n.children)
    (hinv : g.Invariant) : g'.Invariant := by
  have hparent : ∀ x, g'.parentOf x = g.parentOf x := by
    intro x
    cases hx : g'.tryGet x with
    | none =>
      have hx2 : g.tryGet x = none := by
        have := halive x
        rw [hx] at this
        cases hg : g.tryGet x with
        | none => rfl
        | some n =>
          rw [hg] at this
          exact absurd this.symm (by simp)
      rw [graph_parentOf_dead hx, graph_parentOf_dead hx2]
    | some n' =>
      obtain ⟨n, hn, hp, -⟩ := hstruct x n' hx
      rw [graph_parentOf_eq hx, graph_parentOf_eq hn, hp]
  have hchildren : ∀ x, g'.childrenOfD x = g.childrenOfD x := by
    intro x
    cases hx : g'.tryGet x with
    | none =>
      have hx2 : g.tryGet x = none := by
        have := halive x
        rw [hx] at this
        cases hg : g.tryGet x with
        | none => rfl
        | some n =>
          rw [hg] at this
          exact absurd this.symm (by simp)
      rw [graph_childrenOfD_dead hx, graph_childrenOfD_dead hx2]
    | some n' =>
      obtain ⟨n, hn, -, hch⟩ := hstruct x n' hx
      rw [graph_childrenOfD_eq hx, graph_childrenOfD_eq hn, hch]
  refine ⟨?_, ?_, ?_, ?_, ?_, ?_⟩
  · refine pool_clause1_of_tryGet ?_
    intro x v hv
    have hxal : (g.tryGet x).isSome = true := by
      rw [← halive x, hv]
      rfl
    obtain ⟨w, hw⟩ := Option.isSome_iff_exists.mp hxal
    exact inv_gen_pos hinv x w hw
  · rw [hroot, halive]
    exact inv_root_alive hinv
  · rw [hroot, hparent]
    exact inv_root_parent hinv
  · intro x hmem hxr
    have hx' : (g'.tryGet x).isSome = true := (graph_mem_aliveList g' x).mp hmem
    have hxal : (g.tryGet x).isSome = true := by rw [← halive x]; exact hx'
    rw [hroot] at hxr
    obtain ⟨nx, hnx⟩ := Option.isSome_iff_exists.mp hxal
    obtain ⟨pnx, hpnx, hcnt⟩ := inv_parent_spec hinv hnx hxr
    rw [graph_parentChildCount_compute hx' (by rw [hparent]; exact graph_parentOf_eq hnx)
      (by rw [halive, hpnx]; rfl)]
    rw [hchildren, graph_childrenOfD_eq hpnx, hcnt]
  · intro x hmem ch hch
    have hx' : (g'.tryGet x).isSome = true := (graph_mem_aliveList g' x).mp hmem
    have hxal : (g.tryGet x).isSome = true := by rw [← halive x]; exact hx'
    rw [hchildren] at hch
    rw [hparent]
    exact hinv.2.2.2.2.1 x ((graph_mem_aliveList g x).mpr hxal) ch hch
  · intro x hmem
    have hx' : (g'.tryGet x).isSome = true := (graph_mem_aliveList g' x).mp hmem
    have hxal : (g.tryGet x).isSome = true := by rw [← halive x]; exact hx'
    obtain ⟨k, hkm, hk⟩ := hinv.2.2.2.2.2 x ((graph_mem_aliveList g x).mpr hxal)
    refine ⟨k, by rw [hlen]; exact hkm, ?_⟩
    rw [hroot]
    exact graph_parentIter_frame k x g.root hk (fun i _ y _ => hparent y)

/-- `unlink_node` on a live non-root handle preserves the tree invariant:
the detached node is immediately re-linked under the root. -/
theorem graph_unlinkNode_preserves_inv {M : Type} {g g' : Graph M} {h : Handle}
    (hinv : g.Invariant) (hne : h ≠ g.root) (hu : g.unlinkNode h = some g') :
    g'.Invariant := by
  have hNone := inv_none_dead hinv
  unfold Graph.unlinkNode at hu
  simp only [Option.bind_eq_bind] at hu
  rw [Option.bind_eq_some] at hu
  obtain ⟨g₁, hg1, hu⟩ := hu
  rw [Option.bind_eq_some] at hu
  obtain ⟨g₂, hg2, hg3⟩ := hu
  have hal : (g.tryGet h).isSome = true := by
    cases hng : g.tryGet h with
    | none =>
      exfalso
      unfold Graph.unlinkInternal at hg1
      rw [hng] at hg1
      simp at hg1
    | some n => rfl
  obtain ⟨n, hn⟩ := Option.isSome_iff_exists.mp hal
  obtain ⟨uroot, ulen, -, -, -, ualive, uframe, uself, upar⟩ :=
    graph_unlinkInternal_spec hNone hn hg1
  have hpar_ne : n.parent ≠ h := inv_parent_ne_self hinv hn
  obtain ⟨pn, hpn, hcnth⟩ := inv_parent_spec hinv hn hne
  have hNONEh : h ≠ Handle.NONE := by
    intro e
    rw [e, hNone] at hn
    exact Option.noConfusion hn
  have hn1 : g₁.tryGet h = some (g.clearColliderNative { n with parent := Handle.NONE }) := by
    rw [uself, if_neg hpar_ne]
  have hNone1 : g₁.tryGet Handle.NONE = none := by
    have hth := ualive Handle.NONE
    rw [hNone] at hth
    cases hx : g₁.tryGet Handle.NONE with
    | none => rfl
    | some q =>
      rw [hx] at hth
      exact absurd hth (by simp)
  have hp1val : g₁.tryGet n.parent
      = some { pn with children := Graph.removeFirst pn.children h } := upar hpar_ne pn hpn
  have hpar_frame : ∀ y, y ≠ h → g₁.parentOf y = g.parentOf y := by
    intro y hy
    by_cases hyp : y = n.parent
    · subst hyp
      rw [graph_parentOf_eq hp1val, graph_parentOf_eq hpn]
    · unfold Graph.parentOf
      rw [uframe y hy hyp]
  have hchild_h : g₁.childrenOfD h = g.childrenOfD h := by
    rw [graph_childrenOfD_eq hn1, graph_childrenOfD_eq hn,
      graph_clearColliderNative_children]
  have hchild_par : g₁.childrenOfD n.parent
      = Graph.removeFirst (g.childrenOfD n.parent) h := by
    rw [graph_childrenOfD_eq hp1val, graph_childrenOfD_eq hpn]
  have hchild_frame : ∀ y, y ≠ h → y ≠ n.parent → g₁.childrenOfD y = g.childrenOfD y := by
    intro y h1 h2
    unfold Graph.childrenOfD Graph.childrenOf
    rw [uframe y h1 h2]
  have hcnt_h_par : (g.childrenOfD n.parent).count h = 1 := by
    rw [graph_childrenOfD_eq hpn]
    exact hcnth
  have hroot1al : (g₁.tryGet g₁.root).isSome = true := by
    rw [uroot, ualive]
    exact inv_root_alive hinv
  have hroot_par1 : g₁.parentOf g₁.root = some Handle.NONE := by
    rw [uroot, hpar_frame g.root (fun e => hne e.symm)]
    exact inv_root_parent hinv
  have hcr1 : h ≠ g₁.root := by
    rw [uroot]
    exact hne
  have hgpoint := hinv.2.2.2.2.1
  have hInv2 : g₂.Invariant := by
    refine graph_link_restores_inv hn1 hNone1 ?_ hroot1al hroot_par1 ?_ ?_ ?_ ?_ hcr1
      hroot1al ?_ hg2
    · intro x v hv
      have hxal : (g.tryGet x).isSome = true := by
        rw [← ualive x, hv]
        rfl
      obtain ⟨w, hw⟩ := Option.isSome_iff_exists.mp hxal
      exact inv_gen_pos hinv x w hw
    · intro x hx hxr hxh
      have hxal : (g.tryGet x).isSome = true := by rw [← ualive x]; exact hx
      rw [uroot] at hxr
      obtain ⟨nx, hnx⟩ := Option.isSome_iff_exists.mp hxal
      obtain ⟨pnx, hpnx, hcx⟩ := inv_parent_spec hinv hnx hxr
      refine ⟨nx.parent, by rw [hpar_frame x hxh]; exact graph_parentOf_eq hnx,
        by rw [ualive, hpnx]; rfl, ?_⟩
      by_cases hxp : nx.parent = h
      · rw [hxp, hchild_h]
        rw [hxp] at hpnx
        rw [graph_childrenOfD_eq hpnx]
        exact hcx
      · by_cases hxpp : nx.parent = n.parent
        · rw [hxpp, hchild_par, graph_count_removeFirst_ne _ _ _ hxh]
          rw [hxpp] at hpnx
          rw [graph_childrenOfD_eq hpnx]
          exact hcx
        · rw [hchild_frame nx.parent hxp hxpp, graph_childrenOfD_eq hpnx]
          exact hcx
    · intro x hx ch hch
      have hxal : (g.tryGet x).isSome = true := by rw [← ualive x]; exact hx
      have hxmem := (graph_mem_aliveList g x).mpr hxal
      by_cases hxh : x = h
      · subst hxh
        rw [hchild_h] at hch
        have hp := hgpoint x hxmem ch hch
        have hchh : ch ≠ x := by
          intro e
          subst e
          rw [graph_parentOf_eq hn] at hp
          exact hpar_ne (Option.some_inj.mp hp)
        rw [hpar_frame ch hchh]
        exact hp
      · by_cases hxp : x = n.parent
        · subst hxp
          rw [hchild_par] at hch
          have hchh : ch ≠ h := by
            intro e
            rw [e] at hch
            have h0 : (Graph.removeFirst (g.childrenOfD n.parent) h).count h = 0 := by
              rw [graph_count_removeFirst_self, hcnt_h_par]
            exact (List.count_eq_zero.mp h0) hch
          rw [hpar_frame ch hchh]
          exact hgpoint n.parent hxmem ch (graph_mem_of_mem_removeFirst hch)
        · rw [hchild_frame x hxh hxp] at hch
          have hp := hgpoint x hxmem ch hch
          have hchh : ch ≠ h := by
            intro e
            subst e
            rw [graph_parentOf_eq hn] at hp
            exact hxp (Option.some_inj.mp hp).symm
          rw [hpar_frame ch hchh]
          exact hp
    · left
      rw [graph_clearColliderNative_parent]
    · have hmain : ∀ (k : Nat) (x : Handle), g.parentIter k x = some g.root →
          (∃ k', g₁.parentIter k' x = some g.root) ∨
          (∃ k', g₁.parentIter k' x = some h) := by
        intro k
        induction k with
        | zero =>
          intro x hk
          have hx : x = g.root := Option.some_inj.mp hk
          left
          exact ⟨0, by rw [hx]; rfl⟩
        | succ k ih =>
          intro x hk
          by_cases hxh : x = h
          · right
            exact ⟨0, by rw [hxh]; rfl⟩
          · have hxal : (g.tryGet x).isSome = true := graph_parentIter_isSome_alive hk
            obtain ⟨nx, hnx⟩ := Option.isSome_iff_exists.mp hxal
            rw [graph_parentIter_succ k hnx] at hk
            rcases ih nx.parent hk with ⟨k', hk'⟩ | ⟨k', hk'⟩
            · left
              refine ⟨k' + 1, ?_⟩
              rw [graph_parentIter_succ_parentOf g₁ k' x, hpar_frame x hxh,
                graph_parentOf_eq hnx]
              simp only [Option.some_bind]
              exact hk'
            · right
              refine ⟨k' + 1, ?_⟩
              rw [graph_parentIter_succ_parentOf g₁ k' x, hpar_frame x hxh,
                graph_parentOf_eq hnx]
              simp only [Option.some_bind]
              exact hk'
      intro x hx
      have hxal : (g.tryGet x).isSome = true := by rw [← ualive x]; exact hx
      obtain ⟨k, -, hk⟩ := inv_reach hinv hxal
      rcases hmain k x hk with ⟨k', hk'⟩ | hright
      · left
        exact ⟨k', by rw [uroot]; exact hk'⟩
      · right
        exact hright
    · intro k _
      exact graph_root_chain_only hroot_par1 hNone1 hcr1 hNONEh k
  obtain ⟨n₂, hn2, mtry, mroot, mlen, -, -⟩ := graph_modifyNode_spec hg3
  refine graph_inv_congr mroot mlen ?_ ?_ hInv2
  · intro x
    rw [mtry x]
    by_cases hxh : x = h
    · rw [if_pos hxh, hxh, hn2]
      rfl
    · rw [if_neg hxh]
  · intro x n' hx'
    rw [mtry x] at hx'
    by_cases hxh : x = h
    · rw [if_pos hxh] at hx'
      cases Option.some_inj.mp hx'
      exact ⟨n₂, by rw [hxh]; exact hn2, rfl, rfl⟩
    · rw [if_neg hxh] at hx'
      exact ⟨n', hx', rfl, rfl⟩

/-- Handles issued by `spawn` carry positive generations. -/
theorem pool_spawn_gen_pos {α : Type} (p : Pool α) (v : α) :
    1 ≤ (p.spawn v).1.generation := by
  rcases pool_spawn_cases p v with ⟨i, gg, hslot, hil, hsp⟩ | hsp <;> rw [hsp] <;> simp

/-- Re-linking a list of live non-root nodes under a node that sits
directly below the root preserves the tree invariant. -/
theorem graph_linkChildren_preserves_inv {M : Type} (hnew : Handle) :
    ∀ (cs : List Handle) (gcur gF : Graph M),
      gcur.Invariant →
      gcur.parentOf hnew = some gcur.root →
      (∀ cd ∈ cs, cd ≠ gcur.root ∧ (gcur.tryGet cd).isSome = true ∧ cd ≠ hnew) →
      cs.foldlM (fun acc child => acc.linkNodes child hnew) gcur = some gF →
      gF.Invariant := by
  intro cs
  induction cs with
  | nil =>
    intro gcur gF hinv _ _ hfold
    cases hfold
    exact hinv
  | cons cd rest ih =>
    intro gcur gF hinv hpar hconds hfold
    rw [List.foldlM_cons] at hfold
    rw [Option.bind_eq_bind, Option.bind_eq_some] at hfold
    obtain ⟨gmid, hstep, hrest⟩ := hfold
    obtain ⟨hcdr, hcdal, hcdnew⟩ := hconds cd (List.mem_cons_self cd rest)
    have hcdNONE : cd ≠ Handle.NONE := by
      intro e
      rw [e, inv_none_dead hinv] at hcdal
      exact absurd hcdal (by simp)
    have hadm : ¬ gcur.isAncestorWithin cd hnew := by
      rintro ⟨k, -, hk⟩
      cases k with
      | zero => exact hcdnew (Option.some_inj.mp hk).symm
      | succ k =>
        rw [graph_parentIter_succ_parentOf gcur k hnew, hpar] at hk
        simp only [Option.some_bind] at hk
        exact graph_root_chain_only (inv_root_parent hinv) (inv_none_dead hinv)
          hcdr hcdNONE k hk
    have hmidinv : gmid.Invariant := graph_linkNodes_preserves_inv hinv hadm hstep
    have hcdval := graph_linkNodes_child_alive hstep
    obtain ⟨cn, hcn⟩ := Option.isSome_iff_exists.mp hcdval
    obtain ⟨lroot, -, -, -, -, -, lalive, lparent, -, -, -, -⟩ :=
      graph_linkNodes_spec (inv_none_dead hinv) hcn hstep
    refine ih gmid gF hmidinv ?_ ?_ hrest
    · rw [lroot, lparent hnew, if_neg (fun e => hcdnew e.symm)]
      exact hpar
    · intro c hc
      obtain ⟨h1, h2, h3⟩ := hconds c (List.mem_cons_of_mem cd hc)
      exact ⟨by rw [lroot]; exact h1, by rw [lalive]; exact h2, h3⟩

/-- `add_node` under the documented contract on carried children preserves
the tree invariant. -/
theorem graph_addNode_preserves_inv {M : Type} [Monoid M] {g : Graph M} {node : Node M}
    {res : Handle × Graph M}
    (hinv : g.Invariant)
    (hadm : ∀ c ∈ node.children, c ≠ g.root ∧ (g.tryGet c).isSome = true)
    (ha : g.addNode node = some res) : res.2.Invariant := by
  have hNone := inv_none_dead hinv
  have hrootal := inv_root_alive hinv
  have hrootne := inv_root_ne_none hinv
  set pr := (g.pool.spawn { node with children := [] }).1 with hpr_def
  set g₀ : Graph M := { g with pool := (g.pool.spawn { node with children := [] }).2 }
    with hg0_def
  have hfresh : g.tryGet pr = none := pool_spawn_fresh g.pool _
  have hself0 : g₀.tryGet pr = some { node with children := [] } :=
    pool_spawn_tryBorrow_self g.pool _
  have hother0 : ∀ x, x ≠ pr → g₀.tryGet x = g.tryGet x := fun x hx =>
    pool_spawn_tryBorrow_other g.pool _ x hx
  have hprne : pr ≠ Handle.NONE := pool_spawn_ne_none g.pool _
  have hNone0 : g₀.tryGet Handle.NONE = none := by
    rw [hother0 Handle.NONE (fun e => hprne e.symm)]
    exact hNone
  have hrootpr : g.root ≠ pr := by
    intro e
    rw [e, hfresh] at hrootal
    exact Bool.noConfusion hrootal
  have hroot0 : (g₀.tryGet g.root).isSome = true := by
    rw [hother0 g.root hrootpr]
    exact hrootal
  have hpar_frame0 : ∀ y, y ≠ pr → g₀.parentOf y = g.parentOf y := by
    intro y hy
    unfold Graph.parentOf
    rw [hother0 y hy]
  have hchild_frame0 : ∀ y, y ≠ pr → g₀.childrenOfD y = g.childrenOfD y := by
    intro y hy
    unfold Graph.childrenOfD Graph.childrenOf
    rw [hother0 y hy]
  have hchild_pr : g₀.childrenOfD pr = [] := by
    rw [graph_childrenOfD_eq hself0]
  have hroot_par0 : g₀.parentOf g.root = some Handle.NONE := by
    rw [hpar_frame0 g.root hrootpr]
    exact inv_root_parent hinv
  -- decompose the computation
  unfold Graph.addNode at ha
  simp only [] at ha
  rw [if_neg hrootne] at ha
  simp only [Option.bind_eq_bind] at ha
  rw [Option.bind_eq_some] at ha
  obtain ⟨g₁, hg1, ha⟩ := ha
  rw [Option.bind_eq_some] at ha
  obtain ⟨g₂, hfold, ha⟩ := ha
  have hres : res = (pr, g₂) := (Option.some_inj.mp ha).symm
  rw [hres]
  -- the link-under-root step restores the invariant
  obtain ⟨gu, hgu⟩ := graph_linkNodes_unlink_some hg1
  have hInv1 : g₁.Invariant := by
    refine graph_link_restores_inv hself0 hNone0 ?_ hroot0 hroot_par0 ?_ ?_ ?_ ?_
      (fun e => hrootpr e.symm) hroot0 ?_ hg1
    · intro x v hv
      by_cases hx : x = pr
      · rw [hx, hpr_def]
        exact pool_spawn_gen_pos g.pool _
      · rw [hother0 x hx] at hv
        exact inv_gen_pos hinv x v hv
    · intro x hx hxr hxp
      have hxal : (g.tryGet x).isSome = true := by rw [← hother0 x hxp]; exact hx
      obtain ⟨nx, hnx⟩ := Option.isSome_iff_exists.mp hxal
      obtain ⟨pnx, hpnx, hcx⟩ := inv_parent_spec hinv hnx hxr
      have hpxpr : nx.parent ≠ pr := by
        intro e
        rw [e, hfresh] at hpnx
        exact Option.noConfusion hpnx
      refine ⟨nx.parent, by rw [hpar_frame0 x hxp]; exact graph_parentOf_eq hnx,
        by rw [hother0 nx.parent hpxpr, hpnx]; rfl, ?_⟩
      rw [hchild_frame0 nx.parent hpxpr, graph_childrenOfD_eq hpnx]
      exact hcx
    · intro x hx ch hch
      by_cases hxp : x = pr
      · rw [hxp, hchild_pr] at hch
        exact absurd hch (List.not_mem_nil ch)
      · rw [hchild_frame0 x hxp] at hch
        have hxal : (g.tryGet x).isSome = true := by rw [← hother0 x hxp]; exact hx
        have hp := hinv.2.2.2.2.1 x ((graph_mem_aliveList g x).mpr hxal) ch hch
        have hchpr : ch ≠ pr := by
          intro e
          rw [e, graph_parentOf_dead hfresh] at hp
          exact Option.noConfusion hp
        rw [hpar_frame0 ch hchpr]
        exact hp
    · rcases graph_unlinkInternal_parent_cases hself0 hgu with hno | hal
      · exact Or.inl hno
      · right
        refine ⟨hal, ?_⟩
        have h0 : pr ∉ g₀.childrenOfD ({ node with children := ([] : List Handle) }
            : Node M).parent := by
          intro hin
          by_cases hyp : ({ node with children := ([] : List Handle) } : Node M).parent = pr
          · rw [hyp, hchild_pr] at hin
            exact absurd hin (List.not_mem_nil pr)
          · rw [hchild_frame0 _ hyp] at hin
            have hyal : (g.tryGet ({ node with children := ([] : List Handle) }
                : Node M).parent).isSome = true := by
              rw [← hother0 _ hyp]
              exact hal
            have hp := hinv.2.2.2.2.1 _
              ((graph_mem_aliveList g _).mpr hyal) pr hin
            rw [graph_parentOf_dead hfresh] at hp
            exact Option.noConfusion hp
        rw [List.count_eq_zero.mpr h0]
        omega
    · intro x hx
      by_cases hxp : x = pr
      · right
        exact ⟨0, by rw [hxp]; rfl⟩
      · left
        have hxal : (g.tryGet x).isSome = true := by rw [← hother0 x hxp]; exact hx
        obtain ⟨k, -, hk⟩ := inv_reach hinv hxal
        refine ⟨k, graph_parentIter_frame k x g.root hk ?_⟩
        intro i hi y hy
        have hyal : (g.tryGet y).isSome = true := graph_parentIter_alive_of_lt hk hi hy
        have hypr : y ≠ pr := by
          intro e
          rw [e, hfresh] at hyal
          exact Bool.noConfusion hyal
        exact hpar_frame0 y hypr
    · intro k _ hcon
      exact graph_root_chain_only hroot_par0 hNone0 (fun e => hrootpr e.symm) hprne k hcon
  -- the child re-linking fold preserves it
  obtain ⟨cn1, hcn1⟩ := Option.isSome_iff_exists.mp (graph_linkNodes_child_alive hg1)
  obtain ⟨lroot, -, -, -, -, -, lalive, lparent, -, -, -, -⟩ :=
    graph_linkNodes_spec hNone0 hcn1 hg1
  have hpr1 : g₁.parentOf pr = some g₁.root := by
    rw [lparent pr, if_pos rfl, lroot]
  refine graph_linkChildren_preserves_inv pr node.children g₁ g₂ hInv1 hpr1 ?_ hfold
  intro c hc
  obtain ⟨h1, h2⟩ := hadm c hc
  have hcpr : c ≠ pr := by
    intro e
    rw [e, hfresh] at h2
    exact Bool.noConfusion h2
  refine ⟨?_, ?_, hcpr⟩
  · rw [lroot]
    show c ≠ g₀.root
    exact h1
  · rw [lalive, hother0 c hcpr]
    exact h2

/-- `remove_node` on a live non-root handle preserves the tree invariant:
the handle's subtree is freed and its old parent's children list loses
exactly the removed entry. -/
theorem graph_removeNode_preserves_inv {M : Type} {g g' : Graph M} {h : Handle}
    (hinv : g.Invariant) (hne : h ≠ g.root) (hr : g.removeNode h = some g') :
    g'.Invariant := by
  have hNone := inv_none_dead hinv
  unfold Graph.removeNode at hr
  simp only [Option.bind_eq_bind] at hr
  rw [Option.bind_eq_some] at hr
  obtain ⟨g₁, hg1, hloop⟩ := hr
  have hh : (g.tryGet h).isSome = true := by
    cases hng : g.tryGet h with
    | none =>
      exfalso
      unfold Graph.unlinkInternal at hg1
      rw [hng] at hg1
      simp at hg1
    | some n => rfl
  obtain ⟨n, hn⟩ := Option.isSome_iff_exists.mp hh
  obtain ⟨uroot, ulen, -, -, ueff, ualive, uframe, uself, upar⟩ :=
    graph_unlinkInternal_spec hNone hn hg1
  have hps : n.parent ≠ h := inv_parent_ne_self hinv hn
  obtain ⟨pn, hpn, hcnth⟩ := inv_parent_spec hinv hn hne
  have hpnal : (g.tryGet n.parent).isSome = true := by rw [hpn]; rfl
  have huh : g₁.tryGet h = some (g.clearColliderNative { n with parent := Handle.NONE }) := by
    rw [uself, if_neg hps]
  have hfl : (g.pool.aliveList.filter fun x =>
      decide (∃ s ∈ [h], g.descWithin s x)).length < g₁.pool.len + 1 := by
    have h1 : (g.pool.aliveList.filter fun x =>
        decide (∃ s ∈ [h], g.descWithin s x)).length ≤ g.pool.aliveList.length :=
      List.length_filter_le _ _
    have h2 := pool_aliveList_length_le g.pool
    rw [ulen]
    omega
  have halive : ∀ s ∈ [h], (g.tryGet s).isSome = true := by
    intro s hs
    rw [List.mem_singleton.mp hs]
    exact hh
  have hnodes : ∀ x, (∃ s ∈ [h], g.Desc s x) → ∃ n₀ nx, g.tryGet x = some n₀ ∧
      g₁.tryGet x = some nx ∧ nx.children = n₀.children ∧
      (nx.kind = n₀.kind ∨ g₁.nodePhysicsRemoved n₀) := by
    rintro x ⟨s, hs, hdx⟩
    rw [List.mem_singleton.mp hs] at hdx
    by_cases hxh : x = h
    · subst hxh
      refine ⟨n, g.clearColliderNative { n with parent := Handle.NONE }, hn, huh,
        graph_clearColliderNative_children g _, ?_⟩
      rcases graph_clearColliderNative_cases g { n with parent := Handle.NONE } with
        hcc | ⟨c, nid, hk, hnat, hlive, hcc⟩
      · left
        rw [hcc]
      · right
        have hk2 : n.kind = NodeKind.collider c := hk
        show Graph.nodePhysicsRemoved g₁ n
        unfold Graph.nodePhysicsRemoved
        rw [hk2]
        simp only []
        intro nid2 hnid2
        have he : nid = nid2 := by
          rw [hnat] at hnid2
          exact Option.some_inj.mp hnid2
        subst he
        have heff : (g₁.colliderMap, g₁.physics.colliders)
            = (AList.erase g.colliderMap nid, AList.erase g.physics.colliders nid) := by
          rw [ueff]
          unfold Graph.unlinkColliderEffect
          rw [hk2]
          simp only []
          rw [hnat]
          simp only []
          obtain ⟨q, hq⟩ := Option.isSome_iff_exists.mp hlive
          rw [hq]
        constructor
        · have hcq : g₁.physics.colliders = AList.erase g.physics.colliders nid :=
            congrArg Prod.snd heff
          rw [hcq, alist_get_erase, if_pos rfl]
        · have hmq : g₁.colliderMap = AList.erase g.colliderMap nid :=
            congrArg Prod.fst heff
          rw [hmq, alist_get_erase, if_pos rfl]
    · have hxp : x ≠ n.parent := by
        intro e
        obtain ⟨kh, -, hkh⟩ := inv_reach hinv hh
        have hpar1 : g.parentIter 1 h = some n.parent := by
          rw [graph_parentIter_succ 0 hn]
          rfl
        obtain ⟨kp, -, hkp⟩ := inv_reach hinv hpnal
        have h1 : kh = 1 + kp := graph_chain_through hinv hpar1 hkh hkp
        obtain ⟨m, hm⟩ := graph_desc_chain hinv hdx
        rw [e] at hm
        have h2 : kp = m + kh := graph_chain_through hinv hm hkp hkh
        omega
      have hxal : (g.tryGet x).isSome = true := graph_desc_alive hinv hh hdx
      obtain ⟨nx, hnx⟩ := Option.isSome_iff_exists.mp hxal
      exact ⟨nx, nx, hnx, by rw [uframe x hxh hxp]; exact hnx, rfl, Or.inl rfl⟩
  obtain ⟨g₂, hrun, hA, hB, -, -, hroot2⟩ :=
    graph_removeLoop_spec hinv (g₁.pool.len + 1) [h] g₁ hfl (by simp) halive hnodes
  have hg'g2 : g' = g₂ := Option.some_inj.mp (hloop.symm.trans hrun)
  subst hg'g2
  have hsub_iff : ∀ x, (∃ s ∈ [h], g.Desc s x) ↔ g.Desc h x := by
    intro x
    constructor
    · rintro ⟨s, hs, hd⟩
      rw [List.mem_singleton.mp hs] at hd
      exact hd
    · intro hd
      exact ⟨h, List.mem_singleton.mpr rfl, hd⟩
  have hdead : ∀ x, g.Desc h x → g'.tryGet x = none :=
    fun x hd => hA x ((hsub_iff x).mpr hd)
  have hval : ∀ x, ¬ g.Desc h x → g'.tryGet x = g₁.tryGet x :=
    fun x hd => hB x (fun hc => hd ((hsub_iff x).mp hc))
  have hnotdesc_self : ∀ x, ¬ g.Desc h x → x ≠ h := by
    intro x hd e
    rw [e] at hd
    exact hd (Graph.Desc.refl h)
  have hp1val : g₁.tryGet n.parent
      = some { pn with children := Graph.removeFirst pn.children h } := upar hps pn hpn
  have hpar_frame1 : ∀ y, y ≠ h → g₁.parentOf y = g.parentOf y := by
    intro y hy
    by_cases hyp : y = n.parent
    · subst hyp
      rw [graph_parentOf_eq hp1val, graph_parentOf_eq hpn]
    · unfold Graph.parentOf
      rw [uframe y hy hyp]
  have hchild_par1 : g₁.childrenOfD n.parent
      = Graph.removeFirst (g.childrenOfD n.parent) h := by
    rw [graph_childrenOfD_eq hp1val, graph_childrenOfD_eq hpn]
  have hchild_frame1 : ∀ y, y ≠ h → y ≠ n.parent →
      g₁.childrenOfD y = g.childrenOfD y := by
    intro y h1 h2
    unfold Graph.childrenOfD Graph.childrenOf
    rw [uframe y h1 h2]
  have hcnt_h_par : (g.childrenOfD n.parent).count h = 1 := by
    rw [graph_childrenOfD_eq hpn]
    exact hcnth
  have halive' : ∀ x, (g'.tryGet x).isSome = true ↔
      ((g.tryGet x).isSome = true ∧ ¬ g.Desc h x) := by
    intro x
    constructor
    · intro hx
      by_cases hd : g.Desc h x
      · rw [hdead x hd] at hx
        exact absurd hx (by simp)
      · refine ⟨?_, hd⟩
        rw [← ualive x, ← hval x hd]
        exact hx
    · rintro ⟨hx, hd⟩
      rw [hval x hd, ualive x]
      exact hx
  have hpar_frame' : ∀ y, ¬ g.Desc h y → g'.parentOf y = g.parentOf y := by
    intro y hd
    have h1 : g'.parentOf y = g₁.parentOf y := by
      unfold Graph.parentOf
      rw [hval y hd]
    rw [h1, hpar_frame1 y (hnotdesc_self y hd)]
  have hchild' : ∀ y, ¬ g.Desc h y → g'.childrenOfD y = g₁.childrenOfD y := by
    intro y hd
    unfold Graph.childrenOfD Graph.childrenOf
    rw [hval y hd]
  have hroot_notdesc : ¬ g.Desc h g.root := by
    intro hd
    obtain ⟨m, hm⟩ := graph_desc_chain hinv hd
    obtain ⟨kh, -, hkh⟩ := inv_reach hinv hh
    have h0 : (0 : Nat) = m + kh := graph_chain_through hinv hm rfl hkh
    have hm0 : m = 0 := by omega
    rw [hm0] at hm
    exact hne (Option.some_inj.mp hm).symm
  have hpar_notdesc : ¬ g.Desc h n.parent := by
    intro hd
    obtain ⟨m, hm⟩ := graph_desc_chain hinv hd
    obtain ⟨kh, -, hkh⟩ := inv_reach hinv hh
    have hpar1 : g.parentIter 1 h = some n.parent := by
      rw [graph_parentIter_succ 0 hn]
      rfl
    obtain ⟨kp, -, hkp⟩ := inv_reach hinv hpnal
    have h1 : kh = 1 + kp := graph_chain_through hinv hpar1 hkh hkp
    have h2 : kp = m + kh := graph_chain_through hinv hm hkp hkh
    omega
  have hch_notdesc : ∀ x ch, (g.tryGet x).isSome = true → ¬ g.Desc h x →
      g.parentOf ch = some x → ch ≠ h → ¬ g.Desc h ch := by
    intro x ch hxal hxnd hpch hchh hd
    obtain ⟨m, hm⟩ := graph_desc_chain hinv hd
    cases m with
    | zero => exact hchh (Option.some_inj.mp hm)
    | succ m2 =>
      obtain ⟨nch, hnch, hnchp⟩ := graph_parentOf_inv hpch
      rw [graph_parentIter_succ m2 hnch, hnchp] at hm
      exact hxnd (graph_chain_desc_general hinv hh m2 x hxal hm)
  have hroot' : g'.root = g.root := by
    rw [hroot2, uroot]
  refine ⟨?_, ?_, ?_, ?_, ?_, ?_⟩
  · refine pool_clause1_of_tryGet ?_
    intro x v hv
    have hxal : (g.tryGet x).isSome = true :=
      ((halive' x).mp (by rw [hv]; rfl)).1
    obtain ⟨w, hw⟩ := Option.isSome_iff_exists.mp hxal
    exact inv_gen_pos hinv x w hw
  · rw [hroot']
    exact (halive' g.root).mpr ⟨inv_root_alive hinv, hroot_notdesc⟩
  · rw [hroot', hpar_frame' g.root hroot_notdesc]
    exact inv_root_parent hinv
  · intro x hmem hxr
    have hx' : (g'.tryGet x).isSome = true := (graph_mem_aliveList g' x).mp hmem
    obtain ⟨hxal, hxnd⟩ := (halive' x).mp hx'
    rw [hroot'] at hxr
    obtain ⟨nx, hnx⟩ := Option.isSome_iff_exists.mp hxal
    obtain ⟨pnx, hpnx, hcx⟩ := inv_parent_spec hinv hnx hxr
    have hxmem : x ∈ g.childrenOfD nx.parent := by
      rw [graph_childrenOfD_eq hpnx]
      exact List.count_pos_iff.mp (by rw [hcx]; exact Nat.zero_lt_one)
    have hpnd : ¬ g.Desc h nx.parent := by
      intro hd
      exact hxnd (Graph.Desc.child hd hxmem)
    have hpnh : nx.parent ≠ h := hnotdesc_self nx.parent hpnd
    have hpal' : (g'.tryGet nx.parent).isSome = true :=
      (halive' nx.parent).mpr ⟨by rw [hpnx]; rfl, hpnd⟩
    rw [graph_parentChildCount_compute hx'
      (by rw [hpar_frame' x hxnd]; exact graph_parentOf_eq hnx) hpal']
    have hcnt' : (g'.childrenOfD nx.parent).count x = 1 := by
      rw [hchild' nx.parent hpnd]
      by_cases hynp : nx.parent = n.parent
      · rw [hynp, hchild_par1,
          graph_count_removeFirst_ne _ _ _ (hnotdesc_self x hxnd)]
        rw [hynp] at hpnx
        rw [graph_childrenOfD_eq hpnx]
        exact hcx
      · rw [hchild_frame1 nx.parent hpnh hynp, graph_childrenOfD_eq hpnx]
        exact hcx
    rw [hcnt']
  · intro x hmem ch hch
    have hx' : (g'.tryGet x).isSome = true := (graph_mem_aliveList g' x).mp hmem
    obtain ⟨hxal, hxnd⟩ := (halive' x).mp hx'
    have hxh : x ≠ h := hnotdesc_self x hxnd
    have hgpoint := hinv.2.2.2.2.1 x ((graph_mem_aliveList g x).mpr hxal)
    rw [hchild' x hxnd] at hch
    by_cases hxp : x = n.parent
    · subst hxp
      rw [hchild_par1] at hch
      have hchh : ch ≠ h := by
        intro e
        rw [e] at hch
        have h0 : (Graph.removeFirst (g.childrenOfD n.parent) h).count h = 0 := by
          rw [graph_count_removeFirst_self, hcnt_h_par]
        exact (List.count_eq_zero.mp h0) hch
      have hch2 : ch ∈ g.childrenOfD n.parent := graph_mem_of_mem_removeFirst hch
      have hp := hgpoint ch hch2
      rw [hpar_frame' ch (hch_notdesc n.parent ch hxal hxnd hp hchh)]
      exact hp
    · rw [hchild_frame1 x hxh hxp] at hch
      have hp := hgpoint ch hch
      have hchh : ch ≠ h := by
        intro e
        subst e
        rw [graph_parentOf_eq hn] at hp
        exact hxp (Option.some_inj.mp hp).symm
      rw [hpar_frame' ch (hch_notdesc x ch hxal hxnd hp hchh)]
      exact hp
  · intro x hmem
    have hx' : (g'.tryGet x).isSome = true := (graph_mem_aliveList g' x).mp hmem
    obtain ⟨hxal, hxnd⟩ := (halive' x).mp hx'
    obtain ⟨k, -, hk⟩ := inv_reach hinv hxal
    have hchain' : g'.parentIter k x = some g.root := by
      refine graph_parentIter_frame k x g.root hk ?_
      intro i hi y hy
      have hyal : (g.tryGet y).isSome = true := graph_parentIter_alive_of_lt hk hi hy
      have hynd : ¬ g.Desc h y := by
        intro hd
        exact hxnd (graph_desc_trans hd
          (graph_chain_desc_general hinv hyal i x hxal hy))
      exact hpar_frame' y hynd
    have hroot'_al : (g'.tryGet g'.root).isSome = true := by
      rw [hroot']
      exact (halive' g.root).mpr ⟨inv_root_alive hinv, hroot_notdesc⟩
    have hchain'' : g'.parentIter k x = some g'.root := by
      rw [hroot']
      exact hchain'
    exact graph_reach_bound hroot'_al k x hchain''

/-- `Graph::new` produces a well-formed single-node tree. -/
theorem graph_new_inv {M : Type} [Monoid M] : (Graph.new : Graph M).Invariant := by
  have hsl : (Graph.new : Graph M).pool.slots
      = [⟨1, SlotState.occupied { Node.baseDefault with name := "__ROOT__" }⟩] := rfl
  have hal : (Graph.new : Graph M).pool.aliveList = [⟨0, 1⟩] := rfl
  refine ⟨?_, ?_, ?_, ?_, ?_, ?_⟩
  · intro s hs _
    rw [hsl] at hs
    have he := List.mem_singleton.mp hs
    subst he
    exact Nat.le_refl 1
  · rfl
  · rfl
  · intro x hx hxr
    rw [hal] at hx
    rw [List.mem_singleton.mp hx] at hxr
    exact absurd rfl hxr
  · intro x hx ch hch
    rw [hal] at hx
    rw [List.mem_singleton.mp hx] at hch
    rw [show (Graph.new : Graph M).childrenOfD ⟨0, 1⟩ = [] from rfl] at hch
    exact absurd hch (List.not_mem_nil ch)
  · intro x hx
    rw [hal] at hx
    rw [List.mem_singleton.mp hx]
    exact ⟨0, List.mem_range.mpr (by omega), rfl⟩

/-- Runs of successful, contract-respecting structural-editing calls
preserve the tree invariant. -/
theorem graph_steps_inv {M : Type} [Monoid M] :
    ∀ {g : Graph M} {ops : List (GraphOp M)} {g' : Graph M},
      Graph.Steps g ops g' → g.Invariant → g'.Invariant := by
  intro g ops g' hs
  induction hs with
  | nil _ => exact id
  | @cons g g₁ g₂ op ops2 hadm happ hrest ih =>
    intro hinv
    refine ih ?_
    cases op with
    | addNode nd =>
      unfold Graph.applyOp at happ
      simp only [] at happ
      cases ha : g.addNode nd with
      | none =>
        rw [ha] at happ
        exact absurd happ (by simp)
      | some res =>
        rw [ha] at happ
        simp only [Option.map_some'] at happ
        rw [← Option.some_inj.mp happ]
        exact graph_addNode_preserves_inv hinv hadm ha
    | linkNodes c p =>
      exact graph_linkNodes_preserves_inv hinv hadm happ
    | unlinkNode hh =>
      exact graph_unlinkNode_preserves_inv hinv hadm happ
    | removeNode hh =>
      exact graph_removeNode_preserves_inv hinv hadm happ

/-- C1: every run of successful `add_node` / `link_nodes` / `unlink_node` /
`remove_node` calls from `Graph::new` that respects the documented caller
contracts (no linking of a node below its own subtree, carried children of
an added node are valid non-root handles, the root is never unlinked or
removed) keeps the live nodes a single tree rooted at the root handle:
occupied slots carry positive generations, the root is live with no
parent, every other live node occurs exactly once in its live parent's
children list, children lists point back to their owners, and every live
node's parent chain reaches the root. -/
theorem c1_structural_ops_preserve_single_tree {M : Type} [Monoid M]
    {ops : List (GraphOp M)} {g' : Graph M}
    (hs : Graph.Steps (Graph.new : Graph M) ops g') : g'.Invariant :=
  graph_steps_inv hs graph_new_inv

/-- Witness for C1: one `add_node` step from the fresh graph. -/
theorem c1_structural_ops_preserve_single_tree_witness :
    ∃ g' : Graph ℕ,
      Graph.Steps (Graph.new : Graph ℕ) [GraphOp.addNode Node.baseDefault] g' ∧
      g'.Invariant := by
  have happ : (Graph.new : Graph ℕ).applyOp (GraphOp.addNode Node.baseDefault)
      = some ((((Graph.new : Graph ℕ).addNode Node.baseDefault).map
          Prod.snd).getD Graph.new) := rfl
  exact ⟨_, Graph.Steps.cons (by decide) happ (Graph.Steps.nil _),
    c1_structural_ops_preserve_single_tree
      (Graph.Steps.cons (by decide) happ (Graph.Steps.nil _))⟩

/-- Counterexample to C1 as stated: without the caller contract, the raw
calls can leave the tree.  Adding a node and then (successfully) linking it
under itself yields a live node whose parent chain cycles on itself and
never reaches the root, and the resulting graph violates the single-tree
invariant. -/
theorem graph_parentIter_self_loop {M : Type} {g : Graph M} {h : Handle}
    (hp : g.parentOf h = some h) : ∀ k, g.parentIter k h = some h := by
  intro k
  induction k with
  | zero => rfl
  | succ k ih =>
    rw [graph_parentIter_succ_parentOf g k h, hp]
    simp only [Option.some_bind]
    exact ih

theorem c1_self_link_escapes_tree :
    ∃ pr : Handle × Graph ℕ, (Graph.new : Graph ℕ).addNode Node.baseDefault = some pr ∧
      ∃ g₂ : Graph ℕ, pr.2.linkNodes pr.1 pr.1 = some g₂ ∧
        (g₂.tryGet pr.1).isSome = true ∧
        (∀ k, g₂.parentIter k pr.1 = some pr.1) ∧
        ¬ g₂.Invariant := by
  refine ⟨_, rfl, _, rfl, by decide, ?_, by decide⟩
  exact graph_parentIter_self_loop (by decide)

end Fyrox
